import Mathlib

/-!
# Rate limiter: admission decision and its store

A shallow embedding of `internal/limiter` (`limiter.go`, `store.go`,
`redis_store.go`), `internal/config` (`config.go`) and `internal/middleware`
(`rate_limiter.go`).

Modelling conventions

* Go `string` is `String`; Go `int`, `int64` and `time.Duration` (nanoseconds)
  are `Int`. `Allow` performs no arithmetic on them, only the comparison
  `count > int64(limit)`; where the source multiplies (`redis_store.go`) the
  64-bit wrap-around is explicit (`wrapInt64`).
* A Go `error` is a `GoError`; a result `(v, err)` is the pair
  `(v, Option GoError)` with `none` for `nil`.
* The `Store` interface is a record of state-passing functions over an
  arbitrary state type: a store operation may read and change the state of the
  world behind it. The `context.Context` argument is only handed through by the
  source and is left out.
* Which store calls a run makes is observed the way the tests of the
  repository observe it: by running against a store that records its calls
  (`Store.recording`).
* What the source takes from libraries is modelled after their documentation:
  `fmt.Sprintf`, `strings.Split`, `strings.TrimSpace`, `strconv.Atoi` and
  `http.Error` as functions, the Redis client as a record of state-passing
  functions, with a model of the server (`miniRedis`) as one instance.
-/

namespace RateLimit

/-! ## Data model -/

/-- Go `error` values: a plain error (`errors.New`) or an error wrapping
another one (`fmt.Errorf` with the verb `%w`). -/
inductive GoError where
  | errorString (msg : String)
  | wrapError (msg : String) (err : GoError)
  deriving DecidableEq, Repr

/-- `limiter.TokenConfig` (limiter.go 8-11). -/
structure TokenConfig where
  Limit : Int
  BlockDuration : Int
  deriving DecidableEq, Repr

/-- Go `map[string]TokenConfig`; `none` is the nil map, `some l` a map whose
entries are the pairs of `l` (the first pair with a given key is its entry). -/
abbrev TokenConfigMap := Option (List (String × TokenConfig))

/-- Map lookup `config, exists := m[token]`; reading a nil map finds nothing. -/
def TokenConfigMap.get (m : TokenConfigMap) (token : String) : Option TokenConfig :=
  match m with
  | none => none
  | some entries => entries.lookup token

/-- `limiter.Store` (store.go), over the state `σ` of the world behind it. -/
structure Store (σ : Type) where
  Increment : String → Int → σ → (Int × Option GoError) × σ
  IsBlocked : String → σ → (Bool × Option GoError) × σ
  Block : String → Int → σ → Option GoError × σ

/-- `limiter.RateLimiter` (limiter.go 13-18). -/
structure RateLimiter (σ : Type) where
  store : Store σ
  ipLimit : Int
  ipBlockDuration : Int
  tokenConfigs : TokenConfigMap

/-- `NewRateLimiter` (limiter.go 20-27). -/
def NewRateLimiter {σ : Type} (store : Store σ) (ipLimit : Int) (ipBlockDuration : Int)
    (tokenConfigs : TokenConfigMap) : RateLimiter σ :=
  { store := store, ipLimit := ipLimit, ipBlockDuration := ipBlockDuration,
    tokenConfigs := tokenConfigs }

/-! ## The admission decision -/

/-- The first block of `RateLimiter.Allow` (limiter.go 30-50): the values of
the locals `key`, `limit` and `blockDuration`. -/
def RateLimiter.resolve {σ : Type} (rl : RateLimiter σ) (ip : String) (token : String) :
    String × Int × Int :=
  if token ≠ "" then
    match rl.tokenConfigs.get token with
    | some config => ("token:" ++ token, config.Limit, config.BlockDuration)
    | none => ("ip:" ++ ip, rl.ipLimit, rl.ipBlockDuration)
  else
    ("ip:" ++ ip, rl.ipLimit, rl.ipBlockDuration)

/-- `RateLimiter.Allow` (limiter.go 29-74). The result is the returned pair
`(bool, error)` and the state the store calls leave behind. -/
def RateLimiter.Allow {σ : Type} (rl : RateLimiter σ) (ip : String) (token : String) (s : σ) :
    (Bool × Option GoError) × σ :=
  match rl.resolve ip token with
  | (key, limit, blockDuration) =>
    match rl.store.IsBlocked key s with
    | ((_, some err), s1) => ((false, some err), s1)
    | ((blocked, none), s1) =>
      if blocked then ((false, none), s1)
      else
        match rl.store.Increment key 1 s1 with
        | ((_, some err), s2) => ((false, some err), s2)
        | ((count, none), s2) =>
          if count > limit then
            match rl.store.Block key blockDuration s2 with
            | (some err, s3) => ((false, some err), s3)
            | (none, s3) => ((false, none), s3)
          else ((true, none), s2)

/-- The results of `n` consecutive `Allow` calls for the same request and the
state after the last one (the loop of `TestRateLimiter_Allow_DifferentIPs`,
limiter_test.go 371-384, for one identity). -/
def RateLimiter.AllowN {σ : Type} (rl : RateLimiter σ) (ip : String) (token : String) :
    Nat → σ → List (Bool × Option GoError) × σ
  | 0, s => ([], s)
  | n + 1, s =>
    match rl.Allow ip token s with
    | (r, s1) =>
      match RateLimiter.AllowN rl ip token n s1 with
      | (rs, s2) => (r :: rs, s2)

/-! ## Observing store calls -/

/-- One call of a `Store` method with its arguments. -/
inductive StoreCall where
  | IsBlocked (key : String)
  | Increment (key : String) (windowSec : Int)
  | Block (key : String) (duration : Int)
  deriving DecidableEq, Repr

/-- The key argument of a store call. -/
def StoreCall.key : StoreCall → String
  | StoreCall.IsBlocked k => k
  | StoreCall.Increment k _ => k
  | StoreCall.Block k _ => k

/-- Is the call an `Increment`? -/
def StoreCall.isIncrement : StoreCall → Bool
  | StoreCall.Increment _ _ => true
  | _ => false

/-- Is the call a `Block`? -/
def StoreCall.isBlock : StoreCall → Bool
  | StoreCall.Block _ _ => true
  | _ => false

/-- A store that behaves as `st` and appends every call it receives to a log
(the capturing `mockStore` of limiter_test.go 10-35 around an arbitrary
store). -/
def Store.recording {σ : Type} (st : Store σ) : Store (σ × List StoreCall) :=
  { Increment := fun key windowSec s =>
      ((st.Increment key windowSec s.1).1,
        ((st.Increment key windowSec s.1).2, s.2 ++ [StoreCall.Increment key windowSec]))
    IsBlocked := fun key s =>
      ((st.IsBlocked key s.1).1, ((st.IsBlocked key s.1).2, s.2 ++ [StoreCall.IsBlocked key]))
    Block := fun key duration s =>
      ((st.Block key duration s.1).1,
        ((st.Block key duration s.1).2, s.2 ++ [StoreCall.Block key duration])) }

/-- The limiter `rl` with its store replaced by the recording one. -/
def RateLimiter.recording {σ : Type} (rl : RateLimiter σ) : RateLimiter (σ × List StoreCall) :=
  { store := rl.store.recording, ipLimit := rl.ipLimit, ipBlockDuration := rl.ipBlockDuration,
    tokenConfigs := rl.tokenConfigs }

/-- The store calls one `Allow` call makes, in order. -/
def RateLimiter.calls {σ : Type} (rl : RateLimiter σ) (ip : String) (token : String) (s : σ) :
    List StoreCall :=
  (rl.recording.Allow ip token (s, [])).2.2

/-! ## Stores used as concrete inputs -/

/-- The `mockStore` of limiter_test.go 10-35 with fixed answers: it has no
state, `IsBlocked` answers `blocked`, `Increment` answers `count` and `Block`
answers `blockErr`. -/
def mockStore (blocked : Bool × Option GoError) (count : Int × Option GoError)
    (blockErr : Option GoError) : Store Unit :=
  { Increment := fun _ _ s => (count, s)
    IsBlocked := fun _ s => (blocked, s)
    Block := fun _ _ s => (blockErr, s) }

/-- The limiter of `TestRateLimiter_Allow_TokenBlockDuration`
(limiter_test.go 408-442): the count is 101, the token `special-token` has
limit 100 and block duration 15 minutes, the IP policy is 10 and 5 minutes. -/
def rl_TokenBlockDuration : RateLimiter Unit :=
  NewRateLimiter (mockStore (false, none) (101, none) none) 10 300000000000
    (some [("special-token", { Limit := 100, BlockDuration := 900000000000 })])

/-- The limiter of `TestRateLimiter_Allow_TokenConfigTakesPrecedence`
(limiter_test.go 116-147): the count is 50, the token `abc123` has limit 100
and block duration 10 minutes, the IP policy is 10 and 5 minutes. -/
def rl_TokenConfigTakesPrecedence : RateLimiter Unit :=
  NewRateLimiter (mockStore (false, none) (50, none) none) 10 300000000000
    (some [("abc123", { Limit := 100, BlockDuration := 600000000000 })])

/-- The limiter of `TestRateLimiter_Allow_UnconfiguredTokenUsesIPLimit`
(limiter_test.go 149-180): the count is 5 and only the token `abc123` is
configured. -/
def rl_UnconfiguredTokenUsesIPLimit : RateLimiter Unit :=
  NewRateLimiter (mockStore (false, none) (5, none) none) 10 300000000000
    (some [("abc123", { Limit := 100, BlockDuration := 600000000000 })])

/-- The state of an in-memory store: the per-key counters of the current
window, kept as `callCount` is in `TestRateLimiter_Allow_DifferentIPs`
(limiter_test.go 357-385), and in addition the keys that hold a block
record. -/
structure MemState where
  counters : List (String × Int)
  blocks : List String
  deriving DecidableEq, Repr

/-- The counter of `key` in an in-memory state; a key never counted is at 0. -/
def MemState.counter (m : MemState) (key : String) : Int :=
  (m.counters.lookup key).getD 0

/-- Does `key` hold a block record in an in-memory state? -/
def MemState.blocked (m : MemState) (key : String) : Bool :=
  m.blocks.contains key

/-- The in-memory store: `Increment` adds one to the counter of the key and
returns it, `IsBlocked` reads the block record, `Block` sets it; no call
fails. It stands for one window and for the time in which no block record
expires. -/
def memStore : Store MemState :=
  { Increment := fun key _ m =>
      ((m.counter key + 1, none),
        { counters := (key, m.counter key + 1) :: m.counters, blocks := m.blocks })
    IsBlocked := fun key m => ((m.blocked key, none), m)
    Block := fun key _ m => (none, { counters := m.counters, blocks := key :: m.blocks }) }

/-- The limiter of the scenario "limit 10, block duration 5 minutes, no token
configured" (the limiter of `TestRateLimiter_Allow_DifferentIPs`) over the
in-memory store. -/
def rl_mem : RateLimiter MemState :=
  NewRateLimiter memStore 10 300000000000 none

/-! ## The Redis store -/

/-- Two's-complement wrap-around of a 64-bit signed integer operation. -/
def wrapInt64 (x : Int) : Int :=
  (x + 2 ^ 63) % 2 ^ 64 - 2 ^ 63

/-- `time.Second`, in nanoseconds. -/
def Second : Int := 1000000000

/-- The verb `%d` of `fmt.Sprintf` on an `int64`: decimal digits, with a
leading minus sign for a negative number. -/
def formatInt : Int → String
  | Int.ofNat m => Nat.repr m
  | Int.negSucc m => "-" ++ Nat.repr (m + 1)

/-- `fmt.Sprintf("ratelimit:%s:%d", key, now)` (redis_store.go 23). -/
def windowKey (key : String) (now : Int) : String :=
  "ratelimit:" ++ key ++ ":" ++ formatInt now

/-- `fmt.Sprintf("ratelimit:blocked:%s", key)` (redis_store.go 39 and 49). -/
def blockedKey (key : String) : String :=
  "ratelimit:blocked:" ++ key

/-- The Redis commands the store issues, with their arguments. -/
inductive RedisCmd where
  | Incr (key : String)
  | Expire (key : String) (expiration : Int)
  | Exists (key : String)
  | Set (key : String) (value : Int) (expiration : Int)
  deriving DecidableEq, Repr

/-- What the store uses of `*redis.Client`, over the state `ρ` of the world
(the Redis server, the connection, the clock).
`Exists` is `client.Exists(ctx, key).Result()`, `Set` is
`client.Set(ctx, key, value, expiration).Err()`, and `PipelineExec` runs the
commands queued on `client.Pipeline()` by `Exec`: it gives the value of every
queued command and the error of `Exec`. -/
structure RedisClient (ρ : Type) where
  Exists : String → ρ → (Int × Option GoError) × ρ
  Set : String → Int → Int → ρ → Option GoError × ρ
  PipelineExec : List RedisCmd → ρ → (List Int × Option GoError) × ρ

/-- `limiter.RedisStore` (redis_store.go 11-13). -/
structure RedisStore (ρ : Type) where
  client : RedisClient ρ

/-- `NewRedisStore` (redis_store.go 15-19). -/
def NewRedisStore {ρ : Type} (client : RedisClient ρ) : RedisStore ρ :=
  { client := client }

/-- `RedisStore.Increment` (redis_store.go 21-36). `unixNow` reads
`time.Now().Unix()` off the state of the world; `incrCmd.Val()` is the value
of the first queued command, 0 when there is none. -/
def RedisStore.Increment {ρ : Type} (r : RedisStore ρ) (unixNow : ρ → Int) (key : String)
    (windowSec : Int) (s : ρ) : (Int × Option GoError) × ρ :=
  match r.client.PipelineExec
      [RedisCmd.Incr (windowKey key (unixNow s)),
        RedisCmd.Expire (windowKey key (unixNow s))
          (wrapInt64 (wrapInt64 (windowSec + 1) * Second))] s with
  | ((_, some err), s1) =>
    ((0, some (GoError.wrapError "failed to increment rate limit: " err)), s1)
  | ((vals, none), s1) => ((vals.getD 0 0, none), s1)

/-- `RedisStore.IsBlocked` (redis_store.go 38-45). -/
def RedisStore.IsBlocked {ρ : Type} (r : RedisStore ρ) (key : String) (s : ρ) :
    (Bool × Option GoError) × ρ :=
  match r.client.Exists (blockedKey key) s with
  | ((_, some err), s1) =>
    ((false, some (GoError.wrapError "failed to check if blocked: " err)), s1)
  | ((existing, none), s1) => ((decide (existing > 0), none), s1)

/-- `RedisStore.Block` (redis_store.go 47-54). -/
def RedisStore.Block {ρ : Type} (r : RedisStore ρ) (key : String) (duration : Int) (s : ρ) :
    Option GoError × ρ :=
  match r.client.Set (blockedKey key) 1 duration s with
  | (some err, s1) => (some (GoError.wrapError "failed to block key: " err), s1)
  | (none, s1) => (none, s1)

/-- A `RedisStore` is a `Store` (main.go 25-32 hands it to `NewRateLimiter`). -/
def RedisStore.toStore {ρ : Type} (r : RedisStore ρ) (unixNow : ρ → Int) : Store ρ :=
  { Increment := r.Increment unixNow
    IsBlocked := r.IsBlocked
    Block := r.Block }

/-- A client that behaves as `c` and appends every round trip it makes, as
the list of commands sent, to a log. -/
def RedisClient.recording {ρ : Type} (c : RedisClient ρ) :
    RedisClient (ρ × List (List RedisCmd)) :=
  { Exists := fun key s =>
      ((c.Exists key s.1).1, ((c.Exists key s.1).2, s.2 ++ [[RedisCmd.Exists key]]))
    Set := fun key value expiration s =>
      ((c.Set key value expiration s.1).1,
        ((c.Set key value expiration s.1).2, s.2 ++ [[RedisCmd.Set key value expiration]]))
    PipelineExec := fun cmds s =>
      ((c.PipelineExec cmds s.1).1, ((c.PipelineExec cmds s.1).2, s.2 ++ [cmds])) }

/-- The store `r` with its client replaced by the recording one. -/
def RedisStore.recording {ρ : Type} (r : RedisStore ρ) : RedisStore (ρ × List (List RedisCmd)) :=
  { client := r.client.recording }

/-- A client with fixed answers and no state. -/
def mockClient (existsReply : Int × Option GoError) (setErr : Option GoError)
    (pipeReply : List Int × Option GoError) : RedisClient Unit :=
  { Exists := fun _ s => (existsReply, s)
    Set := fun _ _ _ s => (setErr, s)
    PipelineExec := fun _ s => (pipeReply, s) }

/-! ## The Go library functions the configuration loader uses

Strings are sequences of Unicode characters here; the separators, signs and
digits these functions look for are ASCII. -/

/-- `unicode.IsSpace`: the characters with the Unicode property White_Space. -/
def isSpace (c : Char) : Bool :=
  c.toNat == 0x09 || c.toNat == 0x0A || c.toNat == 0x0B || c.toNat == 0x0C ||
  c.toNat == 0x0D || c.toNat == 0x20 || c.toNat == 0x85 || c.toNat == 0xA0 ||
  c.toNat == 0x1680 || (0x2000 ≤ c.toNat && c.toNat ≤ 0x200A) ||
  c.toNat == 0x2028 || c.toNat == 0x2029 || c.toNat == 0x202F ||
  c.toNat == 0x205F || c.toNat == 0x3000

/-- `strings.TrimSpace`: the string without its leading and trailing white
space. -/
def TrimSpace (s : String) : String :=
  ⟨((s.data.dropWhile isSpace).reverse.dropWhile isSpace).reverse⟩

/-- `strings.Split(s, sep)` for a separator `sep` of one character: the
pieces of `s` between the occurrences of `sep` (one piece more than there
are occurrences). -/
def Split (s : String) (sep : Char) : List String :=
  (s.data.splitOn sep).map String.mk

/-- The number a string of decimal digits denotes. -/
def digitsValue (ds : List Char) : Nat :=
  ds.foldl (fun acc c => 10 * acc + (c.toNat - 48)) 0

/-- The `*strconv.NumError` of `strconv.Atoi` for the input `num` (the
quoting of `num` in the message is left plain). -/
def NumError (num : String) (err : GoError) : GoError :=
  GoError.wrapError ("strconv.Atoi: parsing \"" ++ num ++ "\": ") err

/-- `strconv.Atoi` for a 64-bit `int`: an optional sign `+` or `-` followed
by one or more decimal digits; the value has to lie in the range of `int`,
otherwise the nearest bound is returned with a range error. -/
def Atoi (s : String) : Int × Option GoError :=
  match (match s.data with
    | '+' :: ds => (false, ds)
    | '-' :: ds => (true, ds)
    | ds => (false, ds)) with
  | (neg, ds) =>
    if ds = [] ∨ ds.all Char.isDigit = false then
      (0, some (NumError s (GoError.errorString "invalid syntax")))
    else if neg then
      if 2 ^ 63 < digitsValue ds then
        (-(2 ^ 63), some (NumError s (GoError.errorString "value out of range")))
      else (-(digitsValue ds : Int), none)
    else
      if 2 ^ 63 ≤ digitsValue ds then
        (2 ^ 63 - 1, some (NumError s (GoError.errorString "value out of range")))
      else ((digitsValue ds : Int), none)

/-! ## The configuration loader -/

/-- The assignment `configs[token] = config` on the entries of a map. -/
def mapSet (entries : List (String × TokenConfig)) (token : String) (config : TokenConfig) :
    List (String × TokenConfig) :=
  (token, config) :: entries.filter (fun e => e.1 != token)

/-- The loop of `parseTokenConfigs` (config.go 65-86) over the entries still
to read, with the map filled so far. -/
def parseTokenConfigs.loop :
    List String → List (String × TokenConfig) → TokenConfigMap × Option GoError
  | [], configs => (some configs, none)
  | entry :: entries, configs =>
    match Split (TrimSpace entry) ':' with
    | [p0, p1, p2] =>
      match Atoi (TrimSpace p1) with
      | (_, some err) =>
        (none, some (GoError.wrapError
          ("invalid limit for token " ++ TrimSpace p0 ++ ": ") err))
      | (limit, none) =>
        match Atoi (TrimSpace p2) with
        | (_, some err) =>
          (none, some (GoError.wrapError
            ("invalid block duration for token " ++ TrimSpace p0 ++ ": ") err))
        | (blockSec, none) =>
          parseTokenConfigs.loop entries
            (mapSet configs (TrimSpace p0)
              { Limit := limit, BlockDuration := wrapInt64 (blockSec * Second) })
    | _ =>
      (none, some (GoError.errorString
        ("invalid token config format: " ++ entry ++ " (expected token:limit:blockSec)")))

/-- `parseTokenConfigs` (config.go 58-89). -/
def parseTokenConfigs (s : String) : TokenConfigMap × Option GoError :=
  if s = "" then (some [], none)
  else parseTokenConfigs.loop (Split s ',') []

/-- `config.Config` (config.go 14-20). -/
structure Config where
  RedisAddr : String
  RedisPassword : String
  IPLimit : Int
  IPBlockDuration : Int
  TokenConfigs : TokenConfigMap
  deriving DecidableEq, Repr

/-- `getEnv` (config.go 51-56); `env` is `os.Getenv`, which is empty for a
variable that is not set. -/
def getEnv (env : String → String) (key : String) (defaultValue : String) : String :=
  if env key ≠ "" then env key else defaultValue

/-- `Load` (config.go 22-49); `env` is the environment of the process once
`godotenv.Load()` has run. -/
def Load (env : String → String) : Option Config × Option GoError :=
  match Atoi (getEnv env "RATE_LIMIT_IP" "10") with
  | (_, some err) => (none, some (GoError.wrapError "invalid RATE_LIMIT_IP: " err))
  | (ipLimit, none) =>
    match Atoi (getEnv env "RATE_LIMIT_IP_BLOCK_DURATION" "300") with
    | (_, some err) =>
      (none, some (GoError.wrapError "invalid RATE_LIMIT_IP_BLOCK_DURATION: " err))
    | (ipBlockSec, none) =>
      match parseTokenConfigs (getEnv env "RATE_LIMIT_TOKENS" "") with
      | (_, some err) => (none, some (GoError.wrapError "invalid RATE_LIMIT_TOKENS: " err))
      | (tokenConfigs, none) =>
        (some
          { RedisAddr := getEnv env "REDIS_ADDR" "redis:6379"
            RedisPassword := getEnv env "REDIS_PASSWORD" ""
            IPLimit := ipLimit
            IPBlockDuration := wrapInt64 (ipBlockSec * Second)
            TokenConfigs := tokenConfigs }, none)

/-- An environment given by a list of assignments. -/
def envOf (vars : List (String × String)) : String → String :=
  fun key => (vars.lookup key).getD ""

/-! ## The HTTP middleware -/

/-- `middleware.Limiter` (rate_limiter.go 9-11), over the state `σ` behind it. -/
structure Limiter (σ : Type) where
  Allow : String → String → σ → (Bool × Option GoError) × σ

/-- A `RateLimiter` is a `Limiter` (main.go 40). -/
def RateLimiter.toLimiter {σ : Type} (rl : RateLimiter σ) : Limiter σ :=
  { Allow := rl.Allow }

/-- What the middleware reads of an `*http.Request`: the field `RemoteAddr`
and the method `Header.Get`. -/
structure Request where
  RemoteAddr : String
  HeaderGet : String → String

/-- A call on an `http.ResponseWriter` that sets the status or writes to the
body (header fields are left out). -/
inductive WriterCall where
  | WriteHeader (statusCode : Nat)
  | Write (data : String)
  deriving DecidableEq, Repr

/-- `http.Error(w, error, code)`: the status `code`, then the line `error`;
`w` is the list of the calls made on the writer so far. -/
def httpError (w : List WriterCall) (error : String) (code : Nat) : List WriterCall :=
  w ++ [WriterCall.WriteHeader code, WriterCall.Write (error ++ "\n")]

/-- `http.StatusInternalServerError`. -/
def StatusInternalServerError : Nat := 500

/-- `http.StatusTooManyRequests`. -/
def StatusTooManyRequests : Nat := 429

/-- An `http.Handler`, over the state `ω` behind it: `ServeHTTP` acts on the
writer and on that state. -/
structure Handler (ω : Type) where
  ServeHTTP : Request → List WriterCall × ω → List WriterCall × ω

/-- A handler that behaves as `next` and counts how often it is called (the
flag `handlerCalled` of
`TestRateLimiter_Middleware_BlockedDoesNotCallHandler`). -/
def Handler.counting {ω : Type} (next : Handler ω) : Handler (ω × Nat) :=
  { ServeHTTP := fun r s =>
      ((next.ServeHTTP r (s.1, s.2.1)).1, ((next.ServeHTTP r (s.1, s.2.1)).2, s.2.2 + 1)) }

/-- The handler `middleware.RateLimiter(rl)(next)` (rate_limiter.go 13-38),
as its `ServeHTTP` on the state behind the limiter, the writer and the state
behind `next`. `SplitHostPort` is `net.SplitHostPort`. -/
def middleware.RateLimiter {σ ω : Type}
    (SplitHostPort : String → (String × String) × Option GoError)
    (rl : Limiter σ) (next : Handler ω) (r : Request) (s : σ × List WriterCall × ω) :
    σ × List WriterCall × ω :=
  match rl.Allow
      (match SplitHostPort r.RemoteAddr with
        | ((host, _), none) => host
        | (_, some _) => r.RemoteAddr)
      (r.HeaderGet "API_KEY") s.1 with
  | ((_, some _), s1) =>
    (s1, httpError s.2.1 "Internal Server Error" StatusInternalServerError, s.2.2)
  | ((allowed, none), s1) =>
    if !allowed then
      (s1, httpError s.2.1
        "you have reached the maximum number of requests or actions allowed within a certain time frame"
        StatusTooManyRequests, s.2.2)
    else
      (s1, (next.ServeHTTP r (s.2.1, s.2.2)).1, (next.ServeHTTP r (s.2.1, s.2.2)).2)

/-- The request and handler of the middleware tests (rate_limiter_test.go
33-80): remote address `192.0.2.1:1234`, no header, and a handler that
answers 200 with the body `success`. -/
def testRequest : Request :=
  { RemoteAddr := "192.0.2.1:1234", HeaderGet := fun _ => "" }

/-- The handler of the middleware tests. -/
def testHandler : Handler Unit :=
  { ServeHTTP := fun _ s =>
      (s.1 ++ [WriterCall.WriteHeader 200, WriterCall.Write "success"], s.2) }

/-- A limiter with a fixed answer. -/
def mockLimiter (answer : Bool × Option GoError) : Limiter Unit :=
  { Allow := fun _ _ s => (answer, s) }

/-- `net.SplitHostPort` on the remote address of the test request. -/
def testSplitHostPort : String → (String × String) × Option GoError :=
  fun _ => (("192.0.2.1", "1234"), none)

/-- "A decimal integer", as the specification words the fields of an entry:
an optional sign followed by one or more of the digits 0 to 9. -/
def isDecimalInteger (s : String) : Bool :=
  match s.data with
  | '+' :: ds => !ds.isEmpty && ds.all Char.isDigit
  | '-' :: ds => !ds.isEmpty && ds.all Char.isDigit
  | ds => !ds.isEmpty && ds.all Char.isDigit

/-- The integer that a decimal integer denotes. -/
def decimalValue (s : String) : Int :=
  match s.data with
  | '+' :: ds => (digitsValue ds : Int)
  | '-' :: ds => -(digitsValue ds : Int)
  | ds => (digitsValue ds : Int)

/-- The entries the specification calls invalid: trimmed, the entry does not
split on `:` into exactly three parts, or its second or its third part,
trimmed, is not a decimal integer. -/
def entryMalformed (entry : String) : Bool :=
  match Split (TrimSpace entry) ':' with
  | [_, p1, p2] => !isDecimalInteger (TrimSpace p1) || !isDecimalInteger (TrimSpace p2)
  | _ => true

/-- A decimal integer in the range of a 64-bit `int`. -/
def isIntDecimal (s : String) : Bool :=
  isDecimalInteger s && decide (-(2 ^ 63) ≤ decimalValue s) && decide (decimalValue s < 2 ^ 63)

/-- The entries that are invalid once the range of `int` is taken into
account: as `entryMalformed`, with "decimal integer in the range of `int`"
for "decimal integer". -/
def entryRejected (entry : String) : Bool :=
  match Split (TrimSpace entry) ':' with
  | [_, p1, p2] => !isIntDecimal (TrimSpace p1) || !isIntDecimal (TrimSpace p2)
  | _ => true

/-- An entry as a configuration writes it: the token, the limit, the block
seconds, and the white space written around each of the three fields (`ws0`
before and `ws1` after the token, `ws2` and `ws3` around the limit, `ws4`
and `ws5` around the seconds). -/
structure EntryText where
  token : String
  limit : Int
  blockSec : Int
  ws0 : String
  ws1 : String
  ws2 : String
  ws3 : String
  ws4 : String
  ws5 : String
  deriving DecidableEq, Repr

/-- The text `token:limit:blockSec` of an entry, with its white space. -/
def EntryText.text (e : EntryText) : String :=
  e.ws0 ++ e.token ++ e.ws1 ++ ":" ++ e.ws2 ++ formatInt e.limit ++ e.ws3 ++ ":" ++ e.ws4 ++
    formatInt e.blockSec ++ e.ws5

/-- The policy an entry asks for: its limit, and its seconds as a duration. -/
def EntryText.config (e : EntryText) : TokenConfig :=
  { Limit := e.limit, BlockDuration := e.blockSec * Second }

/-- The conditions on an entry: the token holds no colon and no comma and
neither starts nor ends with white space, the white space is white space,
the limit is an `int`, and the seconds times 10^9 fit in 64 bits. -/
def EntryText.wellFormed (e : EntryText) : Bool :=
  decide (':' ∉ e.token.data) && decide (',' ∉ e.token.data) &&
  e.token.data.head?.all (fun c => !isSpace c) &&
  e.token.data.getLast?.all (fun c => !isSpace c) &&
  e.ws0.data.all isSpace && e.ws1.data.all isSpace && e.ws2.data.all isSpace &&
  e.ws3.data.all isSpace && e.ws4.data.all isSpace && e.ws5.data.all isSpace &&
  decide (-(2 ^ 63) ≤ e.limit) && decide (e.limit < 2 ^ 63) &&
  decide (-(2 ^ 63) ≤ e.blockSec * 10 ^ 9) && decide (e.blockSec * 10 ^ 9 < 2 ^ 63)

/-- The entries of `TestLoad_TokensWithSpaces` (config_test.go 191-213), of
which the text is ` token1:100:300 , token2:50:600 `. -/
def entries_TokensWithSpaces : List EntryText :=
  [{ token := "token1", limit := 100, blockSec := 300,
     ws0 := " ", ws1 := "", ws2 := "", ws3 := "", ws4 := "", ws5 := " " },
   { token := "token2", limit := 50, blockSec := 600,
     ws0 := " ", ws1 := "", ws2 := "", ws3 := "", ws4 := "", ws5 := " " }]

/-! ## How the Redis client writes an expiration

The client library (go-redis) turns the `time.Duration` it is handed into
the argument of the command it sends. -/

/-- `time.Millisecond`, in nanoseconds. -/
def Millisecond : Int := 1000000

/-- `redis.KeepTTL`. -/
def KeepTTL : Int := -1

/-- `usePrecise` of go-redis: is the duration no whole number of seconds? -/
def usePrecise (dur : Int) : Bool :=
  decide (dur < Second) || decide (Int.tmod dur Second ≠ 0)

/-- `formatMs` of go-redis: the duration in whole milliseconds, 1 for a
positive duration below one millisecond. -/
def formatMs (dur : Int) : Int :=
  if 0 < dur ∧ dur < Millisecond then 1 else Int.tdiv dur Millisecond

/-- `formatSec` of go-redis: the duration in whole seconds, 1 for a positive
duration below one second. -/
def formatSec (dur : Int) : Int :=
  if 0 < dur ∧ dur < Second then 1 else Int.tdiv dur Second

/-- The expiry option of a `SET` command. -/
inductive SetExpiry where
  | PX (milliseconds : Int)
  | EX (seconds : Int)
  | KEEPTTL
  | noExpiry
  deriving DecidableEq, Repr

/-- The expiry option `client.Set(ctx, key, value, expiration)` sends: `PX`
or `EX` for a positive expiration, `KEEPTTL` for `redis.KeepTTL`, and none
for any other expiration. -/
def setExpiry (expiration : Int) : SetExpiry :=
  if 0 < expiration then
    if usePrecise expiration then SetExpiry.PX (formatMs expiration)
    else SetExpiry.EX (formatSec expiration)
  else if expiration = KeepTTL then SetExpiry.KEEPTTL
  else SetExpiry.noExpiry

/-- The time to live, in nanoseconds, that an expiry option gives a record;
`none` when it gives none. -/
def SetExpiry.ttl : SetExpiry → Option Int
  | SetExpiry.PX milliseconds => some (milliseconds * Millisecond)
  | SetExpiry.EX seconds => some (seconds * Second)
  | SetExpiry.KEEPTTL => none
  | SetExpiry.noExpiry => none

/-! ## A model of the Redis server

The commands of `RedisCmd` as the Redis documentation describes them, sent
the way the client sends them, on a server that answers every command and
runs the commands of a pipeline one after the other. Time is in nanoseconds
since the Unix epoch; the clock of the server is not rounded. -/

/-- A record of the server: its integer value and, if it has one, the time
at which it expires. -/
structure RedisRecord where
  value : Int
  expireAt : Option Int
  deriving DecidableEq, Repr

/-- The state of the world behind the client: the clock and the records of
the server by name. -/
structure RedisWorld where
  now : Int
  records : String → Option RedisRecord

/-- The record of a name, if it exists and has not expired. -/
def RedisWorld.live (w : RedisWorld) (name : String) : Option RedisRecord :=
  match w.records name with
  | some r =>
    match r.expireAt with
    | some t => if w.now < t then some r else none
    | none => some r
  | none => none

/-- The world with one record written. -/
def RedisWorld.put (w : RedisWorld) (name : String) (r : RedisRecord) : RedisWorld :=
  { now := w.now, records := fun n => if n = name then some r else w.records n }

/-- The world at another time. -/
def RedisWorld.atTime (w : RedisWorld) (t : Int) : RedisWorld :=
  { now := t, records := w.records }

/-- `time.Now().Unix()`: the whole seconds of the clock. -/
def RedisWorld.unix (w : RedisWorld) : Int :=
  w.now / 1000000000

/-- The expiry a `SET` with the expiration `expiration` gives the record
`name`: the time to live of `PX` or `EX` from now, the expiry the record has
for `KEEPTTL`, and none without an expiry option. -/
def RedisWorld.setExpireAt (w : RedisWorld) (name : String) (expiration : Int) : Option Int :=
  match setExpiry expiration with
  | SetExpiry.PX milliseconds => some (w.now + milliseconds * Millisecond)
  | SetExpiry.EX seconds => some (w.now + seconds * Second)
  | SetExpiry.KEEPTTL =>
    match w.live name with
    | some r => r.expireAt
    | none => none
  | SetExpiry.noExpiry => none

/-- One command on the server, and its integer reply: `INCR` adds one to the
record (a missing or expired record counts as 0) and keeps its expiry;
`EXPIRE` sets the expiry of an existing record, in the whole seconds the
client sends, and replies 1, or replies 0; `EXISTS` replies 1 or 0; `SET`
writes the value with the expiry of its expiry option. -/
def RedisWorld.run (w : RedisWorld) : RedisCmd → Int × RedisWorld
  | RedisCmd.Incr name =>
    match w.live name with
    | some r => (r.value + 1, w.put name { value := r.value + 1, expireAt := r.expireAt })
    | none => (1, w.put name { value := 1, expireAt := none })
  | RedisCmd.Expire name expiration =>
    match w.live name with
    | some r =>
      (1, w.put name
        { value := r.value, expireAt := some (w.now + formatSec expiration * Second) })
    | none => (0, w)
  | RedisCmd.Exists name =>
    match w.live name with
    | some _ => (1, w)
    | none => (0, w)
  | RedisCmd.Set name value expiration =>
    (1, w.put name { value := value, expireAt := w.setExpireAt name expiration })

/-- The commands of a pipeline, one after the other. -/
def RedisWorld.runAll : List RedisCmd → RedisWorld → List Int × RedisWorld
  | [], w => ([], w)
  | cmd :: cmds, w =>
    ((w.run cmd).1 :: (RedisWorld.runAll cmds (w.run cmd).2).1,
      (RedisWorld.runAll cmds (w.run cmd).2).2)

/-- The client of the model server; no call fails. -/
def miniRedis : RedisClient RedisWorld :=
  { Exists := fun key w => (((w.run (RedisCmd.Exists key)).1, none), w)
    Set := fun key value expiration w =>
      (none, (w.run (RedisCmd.Set key value expiration)).2)
    PipelineExec := fun cmds w => (((RedisWorld.runAll cmds w).1, none), (RedisWorld.runAll cmds w).2) }

/-- The limiter of main.go 25-32 over the model server. -/
def rl_redis (ipLimit : Int) (ipBlockDuration : Int) (tokenConfigs : TokenConfigMap) :
    RateLimiter RedisWorld :=
  NewRateLimiter ((NewRedisStore miniRedis).toStore RedisWorld.unix) ipLimit ipBlockDuration
    tokenConfigs

/-- An empty server at the start of the Unix second 1700000000. -/
def emptyWorld : RedisWorld :=
  { now := 1700000000000000000, records := fun _ => none }

/-- The counter of `key` for the Unix second `sec` on the model server: the
value of the live record of the window key, 0 when there is none. -/
def RedisWorld.count (w : RedisWorld) (key : String) (sec : Int) : Int :=
  match w.live (windowKey key sec) with
  | some r => r.value
  | none => 0

/-- Does `key` hold a live block record on the model server? -/
def RedisWorld.blocked (w : RedisWorld) (key : String) : Bool :=
  (w.live (blockedKey key)).isSome

/-! ## The five paths through `Allow` -/

section Paths

variable {σ : Type} (rl : RateLimiter σ) (ip token : String) (s : σ)
variable {key : String} {limit dur : Int}

/-- Path 1: the block check fails. -/
theorem Allow_of_isBlocked_error (hr : rl.resolve ip token = (key, limit, dur))
    {e : GoError} (h0 : (rl.store.IsBlocked key s).1.2 = some e) :
    rl.Allow ip token s = ((false, some e), (rl.store.IsBlocked key s).2) := by
  unfold RateLimiter.Allow
  rw [hr]
  dsimp only
  rcases hb : rl.store.IsBlocked key s with ⟨⟨b, err⟩, s1⟩
  rw [hb] at h0
  simp only at h0
  subst h0
  rfl

/-- Path 2: the key is blocked. -/
theorem Allow_of_blocked (hr : rl.resolve ip token = (key, limit, dur))
    (h0 : (rl.store.IsBlocked key s).1 = (true, none)) :
    rl.Allow ip token s = ((false, none), (rl.store.IsBlocked key s).2) := by
  unfold RateLimiter.Allow
  rw [hr]
  dsimp only
  rcases hb : rl.store.IsBlocked key s with ⟨⟨b, err⟩, s1⟩
  rw [hb] at h0
  simp only [Prod.mk.injEq] at h0
  obtain ⟨rfl, rfl⟩ := h0
  rfl

/-- Path 3: the key is not blocked and the increment fails. -/
theorem Allow_of_increment_error (hr : rl.resolve ip token = (key, limit, dur))
    (h0 : (rl.store.IsBlocked key s).1 = (false, none)) {e : GoError}
    (h1 : (rl.store.Increment key 1 (rl.store.IsBlocked key s).2).1.2 = some e) :
    rl.Allow ip token s
      = ((false, some e), (rl.store.Increment key 1 (rl.store.IsBlocked key s).2).2) := by
  unfold RateLimiter.Allow
  rw [hr]
  dsimp only
  rcases hb : rl.store.IsBlocked key s with ⟨⟨b, err⟩, s1⟩
  rw [hb] at h0 h1
  simp only [Prod.mk.injEq] at h0
  obtain ⟨rfl, rfl⟩ := h0
  simp only
  rcases hi : rl.store.Increment key 1 s1 with ⟨⟨c, err⟩, s2⟩
  rw [hi] at h1
  simp only at h1
  subst h1
  rfl

/-- Path 4: the key is not blocked and the count is within the limit. -/
theorem Allow_of_within_limit (hr : rl.resolve ip token = (key, limit, dur))
    (h0 : (rl.store.IsBlocked key s).1 = (false, none))
    (h1 : (rl.store.Increment key 1 (rl.store.IsBlocked key s).2).1.2 = none)
    (h2 : (rl.store.Increment key 1 (rl.store.IsBlocked key s).2).1.1 ≤ limit) :
    rl.Allow ip token s
      = ((true, none), (rl.store.Increment key 1 (rl.store.IsBlocked key s).2).2) := by
  unfold RateLimiter.Allow
  rw [hr]
  dsimp only
  rcases hb : rl.store.IsBlocked key s with ⟨⟨b, err⟩, s1⟩
  rw [hb] at h0 h1 h2
  simp only [Prod.mk.injEq] at h0
  obtain ⟨rfl, rfl⟩ := h0
  simp only
  rcases hi : rl.store.Increment key 1 s1 with ⟨⟨c, err⟩, s2⟩
  rw [hi] at h1 h2
  simp only at h1 h2
  subst h1
  simp only [Bool.false_eq_true, if_false, gt_iff_lt, not_lt.mpr h2]

/-- Path 5: the key is not blocked and the count exceeds the limit. -/
theorem Allow_of_over_limit (hr : rl.resolve ip token = (key, limit, dur))
    (h0 : (rl.store.IsBlocked key s).1 = (false, none))
    (h1 : (rl.store.Increment key 1 (rl.store.IsBlocked key s).2).1.2 = none)
    (h2 : limit < (rl.store.Increment key 1 (rl.store.IsBlocked key s).2).1.1) :
    rl.Allow ip token s
      = ((false, (rl.store.Block key dur
            (rl.store.Increment key 1 (rl.store.IsBlocked key s).2).2).1),
          (rl.store.Block key dur
            (rl.store.Increment key 1 (rl.store.IsBlocked key s).2).2).2) := by
  unfold RateLimiter.Allow
  rw [hr]
  dsimp only
  rcases hb : rl.store.IsBlocked key s with ⟨⟨b, err⟩, s1⟩
  rw [hb] at h0 h1 h2
  simp only [Prod.mk.injEq] at h0
  obtain ⟨rfl, rfl⟩ := h0
  simp only
  rcases hi : rl.store.Increment key 1 s1 with ⟨⟨c, err⟩, s2⟩
  rw [hi] at h1 h2
  simp only at h1 h2
  subst h1
  simp only [Bool.false_eq_true, if_false, gt_iff_lt, h2, if_true]
  rcases rl.store.Block key dur s2 with ⟨_ | err, s3⟩ <;> rfl

end Paths

/-! ## The resolved identity -/

section Resolve

variable {σ : Type} (rl : RateLimiter σ) (ip token : String)

/-- A non-empty token with an entry resolves to the token policy. -/
theorem resolve_of_configured {config : TokenConfig} (ht : token ≠ "")
    (hc : rl.tokenConfigs.get token = some config) :
    rl.resolve ip token = ("token:" ++ token, config.Limit, config.BlockDuration) := by
  unfold RateLimiter.resolve
  rw [if_pos ht, hc]

/-- An empty token, or one without an entry, resolves to the IP policy. -/
theorem resolve_of_unconfigured (ht : token = "" ∨ rl.tokenConfigs.get token = none) :
    rl.resolve ip token = ("ip:" ++ ip, rl.ipLimit, rl.ipBlockDuration) := by
  unfold RateLimiter.resolve
  by_cases h : token ≠ ""
  · rcases ht with ht | ht
    · exact absurd ht h
    · rw [if_pos h, ht]
  · rw [if_neg h]

end Resolve

/-! ## The calls of a run -/

section Calls

variable {σ : Type} (rl : RateLimiter σ) (ip token : String) (s : σ)
variable {key : String} {limit dur : Int}

theorem recording_resolve : rl.recording.resolve ip token = rl.resolve ip token := rfl

/-- The block check fails or finds the key blocked: one call. -/
theorem calls_of_not_unblocked (hr : rl.resolve ip token = (key, limit, dur))
    (h0 : (rl.store.IsBlocked key s).1 ≠ (false, none)) :
    rl.calls ip token s = [StoreCall.IsBlocked key] := by
  have hrr : rl.recording.resolve ip token = (key, limit, dur) := hr
  unfold RateLimiter.calls
  rcases hb : (rl.store.IsBlocked key s).1 with ⟨b, _ | e⟩
  · cases b
    · exact absurd hb h0
    · have h : (rl.recording.store.IsBlocked key (s, [])).1 = (true, none) := hb
      rw [Allow_of_blocked rl.recording ip token (s, []) hrr h]
      rfl
  · have h : (rl.recording.store.IsBlocked key (s, [])).1.2 = some e := by
      show (rl.store.IsBlocked key s).1.2 = some e
      rw [hb]
    rw [Allow_of_isBlocked_error rl.recording ip token (s, []) hrr h]
    rfl

/-- The key is not blocked and the increment fails or stays within the limit:
two calls. -/
theorem calls_of_no_block (hr : rl.resolve ip token = (key, limit, dur))
    (h0 : (rl.store.IsBlocked key s).1 = (false, none))
    (h1 : ¬ ((rl.store.Increment key 1 (rl.store.IsBlocked key s).2).1.2 = none ∧
      limit < (rl.store.Increment key 1 (rl.store.IsBlocked key s).2).1.1)) :
    rl.calls ip token s = [StoreCall.IsBlocked key, StoreCall.Increment key 1] := by
  have hrr : rl.recording.resolve ip token = (key, limit, dur) := hr
  have h0r : (rl.recording.store.IsBlocked key (s, [])).1 = (false, none) := h0
  unfold RateLimiter.calls
  rcases hi : (rl.store.Increment key 1 (rl.store.IsBlocked key s).2).1 with ⟨c, _ | e⟩
  · have h1r : (rl.recording.store.Increment key 1
        (rl.recording.store.IsBlocked key (s, [])).2).1.2 = none := by
      show (rl.store.Increment key 1 (rl.store.IsBlocked key s).2).1.2 = none
      rw [hi]
    have h2r : (rl.recording.store.Increment key 1
        (rl.recording.store.IsBlocked key (s, [])).2).1.1 ≤ limit := by
      show (rl.store.Increment key 1 (rl.store.IsBlocked key s).2).1.1 ≤ limit
      rw [hi] at h1 ⊢
      simpa using h1
    rw [Allow_of_within_limit rl.recording ip token (s, []) hrr h0r h1r h2r]
    rfl
  · have h1r : (rl.recording.store.Increment key 1
        (rl.recording.store.IsBlocked key (s, [])).2).1.2 = some e := by
      show (rl.store.Increment key 1 (rl.store.IsBlocked key s).2).1.2 = some e
      rw [hi]
    rw [Allow_of_increment_error rl.recording ip token (s, []) hrr h0r h1r]
    rfl

/-- The key is not blocked and the count exceeds the limit: three calls. -/
theorem calls_of_over_limit (hr : rl.resolve ip token = (key, limit, dur))
    (h0 : (rl.store.IsBlocked key s).1 = (false, none))
    (h1 : (rl.store.Increment key 1 (rl.store.IsBlocked key s).2).1.2 = none)
    (h2 : limit < (rl.store.Increment key 1 (rl.store.IsBlocked key s).2).1.1) :
    rl.calls ip token s
      = [StoreCall.IsBlocked key, StoreCall.Increment key 1, StoreCall.Block key dur] := by
  have hrr : rl.recording.resolve ip token = (key, limit, dur) := hr
  have h0r : (rl.recording.store.IsBlocked key (s, [])).1 = (false, none) := h0
  have h1r : (rl.recording.store.Increment key 1
      (rl.recording.store.IsBlocked key (s, [])).2).1.2 = none := h1
  have h2r : limit < (rl.recording.store.Increment key 1
      (rl.recording.store.IsBlocked key (s, [])).2).1.1 := h2
  unfold RateLimiter.calls
  rw [Allow_of_over_limit rl.recording ip token (s, []) hrr h0r h1r h2r]
  rfl

end Calls

/-! ## Helper facts shared by the claims -/

section Helpers

variable {σ : Type} (rl : RateLimiter σ) (ip token : String) (s : σ)
variable {key : String} {limit dur : Int}

/-- The run is allowed exactly on path 4. -/
theorem Allow_fst_true_iff (hr : rl.resolve ip token = (key, limit, dur)) :
    (rl.Allow ip token s).1 = (true, none) ↔
      (rl.store.IsBlocked key s).1 = (false, none) ∧
      ∃ count : Int,
        (rl.store.Increment key 1 (rl.store.IsBlocked key s).2).1 = (count, none) ∧
        count ≤ limit := by
  constructor
  · intro h
    rcases hb : (rl.store.IsBlocked key s).1 with ⟨b, _ | e⟩
    · cases b
      · refine ⟨rfl, ?_⟩
        rcases hi : (rl.store.Increment key 1 (rl.store.IsBlocked key s).2).1 with ⟨c, _ | e⟩
        · refine ⟨c, rfl, ?_⟩
          by_contra hc
          have h1 : (rl.store.Increment key 1 (rl.store.IsBlocked key s).2).1.2 = none := by
            rw [hi]
          have h2 : limit < (rl.store.Increment key 1 (rl.store.IsBlocked key s).2).1.1 := by
            rw [hi]; exact not_le.mp hc
          rw [Allow_of_over_limit rl ip token s hr hb h1 h2] at h
          simp at h
        · have h1 : (rl.store.Increment key 1 (rl.store.IsBlocked key s).2).1.2 = some e := by
            rw [hi]
          rw [Allow_of_increment_error rl ip token s hr hb h1] at h
          simp at h
      · rw [Allow_of_blocked rl ip token s hr hb] at h
        simp at h
    · have h0 : (rl.store.IsBlocked key s).1.2 = some e := by rw [hb]
      rw [Allow_of_isBlocked_error rl ip token s hr h0] at h
      simp at h
  · rintro ⟨h0, c, hi, hc⟩
    have h1 : (rl.store.Increment key 1 (rl.store.IsBlocked key s).2).1.2 = none := by
      rw [hi]
    have h2 : (rl.store.Increment key 1 (rl.store.IsBlocked key s).2).1.1 ≤ limit := by
      rw [hi]; exact hc
    rw [Allow_of_within_limit rl ip token s hr h0 h1 h2]

/-- Every store call of a run is one of the three calls on the resolved key. -/
theorem calls_mem (hr : rl.resolve ip token = (key, limit, dur)) (call : StoreCall)
    (hmem : call ∈ rl.calls ip token s) :
    call = StoreCall.IsBlocked key ∨ call = StoreCall.Increment key 1 ∨
      call = StoreCall.Block key dur := by
  by_cases h0 : (rl.store.IsBlocked key s).1 = (false, none)
  · by_cases h1 : ((rl.store.Increment key 1 (rl.store.IsBlocked key s).2).1.2 = none ∧
        limit < (rl.store.Increment key 1 (rl.store.IsBlocked key s).2).1.1)
    · rw [calls_of_over_limit rl ip token s hr h0 h1.1 h1.2] at hmem
      simpa using hmem
    · rw [calls_of_no_block rl ip token s hr h0 h1] at hmem
      simp at hmem
      rcases hmem with h | h
      · exact Or.inl h
      · exact Or.inr (Or.inl h)
  · rw [calls_of_not_unblocked rl ip token s hr h0] at hmem
    simp at hmem
    exact Or.inl hmem

/-- Every store call of a run carries the resolved key. -/
theorem calls_key (hr : rl.resolve ip token = (key, limit, dur)) (call : StoreCall)
    (hmem : call ∈ rl.calls ip token s) : call.key = key := by
  rcases calls_mem rl ip token s hr call hmem with h | h | h <;> rw [h] <;> rfl

/-- Two limiters over the same store that resolve two requests alike run alike. -/
theorem Allow_congr (rl2 : RateLimiter σ) (ip2 token2 : String) (hs : rl2.store = rl.store)
    (hr : rl2.resolve ip2 token2 = rl.resolve ip token) :
    rl2.Allow ip2 token2 s = rl.Allow ip token s := by
  unfold RateLimiter.Allow
  rw [hr, hs]

/-- Cancelling a common beginning of two strings. -/
theorem append_left_cancel (p a b : String) (h : p ++ a = p ++ b) : a = b := by
  have hd := congrArg String.data h
  simp only [String.data_append] at hd
  exact String.ext (List.append_cancel_left hd)

/-- An IP-derived key is never a token-derived key. -/
theorem ip_key_ne_token_key (a t : String) : "ip:" ++ a ≠ "token:" ++ t := by
  intro h
  have hd := congrArg String.data h
  simp only [String.data_append] at hd
  simp only [List.cons_append, List.cons.injEq] at hd
  exact absurd hd.1 (by decide)

end Helpers

/-! ## Allowed exactly when unblocked and within the limit -/

/-- C1: with `(key, limit, dur)` the resolved triple, `Allow` returns
`(true, nil)` if and only if `IsBlocked key` returned `(false, nil)` and
`Increment key 1` returned `(count, nil)` with `count ≤ limit`; in particular
a count equal to the limit is allowed and the count `limit + 1` is rejected. -/
theorem Allow_true_iff {σ : Type} (rl : RateLimiter σ) (ip token : String) (s : σ)
    (key : String) (limit dur : Int) (hr : rl.resolve ip token = (key, limit, dur)) :
    ((rl.Allow ip token s).1 = (true, none) ↔
      (rl.store.IsBlocked key s).1 = (false, none) ∧
      ∃ count : Int,
        (rl.store.Increment key 1 (rl.store.IsBlocked key s).2).1 = (count, none) ∧
        count ≤ limit) ∧
    ((rl.store.IsBlocked key s).1 = (false, none) →
      (rl.store.Increment key 1 (rl.store.IsBlocked key s).2).1 = (limit, none) →
      (rl.Allow ip token s).1 = (true, none)) ∧
    ((rl.store.IsBlocked key s).1 = (false, none) →
      (rl.store.Increment key 1 (rl.store.IsBlocked key s).2).1 = (limit + 1, none) →
      (rl.Allow ip token s).1.1 = false) := by
  have main := Allow_fst_true_iff rl ip token s hr
  refine ⟨main, ?_, ?_⟩
  · intro h0 hi
    exact main.mpr ⟨h0, limit, hi, le_refl limit⟩
  · intro h0 hi
    have h1 : (rl.store.Increment key 1 (rl.store.IsBlocked key s).2).1.2 = none := by
      rw [hi]
    have h2 : limit < (rl.store.Increment key 1 (rl.store.IsBlocked key s).2).1.1 := by
      rw [hi]; exact Int.lt_succ_self limit
    rw [Allow_of_over_limit rl ip token s hr h0 h1 h2]

/-- Witness of C1: the store of `TestRateLimiter_Allow_ExactLimit` (count 10
against the limit 10) and the limiter of that test. -/
theorem Allow_true_iff_witness :
    (NewRateLimiter (mockStore (false, none) (10, none) none) 10 300000000000 none).resolve
        "192.168.1.1" "" = ("ip:192.168.1.1", 10, 300000000000) ∧
    ((NewRateLimiter (mockStore (false, none) (10, none) none) 10 300000000000 none).Allow
        "192.168.1.1" "" ()).1 = (true, none) :=
  ⟨by decide,
    (Allow_true_iff (NewRateLimiter (mockStore (false, none) (10, none) none) 10 300000000000 none)
      "192.168.1.1" "" () "ip:192.168.1.1" 10 300000000000 (by decide)).2.1 rfl rfl⟩

/-! ## When the block is set -/

/-- C2: with `(key, limit, dur)` the resolved triple, `b` the answer of
`IsBlocked key`, `c` the answer of `Increment key 1` and `e` the answer of
`Block key dur` on the states the run reaches: the run calls `Block` if and
only if `b = (false, nil)` and `c` is a count (nil error) greater than `limit`;
the `Block` calls of the run are then exactly the one call `Block key dur`, and
none otherwise; `dur` is the token's own duration for a configured token and
the IP duration otherwise; and when that call succeeds `Allow` returns
`(false, nil)`. -/
theorem Block_called_iff {σ : Type} (rl : RateLimiter σ) (ip token : String) (s : σ)
    (key : String) (limit dur : Int) (hr : rl.resolve ip token = (key, limit, dur))
    (b : Bool × Option GoError) (s1 : σ) (hb : rl.store.IsBlocked key s = (b, s1))
    (c : Int × Option GoError) (s2 : σ) (hi : rl.store.Increment key 1 s1 = (c, s2))
    (e : Option GoError) (s3 : σ) (hk : rl.store.Block key dur s2 = (e, s3)) :
    ((∃ call ∈ rl.calls ip token s, call.isBlock = true) ↔
      (b = (false, none) ∧ c.2 = none ∧ limit < c.1)) ∧
    ((b = (false, none) ∧ c.2 = none ∧ limit < c.1) →
      (rl.calls ip token s).filter StoreCall.isBlock = [StoreCall.Block key dur]) ∧
    (¬ (b = (false, none) ∧ c.2 = none ∧ limit < c.1) →
      (rl.calls ip token s).filter StoreCall.isBlock = []) ∧
    (∀ config : TokenConfig, token ≠ "" → rl.tokenConfigs.get token = some config →
      key = "token:" ++ token ∧ dur = config.BlockDuration) ∧
    ((token = "" ∨ rl.tokenConfigs.get token = none) →
      key = "ip:" ++ ip ∧ dur = rl.ipBlockDuration) ∧
    ((b = (false, none) ∧ c.2 = none ∧ limit < c.1) → e = none →
      (rl.Allow ip token s).1 = (false, none)) := by
  have hb1 : (rl.store.IsBlocked key s).1 = b := by rw [hb]
  have hb2 : (rl.store.IsBlocked key s).2 = s1 := by rw [hb]
  have hi0 : rl.store.Increment key 1 (rl.store.IsBlocked key s).2 = (c, s2) := by
    rw [hb2, hi]
  have hpos : (b = (false, none) ∧ c.2 = none ∧ limit < c.1) →
      rl.calls ip token s
        = [StoreCall.IsBlocked key, StoreCall.Increment key 1, StoreCall.Block key dur] := by
    rintro ⟨h0, h1, h2⟩
    apply calls_of_over_limit rl ip token s hr
    · rw [hb1, h0]
    · rw [hi0]; exact h1
    · rw [hi0]; exact h2
  have hneg : ¬ (b = (false, none) ∧ c.2 = none ∧ limit < c.1) →
      (rl.calls ip token s = [StoreCall.IsBlocked key] ∨
        rl.calls ip token s = [StoreCall.IsBlocked key, StoreCall.Increment key 1]) := by
    intro hn
    by_cases h0 : b = (false, none)
    · right
      apply calls_of_no_block rl ip token s hr
      · rw [hb1, h0]
      · rw [hi0]
        exact fun h => hn ⟨h0, h⟩
    · left
      apply calls_of_not_unblocked rl ip token s hr
      rw [hb1]
      exact h0
  refine ⟨?_, ?_, ?_, ?_, ?_, ?_⟩
  · constructor
    · rintro ⟨call, hmem, hcall⟩
      by_contra hn
      rcases hneg hn with h | h <;> rw [h] at hmem <;> simp at hmem
      · subst hmem
        simp [StoreCall.isBlock] at hcall
      · rcases hmem with rfl | rfl <;> simp [StoreCall.isBlock] at hcall
    · intro h
      refine ⟨StoreCall.Block key dur, ?_, rfl⟩
      rw [hpos h]
      simp
  · intro h
    rw [hpos h]
    simp [StoreCall.isBlock]
  · intro hn
    rcases hneg hn with h | h <;> rw [h] <;> simp [StoreCall.isBlock]
  · intro config ht hc
    have h := resolve_of_configured rl ip token ht hc
    rw [hr] at h
    simp only [Prod.mk.injEq] at h
    exact ⟨h.1, h.2.2⟩
  · intro ht
    have h := resolve_of_unconfigured rl ip token ht
    rw [hr] at h
    simp only [Prod.mk.injEq] at h
    exact ⟨h.1, h.2.2⟩
  · rintro ⟨h0, h1, h2⟩ he
    have e0 : (rl.store.IsBlocked key s).1 = (false, none) := by rw [hb1, h0]
    have e1 : (rl.store.Increment key 1 (rl.store.IsBlocked key s).2).1.2 = none := by
      rw [hi0]; exact h1
    have e2 : limit < (rl.store.Increment key 1 (rl.store.IsBlocked key s).2).1.1 := by
      rw [hi0]; exact h2
    rw [Allow_of_over_limit rl ip token s hr e0 e1 e2, hi0]
    simp only
    rw [hk, he]

/-- Witness of C2: the store and limiter of
`TestRateLimiter_Allow_TokenBlockDuration` (count 101 against the token limit
100, token block duration 15 minutes, IP block duration 5 minutes). -/
theorem Block_called_iff_witness :
    (rl_TokenBlockDuration.calls "192.168.1.1" "special-token" ()).filter StoreCall.isBlock
      = [StoreCall.Block "token:special-token" 900000000000] :=
  (Block_called_iff rl_TokenBlockDuration "192.168.1.1" "special-token" ()
    "token:special-token" 100 900000000000 (by decide)
    (false, none) () rfl (101, none) () rfl none () rfl).2.1 (by decide)

/-! ## A blocked key is not counted -/

/-- One recorded run on a blocked key: denied, and the log grows by the block
check only. -/
theorem recording_Allow_of_blocked {σ : Type} (rl : RateLimiter σ) (ip token : String)
    {key : String} {limit dur : Int} (hr : rl.resolve ip token = (key, limit, dur))
    (t : σ) (log : List StoreCall) (h0 : (rl.store.IsBlocked key t).1 = (true, none)) :
    rl.recording.Allow ip token (t, log)
      = ((false, none), ((rl.store.IsBlocked key t).2, log ++ [StoreCall.IsBlocked key])) := by
  have hrr : rl.recording.resolve ip token = (key, limit, dur) := hr
  have h : (rl.recording.store.IsBlocked key (t, log)).1 = (true, none) := h0
  rw [Allow_of_blocked rl.recording ip token (t, log) hrr h]
  rfl

/-- Repeated recorded runs on a key that stays blocked. -/
theorem recording_AllowN_of_blocked {σ : Type} (rl : RateLimiter σ) (ip token : String)
    {key : String} {limit dur : Int} (hr : rl.resolve ip token = (key, limit, dur))
    (Inv : σ → Prop)
    (hinv : ∀ t, Inv t →
      (rl.store.IsBlocked key t).1 = (true, none) ∧ Inv (rl.store.IsBlocked key t).2)
    (n : Nat) (t : σ) (log : List StoreCall) (ht : Inv t) :
    rl.recording.AllowN ip token n (t, log)
      = (List.replicate n (false, none),
          ((fun u => (rl.store.IsBlocked key u).2)^[n] t,
            log ++ List.replicate n (StoreCall.IsBlocked key))) := by
  induction n generalizing t log with
  | zero => simp [RateLimiter.AllowN]
  | succ n ih =>
    unfold RateLimiter.AllowN
    rw [recording_Allow_of_blocked rl ip token hr t log (hinv t ht).1]
    simp only
    rw [ih _ _ (hinv t ht).2]
    simp [List.replicate_succ, Function.iterate_succ_apply]

/-- C3: with `(key, limit, dur)` the resolved triple: when `IsBlocked key`
returns `(true, nil)`, `Allow` returns `(false, nil)` and its only store call
is that `IsBlocked`, so it makes no `Increment` and no `Block` call. Hence
for a key that stays blocked (`IsBlocked key` answers `(true, nil)` in every
state of an invariant set `Inv`, and leaves the state in `Inv`), any number `n`
of repeated `Allow` calls all return `(false, nil)`, add only `IsBlocked`
calls to the log of store calls, so the number of `Increment` calls in it
stays what it was, and every observation `counter` of the store state that
`IsBlocked` leaves alone is unchanged. -/
theorem blocked_key_not_counted {σ : Type} (rl : RateLimiter σ) (ip token : String) (s : σ)
    (key : String) (limit dur : Int) (hr : rl.resolve ip token = (key, limit, dur)) :
    ((rl.store.IsBlocked key s).1 = (true, none) →
      (rl.Allow ip token s).1 = (false, none) ∧
      rl.calls ip token s = [StoreCall.IsBlocked key] ∧
      (∀ call ∈ rl.calls ip token s, call.isIncrement = false ∧ call.isBlock = false)) ∧
    (∀ Inv : σ → Prop, Inv s →
      (∀ t, Inv t →
        (rl.store.IsBlocked key t).1 = (true, none) ∧ Inv (rl.store.IsBlocked key t).2) →
      ∀ (n : Nat) (log : List StoreCall),
        (rl.recording.AllowN ip token n (s, log)).1 = List.replicate n (false, none) ∧
        (rl.recording.AllowN ip token n (s, log)).2.2
          = log ++ List.replicate n (StoreCall.IsBlocked key) ∧
        ((rl.recording.AllowN ip token n (s, log)).2.2).countP StoreCall.isIncrement
          = log.countP StoreCall.isIncrement ∧
        ((rl.recording.AllowN ip token n (s, log)).2.2).countP StoreCall.isBlock
          = log.countP StoreCall.isBlock ∧
        ∀ (counter : σ → String → Int),
          (∀ t, Inv t → counter (rl.store.IsBlocked key t).2 = counter t) →
          counter (rl.recording.AllowN ip token n (s, log)).2.1 = counter s) := by
  constructor
  · intro h0
    have hc : rl.calls ip token s = [StoreCall.IsBlocked key] := by
      apply calls_of_not_unblocked rl ip token s hr
      rw [h0]
      simp
    refine ⟨?_, hc, ?_⟩
    · rw [Allow_of_blocked rl ip token s hr h0]
    · intro call hmem
      rw [hc] at hmem
      simp at hmem
      subst hmem
      exact ⟨rfl, rfl⟩
  · intro Inv hs hinv n log
    rw [recording_AllowN_of_blocked rl ip token hr Inv hinv n s log hs]
    refine ⟨rfl, rfl, ?_, ?_, ?_⟩
    · simp [List.countP_append, List.countP_replicate, StoreCall.isIncrement]
    · simp [List.countP_append, List.countP_replicate, StoreCall.isBlock]
    · intro counter hcounter
      simp only
      have key_fact : ∀ (m : Nat) (t : σ), Inv t →
          Inv ((fun u => (rl.store.IsBlocked key u).2)^[m] t) ∧
          counter ((fun u => (rl.store.IsBlocked key u).2)^[m] t) = counter t := by
        intro m
        induction m with
        | zero => intro t ht; exact ⟨ht, rfl⟩
        | succ m ih =>
          intro t ht
          rw [Function.iterate_succ_apply]
          have h1 := ih _ (hinv t ht).2
          exact ⟨h1.1, h1.2.trans (hcounter t ht)⟩
      exact (key_fact n s hs).2

/-- Witness of C3: the store and limiter of
`TestRateLimiter_Allow_AlreadyBlocked`; three runs on the blocked key leave a
log without `Increment` calls. -/
theorem blocked_key_not_counted_witness :
    ((NewRateLimiter (mockStore (true, none) (1, none) none) 10 300000000000
        none).recording.AllowN "192.168.1.1" "" 3 ((), [])).2.2.countP StoreCall.isIncrement
      = 0 :=
  ((blocked_key_not_counted
      (NewRateLimiter (mockStore (true, none) (1, none) none) 10 300000000000 none)
      "192.168.1.1" "" () "ip:192.168.1.1" 10 300000000000 (by decide)).2
    (fun _ => True) trivial (fun _ _ => ⟨rfl, trivial⟩) 3 []).2.2.1

/-! ## Which policy applies -/

/-- C4: for a non-empty token with the entry `config` in `tokenConfigs`, the
resolved triple is `("token:" + token, config.Limit, config.BlockDuration)`;
every store call of the run carries the key `"token:" + token` and a `Block`
call carries the duration `config.BlockDuration`; the run is allowed exactly
when the count is at most `config.Limit`; and the run (result, state and store
calls) is the same whatever the IP limit, the IP block duration and the ip. -/
theorem configured_token_policy {σ : Type} (rl : RateLimiter σ) (ip token : String) (s : σ)
    (config : TokenConfig) (ht : token ≠ "") (hc : rl.tokenConfigs.get token = some config) :
    rl.resolve ip token = ("token:" ++ token, config.Limit, config.BlockDuration) ∧
    (∀ call ∈ rl.calls ip token s, call.key = "token:" ++ token) ∧
    (∀ call ∈ rl.calls ip token s,
      call = StoreCall.IsBlocked ("token:" ++ token) ∨
      call = StoreCall.Increment ("token:" ++ token) 1 ∨
      call = StoreCall.Block ("token:" ++ token) config.BlockDuration) ∧
    ((rl.Allow ip token s).1 = (true, none) ↔
      (rl.store.IsBlocked ("token:" ++ token) s).1 = (false, none) ∧
      ∃ count : Int,
        (rl.store.Increment ("token:" ++ token) 1
          (rl.store.IsBlocked ("token:" ++ token) s).2).1 = (count, none) ∧
        count ≤ config.Limit) ∧
    (∀ (ipLimit2 ipBlockDuration2 : Int) (ip2 : String),
      (NewRateLimiter rl.store ipLimit2 ipBlockDuration2 rl.tokenConfigs).Allow ip2 token s
        = rl.Allow ip token s ∧
      (NewRateLimiter rl.store ipLimit2 ipBlockDuration2 rl.tokenConfigs).calls ip2 token s
        = rl.calls ip token s) := by
  have hr := resolve_of_configured rl ip token ht hc
  refine ⟨hr, ?_, ?_, ?_, ?_⟩
  · exact fun call hmem => calls_key rl ip token s hr call hmem
  · exact fun call hmem => calls_mem rl ip token s hr call hmem
  · exact Allow_fst_true_iff rl ip token s hr
  · intro ipLimit2 ipBlockDuration2 ip2
    have hr2 : (NewRateLimiter rl.store ipLimit2 ipBlockDuration2 rl.tokenConfigs).resolve
        ip2 token = rl.resolve ip token := by
      rw [hr]
      exact resolve_of_configured _ ip2 token ht hc
    constructor
    · exact Allow_congr rl ip token s _ ip2 token rfl hr2
    · unfold RateLimiter.calls
      rw [Allow_congr rl.recording ip token (s, [])
        (NewRateLimiter rl.store ipLimit2 ipBlockDuration2 rl.tokenConfigs).recording
        ip2 token rfl hr2]

/-- Witness of C4: the limiter of
`TestRateLimiter_Allow_TokenConfigTakesPrecedence`; the request with the token
`abc123` resolves to the key `token:abc123` and the token policy. -/
theorem configured_token_policy_witness :
    rl_TokenConfigTakesPrecedence.resolve "192.168.1.1" "abc123"
      = ("token:abc123", 100, 600000000000) :=
  (configured_token_policy rl_TokenConfigTakesPrecedence "192.168.1.1" "abc123" ()
    { Limit := 100, BlockDuration := 600000000000 } (by decide) (by decide)).1

/-- C5: when the token is empty (whatever `tokenConfigs` holds, an entry for
the empty string included), or `tokenConfigs` is nil, or the token has no
entry, the resolved triple is `("ip:" + ip, ipLimit, ipBlockDuration)`; every
store call of the run carries the key `"ip:" + ip`, which is no token-derived
key, and a `Block` call carries `ipBlockDuration`; and the run is allowed
exactly when the count is at most `ipLimit`. -/
theorem ip_policy_fallback {σ : Type} (rl : RateLimiter σ) (ip token : String) (s : σ)
    (ht : token = "" ∨ rl.tokenConfigs = none ∨ rl.tokenConfigs.get token = none) :
    rl.resolve ip token = ("ip:" ++ ip, rl.ipLimit, rl.ipBlockDuration) ∧
    (∀ call ∈ rl.calls ip token s, call.key = "ip:" ++ ip) ∧
    (∀ call ∈ rl.calls ip token s, ∀ t : String, call.key ≠ "token:" ++ t) ∧
    (∀ call ∈ rl.calls ip token s,
      call = StoreCall.IsBlocked ("ip:" ++ ip) ∨
      call = StoreCall.Increment ("ip:" ++ ip) 1 ∨
      call = StoreCall.Block ("ip:" ++ ip) rl.ipBlockDuration) ∧
    ((rl.Allow ip token s).1 = (true, none) ↔
      (rl.store.IsBlocked ("ip:" ++ ip) s).1 = (false, none) ∧
      ∃ count : Int,
        (rl.store.Increment ("ip:" ++ ip) 1
          (rl.store.IsBlocked ("ip:" ++ ip) s).2).1 = (count, none) ∧
        count ≤ rl.ipLimit) := by
  have ht2 : token = "" ∨ rl.tokenConfigs.get token = none := by
    rcases ht with h | h | h
    · exact Or.inl h
    · right
      rw [h]
      rfl
    · exact Or.inr h
  have hr := resolve_of_unconfigured rl ip token ht2
  refine ⟨hr, ?_, ?_, ?_, ?_⟩
  · exact fun call hmem => calls_key rl ip token s hr call hmem
  · intro call hmem t
    rw [calls_key rl ip token s hr call hmem]
    exact ip_key_ne_token_key ip t
  · exact fun call hmem => calls_mem rl ip token s hr call hmem
  · exact Allow_fst_true_iff rl ip token s hr

/-- Witness of C5: the limiter of
`TestRateLimiter_Allow_UnconfiguredTokenUsesIPLimit` with the unconfigured
token `unknown_token`. -/
theorem ip_policy_fallback_witness :
    rl_UnconfiguredTokenUsesIPLimit.resolve "192.168.1.1" "unknown_token"
      = ("ip:192.168.1.1", 10, 300000000000) :=
  (ip_policy_fallback rl_UnconfiguredTokenUsesIPLimit "192.168.1.1" "unknown_token" ()
    (Or.inr (Or.inr (by decide)))).1

/-! ## Store failures -/

/-- C6: with `(key, limit, dur)` the resolved triple: if `IsBlocked` returns
the error `e`, or `IsBlocked` returns `(false, nil)` and `Increment` returns
the error `e`, or the count exceeds the limit and `Block` returns the error
`e`, then `Allow` returns `(false, e)` with that same `e`; the store calls of
the run end with the failing call (each call made once), and the state is the
one the failing call left. -/
theorem store_error_propagates {σ : Type} (rl : RateLimiter σ) (ip token : String) (s : σ)
    (key : String) (limit dur : Int) (hr : rl.resolve ip token = (key, limit, dur)) :
    (∀ e : GoError, (rl.store.IsBlocked key s).1.2 = some e →
      (rl.Allow ip token s).1 = (false, some e) ∧
      rl.calls ip token s = [StoreCall.IsBlocked key] ∧
      (rl.Allow ip token s).2 = (rl.store.IsBlocked key s).2) ∧
    (∀ e : GoError, (rl.store.IsBlocked key s).1 = (false, none) →
      (rl.store.Increment key 1 (rl.store.IsBlocked key s).2).1.2 = some e →
      (rl.Allow ip token s).1 = (false, some e) ∧
      rl.calls ip token s = [StoreCall.IsBlocked key, StoreCall.Increment key 1] ∧
      (rl.Allow ip token s).2 = (rl.store.Increment key 1 (rl.store.IsBlocked key s).2).2) ∧
    (∀ e : GoError, (rl.store.IsBlocked key s).1 = (false, none) →
      (rl.store.Increment key 1 (rl.store.IsBlocked key s).2).1.2 = none →
      limit < (rl.store.Increment key 1 (rl.store.IsBlocked key s).2).1.1 →
      (rl.store.Block key dur
        (rl.store.Increment key 1 (rl.store.IsBlocked key s).2).2).1 = some e →
      (rl.Allow ip token s).1 = (false, some e) ∧
      rl.calls ip token s
        = [StoreCall.IsBlocked key, StoreCall.Increment key 1, StoreCall.Block key dur] ∧
      (rl.Allow ip token s).2
        = (rl.store.Block key dur
            (rl.store.Increment key 1 (rl.store.IsBlocked key s).2).2).2) := by
  refine ⟨?_, ?_, ?_⟩
  · intro e h0
    refine ⟨?_, ?_, ?_⟩
    · rw [Allow_of_isBlocked_error rl ip token s hr h0]
    · apply calls_of_not_unblocked rl ip token s hr
      intro h
      rw [h] at h0
      simp at h0
    · rw [Allow_of_isBlocked_error rl ip token s hr h0]
  · intro e h0 h1
    refine ⟨?_, ?_, ?_⟩
    · rw [Allow_of_increment_error rl ip token s hr h0 h1]
    · apply calls_of_no_block rl ip token s hr h0
      rw [h1]
      simp
    · rw [Allow_of_increment_error rl ip token s hr h0 h1]
  · intro e h0 h1 h2 h3
    refine ⟨?_, calls_of_over_limit rl ip token s hr h0 h1 h2, ?_⟩
    · rw [Allow_of_over_limit rl ip token s hr h0 h1 h2, h3]
    · rw [Allow_of_over_limit rl ip token s hr h0 h1 h2]

/-- Witness of C6: the store and limiter of `TestRateLimiter_Allow_BlockError`
(count 11 against the limit 10, `Block` fails). -/
theorem store_error_propagates_witness :
    ((NewRateLimiter
        (mockStore (false, none) (11, none) (some (GoError.errorString "block error")))
        10 300000000000 none).Allow "192.168.1.1" "" ()).1
      = (false, some (GoError.errorString "block error")) :=
  ((store_error_propagates
      (NewRateLimiter
        (mockStore (false, none) (11, none) (some (GoError.errorString "block error")))
        10 300000000000 none)
      "192.168.1.1" "" () "ip:192.168.1.1" 10 300000000000 (by decide)).2.2
    (GoError.errorString "block error") rfl rfl (by decide) rfl).1

/-! ## Counting up to the limit, then blocking -/

section Window

variable {σ : Type} (rl : RateLimiter σ) (ip token : String)
variable {key : String} {limit dur : Int}

theorem AllowN_succ (n : Nat) (s : σ) :
    rl.AllowN ip token (n + 1) s
      = ((rl.Allow ip token s).1 :: (rl.AllowN ip token n (rl.Allow ip token s).2).1,
          (rl.AllowN ip token n (rl.Allow ip token s).2).2) := by
  rw [RateLimiter.AllowN]

theorem AllowN_add (a b : Nat) (s : σ) :
    rl.AllowN ip token (a + b) s
      = ((rl.AllowN ip token a s).1 ++ (rl.AllowN ip token b (rl.AllowN ip token a s).2).1,
          (rl.AllowN ip token b (rl.AllowN ip token a s).2).2) := by
  induction a generalizing s with
  | zero => simp [RateLimiter.AllowN]
  | succ a ih =>
    rw [Nat.succ_add, AllowN_succ, AllowN_succ, ih]
    simp

/-- Counting phase: while the counter stays within the limit every run is
allowed and adds one to the counter. -/
theorem AllowN_counting (hr : rl.resolve ip token = (key, limit, dur))
    (counter : σ → Int) (blocked : σ → Bool)
    (hb_res : ∀ t, (rl.store.IsBlocked key t).1 = (blocked t, none))
    (hb_cnt : ∀ t, counter (rl.store.IsBlocked key t).2 = counter t)
    (hb_blk : ∀ t, blocked (rl.store.IsBlocked key t).2 = blocked t)
    (hi_res : ∀ t, (rl.store.Increment key 1 t).1 = (counter t + 1, none))
    (hi_cnt : ∀ t, counter (rl.store.Increment key 1 t).2 = counter t + 1)
    (hi_blk : ∀ t, blocked (rl.store.Increment key 1 t).2 = blocked t)
    (n : Nat) (t : σ) (hnb : blocked t = false) (hle : counter t + n ≤ limit) :
    (rl.AllowN ip token n t).1 = List.replicate n (true, none) ∧
    counter (rl.AllowN ip token n t).2 = counter t + n ∧
    blocked (rl.AllowN ip token n t).2 = false := by
  induction n generalizing t with
  | zero => simp [RateLimiter.AllowN, hnb]
  | succ n ih =>
    have h0 : (rl.store.IsBlocked key t).1 = (false, none) := by rw [hb_res, hnb]
    have h1 : (rl.store.Increment key 1 (rl.store.IsBlocked key t).2).1.2 = none := by
      rw [hi_res]
    have hle1 : counter t + 1 ≤ limit := by
      push_cast at hle
      omega
    have h2 : (rl.store.Increment key 1 (rl.store.IsBlocked key t).2).1.1 ≤ limit := by
      rw [hi_res, hb_cnt]
      exact hle1
    have hstep := Allow_of_within_limit rl ip token t hr h0 h1 h2
    have hc : counter (rl.Allow ip token t).2 = counter t + 1 := by
      rw [hstep]
      simp only
      rw [hi_cnt, hb_cnt]
    have hbk : blocked (rl.Allow ip token t).2 = false := by
      rw [hstep]
      simp only
      rw [hi_blk, hb_blk, hnb]
    have hle2 : counter (rl.Allow ip token t).2 + n ≤ limit := by
      rw [hc]
      push_cast at hle
      omega
    obtain ⟨r1, r2, r3⟩ := ih (rl.Allow ip token t).2 hbk hle2
    rw [AllowN_succ]
    refine ⟨?_, ?_, r3⟩
    · simp only
      rw [r1, hstep, List.replicate_succ]
    · simp only
      rw [r2, hc]
      push_cast
      ring

/-- The run that exceeds the limit is denied and sets the block. -/
theorem Allow_trip (hr : rl.resolve ip token = (key, limit, dur))
    (counter : σ → Int) (blocked : σ → Bool)
    (hb_res : ∀ t, (rl.store.IsBlocked key t).1 = (blocked t, none))
    (hb_cnt : ∀ t, counter (rl.store.IsBlocked key t).2 = counter t)
    (hi_res : ∀ t, (rl.store.Increment key 1 t).1 = (counter t + 1, none))
    (hk_res : ∀ t, (rl.store.Block key dur t).1 = none)
    (hk_blk : ∀ t, blocked (rl.store.Block key dur t).2 = true)
    (t : σ) (hnb : blocked t = false) (hlt : limit < counter t + 1) :
    (rl.Allow ip token t).1 = (false, none) ∧ blocked (rl.Allow ip token t).2 = true := by
  have h0 : (rl.store.IsBlocked key t).1 = (false, none) := by rw [hb_res, hnb]
  have h1 : (rl.store.Increment key 1 (rl.store.IsBlocked key t).2).1.2 = none := by
    rw [hi_res]
  have h2 : limit < (rl.store.Increment key 1 (rl.store.IsBlocked key t).2).1.1 := by
    rw [hi_res, hb_cnt]
    exact hlt
  rw [Allow_of_over_limit rl ip token t hr h0 h1 h2]
  simp only
  rw [hk_res, hk_blk]
  exact ⟨rfl, rfl⟩

/-- Blocked phase: every run on a blocked key is denied and leaves it blocked. -/
theorem AllowN_blocked (hr : rl.resolve ip token = (key, limit, dur))
    (blocked : σ → Bool)
    (hb_res : ∀ t, (rl.store.IsBlocked key t).1 = (blocked t, none))
    (hb_blk : ∀ t, blocked (rl.store.IsBlocked key t).2 = blocked t)
    (n : Nat) (t : σ) (hbk : blocked t = true) :
    (rl.AllowN ip token n t).1 = List.replicate n (false, none) ∧
    blocked (rl.AllowN ip token n t).2 = true := by
  induction n generalizing t with
  | zero => simp [RateLimiter.AllowN, hbk]
  | succ n ih =>
    have h0 : (rl.store.IsBlocked key t).1 = (true, none) := by rw [hb_res, hbk]
    have hstep := Allow_of_blocked rl ip token t hr h0
    have hbk2 : blocked (rl.Allow ip token t).2 = true := by
      rw [hstep]
      simp only
      rw [hb_blk, hbk]
    obtain ⟨r1, r2⟩ := ih (rl.Allow ip token t).2 hbk2
    rw [AllowN_succ]
    refine ⟨?_, r2⟩
    simp only
    rw [r1, hstep, List.replicate_succ]

end Window

/-- C7: let `(key, limit, dur)` be the resolved triple with `0 ≤ limit`, and
let the store be free of faults on `key`, seen through the counter `counter`
of `key` in the current window and its block record `blocked`: `IsBlocked`
reports `blocked` and changes neither, `Increment` adds one to the counter,
returns the new count and leaves the block record, and `Block` succeeds and
sets the block record (one window, no block record expiring). Starting with
the counter at 0 and no block record, of any number `N` of consecutive
`Allow` calls the first `limit` return `(true, nil)` and all later ones, the
`(limit + 1)`-th first, return `(false, nil)`; the key is blocked after `N`
calls exactly when `N > limit`. -/
theorem limit_then_block {σ : Type} (rl : RateLimiter σ) (ip token : String) (s : σ)
    (key : String) (limit dur : Int) (hr : rl.resolve ip token = (key, limit, dur))
    (hL : 0 ≤ limit) (counter : σ → Int) (blocked : σ → Bool)
    (hb_res : ∀ t, (rl.store.IsBlocked key t).1 = (blocked t, none))
    (hb_cnt : ∀ t, counter (rl.store.IsBlocked key t).2 = counter t)
    (hb_blk : ∀ t, blocked (rl.store.IsBlocked key t).2 = blocked t)
    (hi_res : ∀ t, (rl.store.Increment key 1 t).1 = (counter t + 1, none))
    (hi_cnt : ∀ t, counter (rl.store.Increment key 1 t).2 = counter t + 1)
    (hi_blk : ∀ t, blocked (rl.store.Increment key 1 t).2 = blocked t)
    (hk_res : ∀ t, (rl.store.Block key dur t).1 = none)
    (hk_blk : ∀ t, blocked (rl.store.Block key dur t).2 = true)
    (h0 : counter s = 0) (hnb : blocked s = false) (N : Nat) :
    (rl.AllowN ip token N s).1
      = List.replicate (min N limit.toNat) (true, none)
        ++ List.replicate (N - limit.toNat) (false, none) ∧
    blocked (rl.AllowN ip token N s).2 = decide (limit.toNat < N) ∧
    (rl.store.IsBlocked key (rl.AllowN ip token N s).2).1 = (decide (limit.toNat < N), none) := by
  have hcast : ((limit.toNat : Nat) : Int) = limit := Int.toNat_of_nonneg hL
  have main : (rl.AllowN ip token N s).1
      = List.replicate (min N limit.toNat) (true, none)
        ++ List.replicate (N - limit.toNat) (false, none) ∧
      blocked (rl.AllowN ip token N s).2 = decide (limit.toNat < N) := by
    by_cases hN : N ≤ limit.toNat
    · have hle : counter s + (N : Int) ≤ limit := by
        rw [h0, ← hcast]
        omega
      obtain ⟨r1, _, r3⟩ := AllowN_counting rl ip token hr counter blocked
        hb_res hb_cnt hb_blk hi_res hi_cnt hi_blk N s hnb hle
      rw [r1, r3, Nat.min_eq_left hN, Nat.sub_eq_zero_of_le hN]
      simp [Nat.not_lt.mpr hN]
    · have hN2 : limit.toNat < N := Nat.lt_of_not_le hN
      obtain ⟨m, hm⟩ : ∃ m, N = limit.toNat + (m + 1) := ⟨N - limit.toNat - 1, by omega⟩
      have hle : counter s + (limit.toNat : Int) ≤ limit := by
        rw [h0, hcast]
        omega
      obtain ⟨r1, r2, r3⟩ := AllowN_counting rl ip token hr counter blocked
        hb_res hb_cnt hb_blk hi_res hi_cnt hi_blk limit.toNat s hnb hle
      have hlt : limit < counter (rl.AllowN ip token limit.toNat s).2 + 1 := by
        rw [r2, h0, hcast]
        omega
      obtain ⟨t1, t2⟩ := Allow_trip rl ip token hr counter blocked
        hb_res hb_cnt hi_res hk_res hk_blk (rl.AllowN ip token limit.toNat s).2 r3 hlt
      obtain ⟨b1, b2⟩ := AllowN_blocked rl ip token hr blocked hb_res hb_blk m
        (rl.Allow ip token (rl.AllowN ip token limit.toNat s).2).2 t2
      rw [hm, AllowN_add, Nat.add_comm m 1, AllowN_add]
      simp only [RateLimiter.AllowN]
      rw [r1, t1, b1, b2]
      have e1 : min (limit.toNat + (1 + m)) limit.toNat = limit.toNat := by omega
      have e2 : limit.toNat + (1 + m) - limit.toNat = 1 + m := by omega
      rw [e1, e2, Nat.add_comm 1 m, List.replicate_succ]
      simp
  refine ⟨main.1, main.2, ?_⟩
  rw [hb_res, main.2]

/-- Witness of C7: limit 10 over the in-memory store, starting empty; of 12
runs for the IP 192.168.1.1 the first 10 are allowed, the 11th and 12th are
denied, and the key is blocked afterwards. -/
theorem limit_then_block_witness :
    (rl_mem.AllowN "192.168.1.1" "" 12 { counters := [], blocks := [] }).1
        = List.replicate 10 (true, none) ++ List.replicate 2 (false, none) ∧
    (rl_mem.AllowN "192.168.1.1" "" 12 { counters := [], blocks := [] }).2.blocked
        "ip:192.168.1.1" = true :=
  ⟨(limit_then_block rl_mem "192.168.1.1" "" { counters := [], blocks := [] }
      "ip:192.168.1.1" 10 300000000000 (by decide) (by decide)
      (fun m => m.counter "ip:192.168.1.1") (fun m => m.blocked "ip:192.168.1.1")
      (fun _ => rfl) (fun _ => rfl) (fun _ => rfl) (fun _ => rfl)
      (fun m => by simp [rl_mem, NewRateLimiter, memStore, MemState.counter, List.lookup])
      (fun _ => rfl) (fun _ => rfl)
      (fun m => by simp [rl_mem, NewRateLimiter, memStore, MemState.blocked])
      rfl rfl 12).1,
    (limit_then_block rl_mem "192.168.1.1" "" { counters := [], blocks := [] }
      "ip:192.168.1.1" 10 300000000000 (by decide) (by decide)
      (fun m => m.counter "ip:192.168.1.1") (fun m => m.blocked "ip:192.168.1.1")
      (fun _ => rfl) (fun _ => rfl) (fun _ => rfl) (fun _ => rfl)
      (fun m => by simp [rl_mem, NewRateLimiter, memStore, MemState.counter, List.lookup])
      (fun _ => rfl) (fun _ => rfl)
      (fun m => by simp [rl_mem, NewRateLimiter, memStore, MemState.blocked])
      rfl rfl 12).2.1⟩

/-! ## Other identities are left alone -/

/-- The state after a run is the state after its last store call. -/
theorem Allow_state_cases {σ : Type} (rl : RateLimiter σ) (ip token : String) (s : σ)
    {key : String} {limit dur : Int} (hr : rl.resolve ip token = (key, limit, dur)) :
    (rl.Allow ip token s).2 = (rl.store.IsBlocked key s).2 ∨
    (rl.Allow ip token s).2 = (rl.store.Increment key 1 (rl.store.IsBlocked key s).2).2 ∨
    (rl.Allow ip token s).2
      = (rl.store.Block key dur (rl.store.Increment key 1 (rl.store.IsBlocked key s).2).2).2 := by
  rcases hb : (rl.store.IsBlocked key s).1 with ⟨b, _ | e⟩
  · cases b
    · rcases hi : (rl.store.Increment key 1 (rl.store.IsBlocked key s).2).1 with ⟨c, _ | e⟩
      · have h1 : (rl.store.Increment key 1 (rl.store.IsBlocked key s).2).1.2 = none := by
          rw [hi]
        by_cases hc : c ≤ limit
        · have h2 : (rl.store.Increment key 1 (rl.store.IsBlocked key s).2).1.1 ≤ limit := by
            rw [hi]; exact hc
          rw [Allow_of_within_limit rl ip token s hr hb h1 h2]
          exact Or.inr (Or.inl rfl)
        · have h2 : limit < (rl.store.Increment key 1 (rl.store.IsBlocked key s).2).1.1 := by
            rw [hi]; exact not_le.mp hc
          rw [Allow_of_over_limit rl ip token s hr hb h1 h2]
          exact Or.inr (Or.inr rfl)
      · have h1 : (rl.store.Increment key 1 (rl.store.IsBlocked key s).2).1.2 = some e := by
          rw [hi]
        rw [Allow_of_increment_error rl ip token s hr hb h1]
        exact Or.inr (Or.inl rfl)
    · rw [Allow_of_blocked rl ip token s hr hb]
      exact Or.inl rfl
  · have h0 : (rl.store.IsBlocked key s).1.2 = some e := by rw [hb]
    rw [Allow_of_isBlocked_error rl ip token s hr h0]
    exact Or.inl rfl

/-- C8: with `(key, limit, dur)` the resolved triple, every store call of one
`Allow` call carries `key`. So for a store with an explicit state, seen
through any per-key observation `view` (the counter and the block record of a
key) that a store call on one key leaves unchanged at every other key whether
the call succeeds or fails, `Allow` leaves the observation of every key other
than `key` unchanged, on each of its paths (allowed, denied, failed). -/
theorem other_keys_untouched {σ : Type} (rl : RateLimiter σ) (ip token : String) (s : σ)
    (key : String) (limit dur : Int) (hr : rl.resolve ip token = (key, limit, dur)) :
    (∀ call ∈ rl.calls ip token s, call.key = key) ∧
    (∀ (α : Type) (view : σ → String → α),
      (∀ (k k2 : String) (t : σ), k2 ≠ k → view (rl.store.IsBlocked k t).2 k2 = view t k2) →
      (∀ (k : String) (w : Int) (k2 : String) (t : σ), k2 ≠ k →
        view (rl.store.Increment k w t).2 k2 = view t k2) →
      (∀ (k : String) (d : Int) (k2 : String) (t : σ), k2 ≠ k →
        view (rl.store.Block k d t).2 k2 = view t k2) →
      ∀ k2 : String, k2 ≠ key → view (rl.Allow ip token s).2 k2 = view s k2) := by
  refine ⟨fun call hmem => calls_key rl ip token s hr call hmem, ?_⟩
  intro α view hIB hInc hBlk k2 hk
  rcases Allow_state_cases rl ip token s hr with h | h | h <;> rw [h]
  · exact hIB key k2 s hk
  · rw [hInc key 1 k2 _ hk]
    exact hIB key k2 s hk
  · rw [hBlk key dur k2 _ hk, hInc key 1 k2 _ hk]
    exact hIB key k2 s hk

/-- Witness of C8: over the in-memory store, a run for the IP 192.168.1.1
leaves the counter and the block record of the key of 192.168.1.2 as they
were (here at count 10). -/
theorem other_keys_untouched_witness :
    ((rl_mem.Allow "192.168.1.1" "" { counters := [("ip:192.168.1.2", 10)], blocks := [] }).2.counter
        "ip:192.168.1.2",
      (rl_mem.Allow "192.168.1.1" "" { counters := [("ip:192.168.1.2", 10)], blocks := [] }).2.blocked
        "ip:192.168.1.2")
      = (10, false) :=
  (other_keys_untouched rl_mem "192.168.1.1" ""
      { counters := [("ip:192.168.1.2", 10)], blocks := [] }
      "ip:192.168.1.1" 10 300000000000 (by decide)).2
    (Int × Bool) (fun m k => (m.counter k, m.blocked k))
    (fun _ _ _ _ => rfl)
    (fun k w k2 t hk => by
      have hbeq : (k2 == k) = false := by simpa using hk
      simp [rl_mem, NewRateLimiter, memStore, MemState.counter, MemState.blocked, List.lookup,
        hbeq])
    (fun k d k2 t hk => by
      simp [rl_mem, NewRateLimiter, memStore, MemState.counter, MemState.blocked, hk])
    "ip:192.168.1.2" (by decide)

/-! ## Identity keys and the records behind them -/

/-- C9: the identity key names its subject uniquely. `"ip:" + ip` determines
`ip`, `"token:" + t` determines `t`, and a token-derived key is never an
IP-derived key. Hence two requests that `resolve` sends to the same key are
either two requests with the same configured token or two requests without a
configured token from the same ip; and neither the counter record nor the
block record that the Redis store keeps for a token-derived key is a record
it keeps for an IP-derived key. -/
theorem identity_key_unique :
    (∀ ip ip2 : String, "ip:" ++ ip = "ip:" ++ ip2 → ip = ip2) ∧
    (∀ t t2 : String, "token:" ++ t = "token:" ++ t2 → t = t2) ∧
    (∀ t ip : String, "token:" ++ t ≠ "ip:" ++ ip) ∧
    (∀ (σ : Type) (rl : RateLimiter σ) (ip token ip2 token2 : String),
      (rl.resolve ip token).1 = (rl.resolve ip2 token2).1 →
      (token ≠ "" ∧ rl.tokenConfigs.get token ≠ none ∧ token2 = token) ∨
      ((token = "" ∨ rl.tokenConfigs.get token = none) ∧
        (token2 = "" ∨ rl.tokenConfigs.get token2 = none) ∧ ip2 = ip)) ∧
    (∀ (t ip : String) (n m : Int),
      windowKey ("token:" ++ t) n ≠ windowKey ("ip:" ++ ip) m ∧
      blockedKey ("token:" ++ t) ≠ blockedKey ("ip:" ++ ip) ∧
      windowKey ("token:" ++ t) n ≠ blockedKey ("ip:" ++ ip) ∧
      blockedKey ("token:" ++ t) ≠ windowKey ("ip:" ++ ip) m) := by
  refine ⟨fun ip ip2 h => append_left_cancel _ _ _ h,
    fun t t2 h => append_left_cancel _ _ _ h,
    fun t ip h => ip_key_ne_token_key ip t h.symm, ?_, ?_⟩
  · intro σ rl ip token ip2 token2 h
    by_cases h1 : token ≠ "" ∧ rl.tokenConfigs.get token ≠ none
    · obtain ⟨c1, hc1⟩ := Option.ne_none_iff_exists'.mp h1.2
      rw [resolve_of_configured rl ip token h1.1 hc1] at h
      by_cases h2 : token2 ≠ "" ∧ rl.tokenConfigs.get token2 ≠ none
      · obtain ⟨c2, hc2⟩ := Option.ne_none_iff_exists'.mp h2.2
        rw [resolve_of_configured rl ip2 token2 h2.1 hc2] at h
        exact Or.inl ⟨h1.1, h1.2, (append_left_cancel _ _ _ h).symm⟩
      · have h2b : token2 = "" ∨ rl.tokenConfigs.get token2 = none := by
          by_cases h3 : token2 = ""
          · exact Or.inl h3
          · exact Or.inr (by_contra fun h4 => h2 ⟨h3, h4⟩)
        rw [resolve_of_unconfigured rl ip2 token2 h2b] at h
        exact absurd h.symm (ip_key_ne_token_key ip2 token)
    · have h1b : token = "" ∨ rl.tokenConfigs.get token = none := by
        by_cases h3 : token = ""
        · exact Or.inl h3
        · exact Or.inr (by_contra fun h4 => h1 ⟨h3, h4⟩)
      rw [resolve_of_unconfigured rl ip token h1b] at h
      by_cases h2 : token2 ≠ "" ∧ rl.tokenConfigs.get token2 ≠ none
      · obtain ⟨c2, hc2⟩ := Option.ne_none_iff_exists'.mp h2.2
        rw [resolve_of_configured rl ip2 token2 h2.1 hc2] at h
        exact absurd h (ip_key_ne_token_key ip token2)
      · have h2b : token2 = "" ∨ rl.tokenConfigs.get token2 = none := by
          by_cases h3 : token2 = ""
          · exact Or.inl h3
          · exact Or.inr (by_contra fun h4 => h2 ⟨h3, h4⟩)
        rw [resolve_of_unconfigured rl ip2 token2 h2b] at h
        exact Or.inr ⟨h1b, h2b, (append_left_cancel _ _ _ h).symm⟩
  · intro t ip n m
    refine ⟨?_, ?_, ?_, ?_⟩
    · intro h
      have hd := congrArg String.data h
      simp only [windowKey, String.data_append, List.append_assoc, List.cons_append,
        List.cons.injEq] at hd
      simp at hd
    · intro h
      exact ip_key_ne_token_key ip t (append_left_cancel _ _ _ h).symm
    · intro h
      have hd := congrArg String.data h
      simp only [windowKey, blockedKey, String.data_append, List.append_assoc,
        List.cons_append, List.cons.injEq] at hd
      simp at hd
    · intro h
      have hd := congrArg String.data h
      simp only [windowKey, blockedKey, String.data_append, List.append_assoc,
        List.cons_append, List.cons.injEq] at hd
      simp at hd

/-! ## The expiry of the counter record -/

/-- The commands `Increment` sends, on a recording client. -/
theorem recording_Increment_log {ρ : Type} (r : RedisStore ρ) (unixNow : ρ → Int)
    (key : String) (windowSec : Int) (s : ρ) (log : List (List RedisCmd)) :
    (r.recording.Increment (fun t => unixNow t.1) key windowSec (s, log)).2.2
      = log ++ [[RedisCmd.Incr (windowKey key (unixNow s)),
          RedisCmd.Expire (windowKey key (unixNow s))
            (wrapInt64 (wrapInt64 (windowSec + 1) * Second))]] := by
  unfold RedisStore.Increment
  rcases h : r.recording.client.PipelineExec
    [RedisCmd.Incr (windowKey key (unixNow s)),
      RedisCmd.Expire (windowKey key (unixNow s))
        (wrapInt64 (wrapInt64 (windowSec + 1) * Second))] (s, log) with ⟨⟨vals, _ | e⟩, s1⟩
  all_goals
    simp only [h]
    have h2 := congrArg (fun x => x.2.2) h
    simp only [RedisStore.recording, RedisClient.recording] at h2
    rw [← h2]

/-- No wrap-around in the expiry when `(windowSec + 1) * 10^9` fits. -/
theorem expiry_no_wrap (windowSec : Int) (h0 : 0 ≤ windowSec)
    (hfit : (windowSec + 1) * 10 ^ 9 < 2 ^ 63) :
    wrapInt64 (wrapInt64 (windowSec + 1) * Second) = (windowSec + 1) * Second := by
  have e1 : wrapInt64 (windowSec + 1) = windowSec + 1 := by
    unfold wrapInt64
    omega
  rw [e1]
  unfold wrapInt64 Second
  omega

/-- C11: for `0 ≤ windowSec` with `(windowSec + 1) * 10^9` in the int64 range,
an `Increment` call sends one pipeline holding the `INCR` of the window key
and, on the same key, an `EXPIRE` of exactly `windowSec + 1` seconds; when the
pipeline succeeds the call returns the value of the `INCR` as the count. Every
`Increment` call `Allow` makes passes `windowSec = 1`, for which the expiry is
2 seconds. -/
theorem Increment_expire_ttl {ρ : Type} (r : RedisStore ρ) (unixNow : ρ → Int) (key : String)
    (windowSec : Int) (s : ρ) (log : List (List RedisCmd)) (h0 : 0 ≤ windowSec)
    (hfit : (windowSec + 1) * 10 ^ 9 < 2 ^ 63) :
    (r.recording.Increment (fun t => unixNow t.1) key windowSec (s, log)).2.2
      = log ++ [[RedisCmd.Incr (windowKey key (unixNow s)),
          RedisCmd.Expire (windowKey key (unixNow s)) ((windowSec + 1) * Second)]] ∧
    (∀ (vals : List Int) (s1 : ρ),
      r.client.PipelineExec
        [RedisCmd.Incr (windowKey key (unixNow s)),
          RedisCmd.Expire (windowKey key (unixNow s)) ((windowSec + 1) * Second)] s
        = ((vals, none), s1) →
      r.Increment unixNow key windowSec s = ((vals.getD 0 0, none), s1)) ∧
    (∀ (σ : Type) (rl : RateLimiter σ) (ip token : String) (st : σ),
      ∀ call ∈ rl.calls ip token st, call.isIncrement = true →
        call = StoreCall.Increment (rl.resolve ip token).1 1) ∧
    (r.recording.Increment (fun t => unixNow t.1) key 1 (s, log)).2.2
      = log ++ [[RedisCmd.Incr (windowKey key (unixNow s)),
          RedisCmd.Expire (windowKey key (unixNow s)) (2 * Second)]] := by
  have hw := expiry_no_wrap windowSec h0 hfit
  refine ⟨?_, ?_, ?_, ?_⟩
  · rw [recording_Increment_log, hw]
  · intro vals s1 h
    unfold RedisStore.Increment
    rw [hw, h]
  · intro σ rl ip token st call hmem hinc
    rcases calls_mem rl ip token st (rfl : rl.resolve ip token = _) call hmem with h | h | h
    · rw [h] at hinc
      simp [StoreCall.isIncrement] at hinc
    · exact h
    · rw [h] at hinc
      simp [StoreCall.isIncrement] at hinc
  · rw [recording_Increment_log, expiry_no_wrap 1 (by decide) (by decide)]
    rfl

/-- Witness of C11: a client whose pipeline answers `[7, 1]`; the call with
`windowSec = 1` at Unix second 1700000000 returns the count 7. -/
theorem Increment_expire_ttl_witness :
    (NewRedisStore (mockClient (0, none) none ([7, 1], none))).Increment
        (fun _ => 1700000000) "ip:192.168.1.1" 1 () = ((7, none), ()) :=
  (Increment_expire_ttl (NewRedisStore (mockClient (0, none) none ([7, 1], none)))
    (fun _ => 1700000000) "ip:192.168.1.1" 1 () [] (by decide) (by decide)).2.1 [7, 1] () rfl

/-! ## Decimal numerals -/

/-- The digits `Nat.toDigits` writes, in terms of `Nat.digits`. -/
theorem toDigitsCore_eq (fuel : Nat) : ∀ (n : Nat) (ds : List Char), n < fuel →
    Nat.toDigitsCore 10 fuel n ds
      = (Nat.digits 10 (n / 10)).reverse.map Nat.digitChar ++ Nat.digitChar (n % 10) :: ds := by
  induction fuel with
  | zero => intro n ds h; omega
  | succ fuel ih =>
    intro n ds h
    unfold Nat.toDigitsCore
    by_cases h0 : n / 10 = 0
    · simp [h0]
    · simp only [h0, if_false]
      have hlt : n / 10 < fuel := by omega
      rw [ih (n / 10) _ hlt]
      have hpos : 0 < n / 10 := Nat.pos_of_ne_zero h0
      rw [Nat.digits_def' (by decide : 1 < 10) hpos]
      simp

theorem toDigits_eq (n : Nat) :
    Nat.toDigits 10 n
      = (Nat.digits 10 (n / 10)).reverse.map Nat.digitChar ++ [Nat.digitChar (n % 10)] := by
  unfold Nat.toDigits
  exact toDigitsCore_eq (n + 1) n [] (Nat.lt_succ_self n)

/-- A decimal digit as a character, and back. -/
theorem digitChar_facts (d : Nat) (h : d < 10) :
    (Nat.digitChar d).isDigit = true ∧ (Nat.digitChar d).toNat - 48 = d := by
  interval_cases d <;> decide

/-- Every character of a numeral is a digit. -/
theorem toDigits_all_isDigit (n : Nat) : ∀ c ∈ Nat.toDigits 10 n, c.isDigit = true := by
  intro c hc
  rw [toDigits_eq] at hc
  simp only [List.mem_append, List.mem_map, List.mem_reverse, List.mem_singleton] at hc
  rcases hc with ⟨d, hd, rfl⟩ | rfl
  · exact (digitChar_facts d (Nat.digits_lt_base (by decide) hd)).1
  · exact (digitChar_facts _ (Nat.mod_lt _ (by decide))).1

theorem digitsValue_append_singleton (l : List Char) (c : Char) :
    digitsValue (l ++ [c]) = 10 * digitsValue l + (c.toNat - 48) := by
  simp [digitsValue, List.foldl_append]

theorem digitsValue_digits (l : List Nat) (h : ∀ d ∈ l, d < 10) :
    digitsValue (l.reverse.map Nat.digitChar) = Nat.ofDigits 10 l := by
  induction l with
  | nil => rfl
  | cons d l ih =>
    rw [List.reverse_cons, List.map_append, List.map_singleton, digitsValue_append_singleton,
      ih (fun x hx => h x (List.mem_cons_of_mem d hx)),
      (digitChar_facts d (h d (List.mem_cons_self d l))).2, Nat.ofDigits_cons]
    omega

/-- Reading a numeral gives the number back. -/
theorem digitsValue_toDigits (n : Nat) : digitsValue (Nat.toDigits 10 n) = n := by
  rw [toDigits_eq, digitsValue_append_singleton,
    digitsValue_digits _ (fun d hd => Nat.digits_lt_base (by decide) hd), Nat.ofDigits_digits,
    (digitChar_facts _ (Nat.mod_lt n (by decide))).2]
  omega

theorem toDigits_ne_nil (n : Nat) : Nat.toDigits 10 n ≠ [] := by
  rw [toDigits_eq]
  simp

theorem formatInt_data_ofNat (m : Nat) : (formatInt (Int.ofNat m)).data = Nat.toDigits 10 m := rfl

theorem formatInt_data_negSucc (m : Nat) :
    (formatInt (Int.negSucc m)).data = '-' :: Nat.toDigits 10 (m + 1) := rfl

/-- The numeral of an integer: its sign and the digits of its absolute value. -/
theorem formatInt_data (n : Int) :
    (formatInt n).data
      = if n < 0 then '-' :: Nat.toDigits 10 n.natAbs else Nat.toDigits 10 n.natAbs := by
  cases n with
  | ofNat m =>
    rw [formatInt_data_ofNat]
    have h : ¬ ((Int.ofNat m) < 0) := not_lt.mpr (Int.ofNat_nonneg m)
    rw [if_neg h]
    rfl
  | negSucc m =>
    rw [formatInt_data_negSucc]
    simp [Int.negSucc_lt_zero]

/-- A numeral holds no colon, no comma and no white space, and is not empty. -/
theorem formatInt_chars (n : Int) :
    ∀ c ∈ (formatInt n).data, c = '-' ∨ c.isDigit = true := by
  intro c hc
  rw [formatInt_data] at hc
  split_ifs at hc
  · rcases List.mem_cons.mp hc with h | h
    · exact Or.inl h
    · exact Or.inr (toDigits_all_isDigit _ c h)
  · exact Or.inr (toDigits_all_isDigit _ c hc)

/-- Different integers have different numerals. -/
theorem formatInt_injective (n m : Int) (h : formatInt n = formatInt m) : n = m := by
  have hd := congrArg String.data h
  rw [formatInt_data, formatInt_data] at hd
  have first_digit : ∀ k : Nat, ∀ l, Nat.toDigits 10 k ≠ '-' :: l := by
    intro k l hk
    have := toDigits_all_isDigit k '-' (by rw [hk]; exact List.mem_cons_self _ _)
    exact absurd this (by decide)
  by_cases hn : n < 0 <;> by_cases hm : m < 0
  · simp only [hn, hm, if_true, List.cons.injEq, true_and] at hd
    have := congrArg digitsValue hd
    rw [digitsValue_toDigits, digitsValue_toDigits] at this
    omega
  · simp only [hn, hm, if_true, if_false] at hd
    exact absurd hd.symm (first_digit _ _)
  · simp only [hn, hm, if_true, if_false] at hd
    exact absurd hd (first_digit _ _)
  · simp only [hn, hm, if_false] at hd
    have := congrArg digitsValue hd
    rw [digitsValue_toDigits, digitsValue_toDigits] at this
    omega

/-! ## Window keys -/

/-- Splitting at the last occurrence of a character is unique. -/
theorem append_cons_inj_of_not_mem_right {α : Type} (c : α) :
    ∀ (x y a b : List α), c ∉ x → c ∉ y → a ++ c :: x = b ++ c :: y → a = b ∧ x = y := by
  have front : ∀ (x y a b : List α), c ∉ x → c ∉ y → x ++ c :: a = y ++ c :: b →
      x = y ∧ a = b := by
    intro x
    induction x with
    | nil =>
      intro y a b _ hy h
      cases y with
      | nil => exact ⟨rfl, (List.cons.inj h).2⟩
      | cons d y =>
        have hd : c = d := (List.cons.inj h).1
        exact absurd (hd ▸ List.mem_cons_self d y) hy
    | cons e x ih =>
      intro y a b hx hy h
      cases y with
      | nil =>
        have he : e = c := (List.cons.inj h).1
        exact absurd (he ▸ List.mem_cons_self e x) hx
      | cons d y =>
        obtain ⟨h1, h2⟩ := List.cons.inj h
        obtain ⟨r1, r2⟩ := ih y a b (fun hc => hx (List.mem_cons_of_mem e hc))
          (fun hc => hy (List.mem_cons_of_mem d hc)) h2
        exact ⟨by rw [h1, r1], r2⟩
  intro x y a b hx hy h
  have hrev := congrArg List.reverse h
  simp only [List.reverse_append, List.reverse_cons, List.append_assoc, List.singleton_append]
    at hrev
  obtain ⟨r1, r2⟩ := front x.reverse y.reverse a.reverse b.reverse
    (fun hc => hx (List.mem_reverse.mp hc)) (fun hc => hy (List.mem_reverse.mp hc)) hrev
  exact ⟨List.reverse_injective r2, List.reverse_injective r1⟩

/-- A numeral holds no colon. -/
theorem colon_not_mem_formatInt (n : Int) : ':' ∉ (formatInt n).data := by
  intro h
  rcases formatInt_chars n ':' h with h1 | h1
  · exact absurd h1 (by decide)
  · exact absurd h1 (by decide)

/-- The window key determines the identity key and the second. -/
theorem windowKey_inj (k1 k2 : String) (t1 t2 : Int) (h : windowKey k1 t1 = windowKey k2 t2) :
    k1 = k2 ∧ t1 = t2 := by
  have hd := congrArg String.data h
  simp only [windowKey, String.data_append, List.append_assoc] at hd
  have hd2 := List.append_cancel_left hd
  simp only [List.singleton_append] at hd2
  obtain ⟨r1, r2⟩ := append_cons_inj_of_not_mem_right ':' _ _ _ _
    (colon_not_mem_formatInt t1) (colon_not_mem_formatInt t2) hd2
  exact ⟨String.ext r1, formatInt_injective t1 t2 (String.ext r2)⟩

/-- C12: the window key `Increment` builds is `"ratelimit:" + key + ":" +`
the numeral of the second; for one key, different seconds give different
window keys; and the map from (key, second) to the window key is injective,
for every key, a key holding colons included. -/
theorem window_key_injective :
    (∀ (ρ : Type) (r : RedisStore ρ) (unixNow : ρ → Int) (key : String) (windowSec : Int)
        (s : ρ) (log : List (List RedisCmd)),
      ∃ expiration : Int,
        (r.recording.Increment (fun t => unixNow t.1) key windowSec (s, log)).2.2
          = log ++ [[RedisCmd.Incr ("ratelimit:" ++ key ++ ":" ++ formatInt (unixNow s)),
              RedisCmd.Expire ("ratelimit:" ++ key ++ ":" ++ formatInt (unixNow s))
                expiration]]) ∧
    (∀ (key : String) (t1 t2 : Int), t1 ≠ t2 → windowKey key t1 ≠ windowKey key t2) ∧
    (∀ (k1 k2 : String) (t1 t2 : Int),
      "ratelimit:" ++ k1 ++ ":" ++ formatInt t1 = "ratelimit:" ++ k2 ++ ":" ++ formatInt t2 →
      k1 = k2 ∧ t1 = t2) := by
  refine ⟨?_, ?_, ?_⟩
  · intro ρ r unixNow key windowSec s log
    exact ⟨_, recording_Increment_log r unixNow key windowSec s log⟩
  · intro key t1 t2 hne h
    exact hne (windowKey_inj key key t1 t2 h).2
  · intro k1 k2 t1 t2 h
    exact windowKey_inj k1 k2 t1 t2 h

/-! ## The middleware -/

/-- The three outcomes of the middleware. -/
theorem middleware_cases {σ ω : Type}
    (SplitHostPort : String → (String × String) × Option GoError)
    (rl : Limiter σ) (next : Handler ω) (r : Request) (s : σ × List WriterCall × ω)
    (ip : String)
    (hip : ip = (match SplitHostPort r.RemoteAddr with
        | ((host, _), none) => host
        | (_, some _) => r.RemoteAddr))
    (allowed : Bool) (err : Option GoError) (s1 : σ)
    (h : rl.Allow ip (r.HeaderGet "API_KEY") s.1 = ((allowed, err), s1)) :
    (err ≠ none →
      middleware.RateLimiter SplitHostPort rl next r s
        = (s1, s.2.1 ++ [WriterCall.WriteHeader 500,
            WriterCall.Write "Internal Server Error\n"], s.2.2)) ∧
    (err = none → allowed = false →
      middleware.RateLimiter SplitHostPort rl next r s
        = (s1, s.2.1 ++ [WriterCall.WriteHeader 429, WriterCall.Write
            "you have reached the maximum number of requests or actions allowed within a certain time frame\n"],
          s.2.2)) ∧
    (err = none → allowed = true →
      middleware.RateLimiter SplitHostPort rl next r s
        = (s1, (next.ServeHTTP r (s.2.1, s.2.2)).1, (next.ServeHTTP r (s.2.1, s.2.2)).2)) := by
  subst hip
  unfold middleware.RateLimiter
  rw [h]
  refine ⟨?_, ?_, ?_⟩
  · intro he
    cases err with
    | none => exact absurd rfl he
    | some e => rfl
  · intro he ha
    subst he ha
    rfl
  · intro he ha
    subst he ha
    rfl

/-- C14: let `(allowed, err)` be what the limiter answers for the request
(for the host of `RemoteAddr`, or `RemoteAddr` itself when it does not split,
and the header `API_KEY`). If `err` is not nil the middleware writes status
500 and does not call the next handler, whatever `allowed` is; if `err` is nil
and `allowed` is false it writes status 429 and the body
`you have reached ... time frame` with a line end, and does not call the next
handler; if `err` is nil and `allowed` is true the writer and the handler
state are exactly what one call of the next handler makes of them. The number
of calls of the next handler grows by 0, 0 and 1 in the three cases. -/
theorem middleware_response {σ ω : Type}
    (SplitHostPort : String → (String × String) × Option GoError)
    (rl : Limiter σ) (next : Handler ω) (r : Request) (s : σ × List WriterCall × ω)
    (calls : Nat) (ip : String)
    (hip : ip = (match SplitHostPort r.RemoteAddr with
        | ((host, _), none) => host
        | (_, some _) => r.RemoteAddr))
    (allowed : Bool) (err : Option GoError) (s1 : σ)
    (h : rl.Allow ip (r.HeaderGet "API_KEY") s.1 = ((allowed, err), s1)) :
    (err ≠ none →
      middleware.RateLimiter SplitHostPort rl next r s
        = (s1, s.2.1 ++ [WriterCall.WriteHeader 500,
            WriterCall.Write "Internal Server Error\n"], s.2.2) ∧
      (middleware.RateLimiter SplitHostPort rl next.counting r
        (s.1, s.2.1, (s.2.2, calls))).2.2.2 = calls) ∧
    (err = none → allowed = false →
      middleware.RateLimiter SplitHostPort rl next r s
        = (s1, s.2.1 ++ [WriterCall.WriteHeader 429, WriterCall.Write
            "you have reached the maximum number of requests or actions allowed within a certain time frame\n"],
          s.2.2) ∧
      (middleware.RateLimiter SplitHostPort rl next.counting r
        (s.1, s.2.1, (s.2.2, calls))).2.2.2 = calls) ∧
    (err = none → allowed = true →
      middleware.RateLimiter SplitHostPort rl next r s
        = (s1, (next.ServeHTTP r (s.2.1, s.2.2)).1, (next.ServeHTTP r (s.2.1, s.2.2)).2) ∧
      (middleware.RateLimiter SplitHostPort rl next.counting r
        (s.1, s.2.1, (s.2.2, calls))).2.2.2 = calls + 1) := by
  have h1 := middleware_cases SplitHostPort rl next r s ip hip allowed err s1 h
  have h2 := middleware_cases SplitHostPort rl next.counting r (s.1, s.2.1, (s.2.2, calls)) ip hip
    allowed err s1 h
  refine ⟨fun he => ⟨h1.1 he, ?_⟩, fun he ha => ⟨h1.2.1 he ha, ?_⟩,
    fun he ha => ⟨h1.2.2 he ha, ?_⟩⟩
  · rw [h2.1 he]
  · rw [h2.2.1 he ha]
  · rw [h2.2.2 he ha]
    rfl

/-- Witness of C14: `TestRateLimiter_Middleware_Blocked`; the limiter denies,
the response is 429 with the message and the handler is not called. -/
theorem middleware_response_witness :
    middleware.RateLimiter testSplitHostPort (mockLimiter (false, none)) testHandler.counting
        testRequest ((), [], ((), 0))
      = ((), [WriterCall.WriteHeader 429, WriterCall.Write
            "you have reached the maximum number of requests or actions allowed within a certain time frame\n"],
          ((), 0)) :=
  ((middleware_response testSplitHostPort (mockLimiter (false, none)) testHandler.counting
    testRequest ((), [], ((), 0)) 0 "192.0.2.1" rfl false none () rfl).2.1 rfl rfl).1

/-! ## A limit of zero or less -/

/-- A run is either allowed without error or not allowed. -/
theorem Allow_fst_cases {σ : Type} (rl : RateLimiter σ) (ip token : String) (s : σ) :
    (rl.Allow ip token s).1 = (true, none) ∨ (rl.Allow ip token s).1.1 = false := by
  have hr : rl.resolve ip token
      = ((rl.resolve ip token).1, (rl.resolve ip token).2.1, (rl.resolve ip token).2.2) := rfl
  rcases hb : (rl.store.IsBlocked (rl.resolve ip token).1 s).1 with ⟨b, _ | e⟩
  · cases b
    · rcases hi : (rl.store.Increment (rl.resolve ip token).1 1
          (rl.store.IsBlocked (rl.resolve ip token).1 s).2).1 with ⟨c, _ | e⟩
      · by_cases hc : c ≤ (rl.resolve ip token).2.1
        · left
          exact (Allow_fst_true_iff rl ip token s hr).mpr ⟨hb, c, hi, hc⟩
        · right
          have h1 : (rl.store.Increment (rl.resolve ip token).1 1
              (rl.store.IsBlocked (rl.resolve ip token).1 s).2).1.2 = none := by rw [hi]
          have h2 : (rl.resolve ip token).2.1 < (rl.store.Increment (rl.resolve ip token).1 1
              (rl.store.IsBlocked (rl.resolve ip token).1 s).2).1.1 := by
            rw [hi]; exact not_le.mp hc
          rw [Allow_of_over_limit rl ip token s hr hb h1 h2]
      · right
        have h1 : (rl.store.Increment (rl.resolve ip token).1 1
            (rl.store.IsBlocked (rl.resolve ip token).1 s).2).1.2 = some e := by rw [hi]
        rw [Allow_of_increment_error rl ip token s hr hb h1]
    · right
      rw [Allow_of_blocked rl ip token s hr hb]
  · right
    have h0 : (rl.store.IsBlocked (rl.resolve ip token).1 s).1.2 = some e := by rw [hb]
    rw [Allow_of_isBlocked_error rl ip token s hr h0]

/-- C19: let `(key, limit, dur)` be the resolved triple with `limit ≤ 0`. A
run in which `IsBlocked` returns `(false, nil)` and `Increment` returns a
count of at least 1 calls `Block key dur` and is not allowed; so, with a store
whose counts are at least 1, no run returns `allowed = true`. The loader
accepts such limits: `RATE_LIMIT_IP=0`, `RATE_LIMIT_IP=-10` and the token
entry `t:0:1` load without error. -/
theorem nonpositive_limit_never_allows {σ : Type} (rl : RateLimiter σ) (ip token : String)
    (s : σ) (key : String) (limit dur : Int) (hr : rl.resolve ip token = (key, limit, dur))
    (hlim : limit ≤ 0) :
    (∀ count : Int, (rl.store.IsBlocked key s).1 = (false, none) →
      (rl.store.Increment key 1 (rl.store.IsBlocked key s).2).1 = (count, none) →
      1 ≤ count →
      rl.calls ip token s
        = [StoreCall.IsBlocked key, StoreCall.Increment key 1, StoreCall.Block key dur] ∧
      (rl.Allow ip token s).1.1 = false) ∧
    ((∀ count : Int,
        (rl.store.Increment key 1 (rl.store.IsBlocked key s).2).1 = (count, none) → 1 ≤ count) →
      (rl.Allow ip token s).1.1 = false) ∧
    (Load (envOf [("RATE_LIMIT_IP", "0")])).1
      = some { RedisAddr := "redis:6379", RedisPassword := "", IPLimit := 0,
               IPBlockDuration := 300000000000, TokenConfigs := some [] } ∧
    (Load (envOf [("RATE_LIMIT_IP", "-10")])).1
      = some { RedisAddr := "redis:6379", RedisPassword := "", IPLimit := -10,
               IPBlockDuration := 300000000000, TokenConfigs := some [] } ∧
    parseTokenConfigs "t:0:1"
      = (some [("t", { Limit := 0, BlockDuration := 1000000000 })], none) := by
  refine ⟨?_, ?_, by decide, by decide, by decide⟩
  · intro count h0 hi hc
    have h1 : (rl.store.Increment key 1 (rl.store.IsBlocked key s).2).1.2 = none := by rw [hi]
    have h2 : limit < (rl.store.Increment key 1 (rl.store.IsBlocked key s).2).1.1 := by
      rw [hi]
      show limit < count
      omega
    refine ⟨calls_of_over_limit rl ip token s hr h0 h1 h2, ?_⟩
    rw [Allow_of_over_limit rl ip token s hr h0 h1 h2]
  · intro hcount
    rcases Allow_fst_cases rl ip token s with h | h
    · obtain ⟨_, count, hi, hle⟩ := (Allow_fst_true_iff rl ip token s hr).mp h
      have := hcount count hi
      omega
    · exact h

/-- Witness of C19: limit 0 and the store of
`TestRateLimiter_Allow_EmptyToken`, whose count is 1. -/
theorem nonpositive_limit_never_allows_witness :
    ((NewRateLimiter (mockStore (false, none) (1, none) none) 0 300000000000 none).Allow
      "192.168.1.1" "" ()).1.1 = false :=
  ((nonpositive_limit_never_allows
    (NewRateLimiter (mockStore (false, none) (1, none) none) 0 300000000000 none)
    "192.168.1.1" "" () "ip:192.168.1.1" 0 300000000000 (by decide) (by decide)).1
    1 rfl rfl (by decide)).2

/-! ## Trimming and splitting -/

/-- Trimming a padded text whose ends are no white space gives the text. -/
theorem TrimSpace_pad (a x f : List Char) (ha : ∀ c ∈ a, isSpace c = true)
    (hf : ∀ c ∈ f, isSpace c = true)
    (hhead : ∀ c, x.head? = some c → isSpace c = false)
    (hlast : ∀ c, x.getLast? = some c → isSpace c = false) :
    TrimSpace ⟨a ++ x ++ f⟩ = ⟨x⟩ := by
  unfold TrimSpace
  congr 1
  show ((List.dropWhile isSpace (a ++ x ++ f)).reverse.dropWhile isSpace).reverse = x
  have hdrop : ∀ (a l : List Char), (∀ c ∈ a, isSpace c = true) →
      List.dropWhile isSpace (a ++ l) = List.dropWhile isSpace l := by
    intro a l h
    induction a with
    | nil => rfl
    | cons c a ih =>
      rw [List.cons_append, List.dropWhile_cons_of_pos (h c (List.mem_cons_self c a))]
      exact ih (fun d hd => h d (List.mem_cons_of_mem c hd))
  have hstop : ∀ (l : List Char), (∀ c, l.head? = some c → isSpace c = false) →
      (∀ c ∈ l.dropWhile isSpace, c ∈ l) →
      l ≠ [] → List.dropWhile isSpace l = l := by
    intro l h _ hne
    cases l with
    | nil => exact absurd rfl hne
    | cons c l =>
      have := h c rfl
      rw [List.dropWhile_cons_of_neg (by simp [this])]
  by_cases hx : x = []
  · subst hx
    have hall : List.dropWhile isSpace (a ++ [] ++ f) = [] := by
      rw [List.dropWhile_eq_nil_iff]
      intro c hc
      simp only [List.append_nil, List.mem_append] at hc
      rcases hc with h | h
      · exact ha c h
      · exact hf c h
    rw [hall]
    rfl
  · rw [List.append_assoc, hdrop a _ ha]
    have h1 : List.dropWhile isSpace (x ++ f) = x ++ f := by
      apply hstop
      · intro c hc
        rw [List.head?_append_of_ne_nil _ hx] at hc
        exact hhead c hc
      · intro c hc
        exact (List.dropWhile_sublist _).subset hc
      · simp [hx]
    rw [h1, List.reverse_append, hdrop f.reverse _ (fun c hc => hf c (List.mem_reverse.mp hc))]
    have h2 : List.dropWhile isSpace x.reverse = x.reverse := by
      apply hstop
      · intro c hc
        rw [List.head?_reverse] at hc
        exact hlast c hc
      · intro c hc
        exact (List.dropWhile_sublist _).subset hc
      · simp [hx]
    rw [h2, List.reverse_reverse]

/-- Splitting a text without the separator gives the text alone. -/
theorem splitOn_of_not_mem (sep : Char) (l : List Char) (h : sep ∉ l) :
    l.splitOn sep = [l] := by
  have := List.splitOn_intercalate [l] sep (by simpa using h) (by simp)
  simpa [List.intercalate] using this

/-- Splitting three texts joined by the separator gives the three texts. -/
theorem splitOn_three (sep : Char) (x y z : List Char) (hx : sep ∉ x) (hy : sep ∉ y)
    (hz : sep ∉ z) : (x ++ sep :: (y ++ sep :: z)).splitOn sep = [x, y, z] := by
  have := List.splitOn_intercalate [x, y, z] sep (by simp [hx, hy, hz]) (by simp)
  simpa [List.intercalate] using this

theorem intercalate_go_data (sep : String) : ∀ (l : List String) (acc : String),
    (String.intercalate.go acc sep l).data
      = acc.data ++ (l.map (fun a => sep.data ++ a.data)).flatten := by
  intro l
  induction l with
  | nil => intro acc; simp [String.intercalate.go]
  | cons a l ih =>
    intro acc
    rw [String.intercalate.go, ih]
    simp [String.data_append, List.append_assoc]

theorem list_intercalate_cons (sep : List Char) (a : List Char) (l : List (List Char)) :
    sep.intercalate (a :: l) = a ++ (l.map (fun b => sep ++ b)).flatten := by
  induction l generalizing a with
  | nil => simp [List.intercalate]
  | cons b l ih =>
    have := ih b
    simp only [List.intercalate, List.intersperse, List.flatten_cons, List.map_cons] at this ⊢
    rw [this, List.append_assoc]

/-- Joining strings, as lists of characters. -/
theorem intercalate_data (sep : String) (l : List String) :
    (sep.intercalate l).data = sep.data.intercalate (l.map String.data) := by
  cases l with
  | nil => rfl
  | cons a l =>
    rw [String.intercalate, intercalate_go_data, List.map_cons, list_intercalate_cons,
      List.map_map]
    rfl

/-- Splitting the join of separator-free strings gives them back. -/
theorem Split_intercalate (sep : Char) (l : List String) (hl : l ≠ [])
    (h : ∀ a ∈ l, sep ∉ a.data) :
    Split (String.intercalate (String.singleton sep) l) sep = l := by
  unfold Split
  rw [intercalate_data]
  have hs : (String.singleton sep).data = [sep] := rfl
  rw [hs, List.splitOn_intercalate (l.map String.data) sep]
  · rw [List.map_map]
    exact List.map_id _
  · intro x hx
    obtain ⟨a, ha, rfl⟩ := List.mem_map.mp hx
    exact h a ha
  · simpa using hl

/-! ## `strconv.Atoi` -/

/-- `Atoi` succeeds exactly on the decimal integers in the range of `int`,
and then returns their value. -/
theorem Atoi_ok_iff (s : String) :
    ((Atoi s).2 = none ↔ isIntDecimal s = true) ∧
    ((Atoi s).2 = none → (Atoi s).1 = decimalValue s) := by
  unfold Atoi isIntDecimal isDecimalInteger decimalValue
  split
  rename_i neg ds hm
  split at hm
  · -- plus sign
    rename_i ds2 hs
    simp only [Prod.mk.injEq] at hm
    obtain ⟨rfl, rfl⟩ := hm
    by_cases h1 : ds2 = [] ∨ ds2.all Char.isDigit = false
    · rw [if_pos h1]
      rcases h1 with h | h <;> simp [h]
    · rw [if_neg h1]
      push_neg at h1
      simp only [Bool.false_eq_true, if_false]
      by_cases h2 : 2 ^ 63 ≤ digitsValue ds2
      · rw [if_pos h2]
        simp
        intro _ _ _
        exact_mod_cast h2
      · rw [if_neg h2]
        have h3 : ds2.all Char.isDigit = true := by simpa using h1.2
        have h4 : ((digitsValue ds2 : Nat) : Int) < 2 ^ 63 := by exact_mod_cast not_le.mp h2
        have h5 : -(2 ^ 63 : Int) ≤ (digitsValue ds2 : Nat) := by omega
        simp [h1.1, h3]
        omega
  · -- minus sign
    rename_i ds2 hs
    simp only [Prod.mk.injEq] at hm
    obtain ⟨rfl, rfl⟩ := hm
    by_cases h1 : ds2 = [] ∨ ds2.all Char.isDigit = false
    · rw [if_pos h1]
      rcases h1 with h | h <;> simp [h]
    · rw [if_neg h1]
      push_neg at h1
      simp only [if_true]
      by_cases h2 : 2 ^ 63 < digitsValue ds2
      · rw [if_pos h2]
        simp
        intro _ _ h
        have : ((2 : Int) ^ 63) < (digitsValue ds2 : Nat) := by exact_mod_cast h2
        omega
      · rw [if_neg h2]
        have h3 : ds2.all Char.isDigit = true := by simpa using h1.2
        have h4 : ((digitsValue ds2 : Nat) : Int) ≤ 2 ^ 63 := by exact_mod_cast not_lt.mp h2
        have h5 : -((digitsValue ds2 : Nat) : Int) < 2 ^ 63 := by omega
        simp [h1.1, h3]
        omega
  · -- no sign
    rename_i hplus hminus
    simp only [Prod.mk.injEq] at hm
    obtain ⟨rfl, rfl⟩ := hm
    by_cases h1 : s.data = [] ∨ s.data.all Char.isDigit = false
    · rw [if_pos h1]
      rcases h1 with h | h <;> simp [h]
    · rw [if_neg h1]
      push_neg at h1
      simp only [Bool.false_eq_true, if_false]
      by_cases h2 : 2 ^ 63 ≤ digitsValue s.data
      · rw [if_pos h2]
        simp
        intro _ _ _
        exact_mod_cast h2
      · rw [if_neg h2]
        have h3 : s.data.all Char.isDigit = true := by simpa using h1.2
        have h4 : ((digitsValue s.data : Nat) : Int) < 2 ^ 63 := by exact_mod_cast not_le.mp h2
        have h5 : -(2 ^ 63 : Int) ≤ (digitsValue s.data : Nat) := by omega
        simp [h1.1, h3]
        omega

/-- The syntax and the value of a numeral. -/
theorem formatInt_decimal (n : Int) :
    isDecimalInteger (formatInt n) = true ∧ decimalValue (formatInt n) = n := by
  have hd := formatInt_data n
  have hall := toDigits_all_isDigit n.natAbs
  have hne := toDigits_ne_nil n.natAbs
  have hval := digitsValue_toDigits n.natAbs
  have hall2 : (Nat.toDigits 10 n.natAbs).all Char.isDigit = true := by
    rw [List.all_eq_true]
    exact hall
  unfold isDecimalInteger decimalValue
  by_cases hn : n < 0
  · rw [if_pos hn] at hd
    rw [hd]
    simp only [hall2, hval, Bool.and_true, Bool.not_eq_true', List.isEmpty_eq_false]
    refine ⟨hne, ?_⟩
    omega
  · rw [if_neg hn] at hd
    rw [hd]
    split
    · rename_i ds hs
      have := hall '+' (by rw [hs]; exact List.mem_cons_self _ _)
      exact absurd this (by decide)
    · rename_i ds hs
      have := hall '-' (by rw [hs]; exact List.mem_cons_self _ _)
      exact absurd this (by decide)
    · simp only [hall2, hval, Bool.and_true, Bool.not_eq_true', List.isEmpty_eq_false]
      refine ⟨hne, ?_⟩
      omega

/-- `Atoi` reads the numeral of an `int` back. -/
theorem Atoi_formatInt (n : Int) (h1 : -(2 ^ 63) ≤ n) (h2 : n < 2 ^ 63) :
    Atoi (formatInt n) = (n, none) := by
  obtain ⟨hs, hv⟩ := formatInt_decimal n
  have hok : isIntDecimal (formatInt n) = true := by
    unfold isIntDecimal
    rw [hs, hv]
    simp only [Bool.true_and, Bool.and_eq_true, decide_eq_true_eq]
    exact ⟨h1, h2⟩
  have h := Atoi_ok_iff (formatInt n)
  have e2 := h.1.mpr hok
  have e1 := h.2 e2
  rw [hv] at e1
  exact Prod.ext e1 e2

/-- A value `Atoi` returns without error lies in the range of `int`. -/
theorem Atoi_range (s : String) (v : Int) (h : Atoi s = (v, none)) :
    -(2 ^ 63) ≤ v ∧ v < 2 ^ 63 := by
  have h0 := Atoi_ok_iff s
  have e2 : (Atoi s).2 = none := by rw [h]
  have e1 : (Atoi s).1 = v := by rw [h]
  have hok := h0.1.mp e2
  have hv := h0.2 e2
  rw [e1] at hv
  unfold isIntDecimal at hok
  simp only [Bool.and_eq_true, decide_eq_true_eq] at hok
  rw [hv]
  exact ⟨hok.1.2, hok.2⟩

/-! ## The loop of `parseTokenConfigs` -/

/-- An entry is rejected, or it splits in three with two fields that `Atoi`
reads. -/
theorem entry_cases (entry : String) :
    entryRejected entry = true ∨
    (entryRejected entry = false ∧
      ∃ (p0 p1 p2 : String) (limit blockSec : Int),
        Split (TrimSpace entry) ':' = [p0, p1, p2] ∧
        Atoi (TrimSpace p1) = (limit, none) ∧ Atoi (TrimSpace p2) = (blockSec, none)) := by
  unfold entryRejected
  split
  · rename_i p0 p1 p2 hs
    by_cases h1 : isIntDecimal (TrimSpace p1) = true
    · by_cases h2 : isIntDecimal (TrimSpace p2) = true
      · right
        refine ⟨by simp [h1, h2], p0, p1, p2, (Atoi (TrimSpace p1)).1, (Atoi (TrimSpace p2)).1,
          hs, ?_, ?_⟩
        · exact Prod.ext rfl ((Atoi_ok_iff _).1.mpr h1)
        · exact Prod.ext rfl ((Atoi_ok_iff _).1.mpr h2)
      · left
        simp [h2]
    · left
      simp [h1]
  · left
    rfl

/-- The loop stops with an error and a nil map at a rejected entry. -/
theorem loop_cons_rejected (entry : String) (entries : List String)
    (configs : List (String × TokenConfig)) (h : entryRejected entry = true) :
    (parseTokenConfigs.loop (entry :: entries) configs).1 = none ∧
    (parseTokenConfigs.loop (entry :: entries) configs).2 ≠ none := by
  unfold entryRejected at h
  unfold parseTokenConfigs.loop
  split
  · rename_i p0 p1 p2 hs
    rw [hs] at h
    simp only [Bool.or_eq_true, Bool.not_eq_true'] at h
    rcases h1 : Atoi (TrimSpace p1) with ⟨limit, _ | e⟩
    · rcases h2 : Atoi (TrimSpace p2) with ⟨blockSec, _ | e⟩
      · exfalso
        have a1 : isIntDecimal (TrimSpace p1) = true :=
          (Atoi_ok_iff _).1.mp (by rw [h1])
        have a2 : isIntDecimal (TrimSpace p2) = true :=
          (Atoi_ok_iff _).1.mp (by rw [h2])
        rcases h with h | h
        · rw [a1] at h; exact absurd h (by decide)
        · rw [a2] at h; exact absurd h (by decide)
      · simp
    · simp
  · simp

/-- The loop goes on after an entry that reads. -/
theorem loop_cons_ok (entry : String) (entries : List String)
    (configs : List (String × TokenConfig)) (p0 p1 p2 : String) (limit blockSec : Int)
    (hs : Split (TrimSpace entry) ':' = [p0, p1, p2])
    (h1 : Atoi (TrimSpace p1) = (limit, none)) (h2 : Atoi (TrimSpace p2) = (blockSec, none)) :
    parseTokenConfigs.loop (entry :: entries) configs
      = parseTokenConfigs.loop entries
          (mapSet configs (TrimSpace p0)
            { Limit := limit, BlockDuration := wrapInt64 (blockSec * Second) }) := by
  rw [parseTokenConfigs.loop]
  simp only [hs, h1, h2]

/-- The loop fails exactly when some entry is rejected; then the map is nil,
and otherwise it is not. -/
theorem loop_error_iff (entries : List String) :
    ∀ configs : List (String × TokenConfig),
      ((parseTokenConfigs.loop entries configs).2 ≠ none ↔
        ∃ entry ∈ entries, entryRejected entry = true) ∧
      ((parseTokenConfigs.loop entries configs).2 ≠ none →
        (parseTokenConfigs.loop entries configs).1 = none) ∧
      ((parseTokenConfigs.loop entries configs).2 = none →
        (parseTokenConfigs.loop entries configs).1 ≠ none) := by
  induction entries with
  | nil =>
    intro configs
    simp [parseTokenConfigs.loop]
  | cons entry entries ih =>
    intro configs
    rcases entry_cases entry with h | ⟨hn, p0, p1, p2, limit, blockSec, hs, h1, h2⟩
    · obtain ⟨r1, r2⟩ := loop_cons_rejected entry entries configs h
      refine ⟨⟨fun _ => ⟨entry, List.mem_cons_self _ _, h⟩, fun _ => r2⟩, fun _ => r1,
        fun hc => absurd hc r2⟩
    · rw [loop_cons_ok entry entries configs p0 p1 p2 limit blockSec hs h1 h2]
      obtain ⟨i1, i2, i3⟩ := ih (mapSet configs (TrimSpace p0)
        { Limit := limit, BlockDuration := wrapInt64 (blockSec * Second) })
      refine ⟨?_, i2, i3⟩
      rw [i1]
      constructor
      · rintro ⟨e, he, hr⟩
        exact ⟨e, List.mem_cons_of_mem _ he, hr⟩
      · rintro ⟨e, he, hr⟩
        rcases List.mem_cons.mp he with rfl | he
        · rw [hn] at hr
          exact absurd hr (by decide)
        · exact ⟨e, he, hr⟩

/-- Where the entries of the map the loop returns come from. -/
theorem loop_members (entries : List String) :
    ∀ (configs m : List (String × TokenConfig)),
      parseTokenConfigs.loop entries configs = (some m, none) →
      ∀ e ∈ m, e ∈ configs ∨
        ∃ entry ∈ entries, ∃ (p0 p1 p2 : String) (blockSec : Int),
          Split (TrimSpace entry) ':' = [p0, p1, p2] ∧ e.1 = TrimSpace p0 ∧
          Atoi (TrimSpace p1) = (e.2.Limit, none) ∧
          Atoi (TrimSpace p2) = (blockSec, none) ∧
          e.2.BlockDuration = wrapInt64 (blockSec * Second) := by
  induction entries with
  | nil =>
    intro configs m h e he
    simp only [parseTokenConfigs.loop, Prod.mk.injEq, Option.some.injEq, and_true] at h
    subst h
    exact Or.inl he
  | cons entry entries ih =>
    intro configs m h e he
    rcases entry_cases entry with hrej | ⟨_, p0, p1, p2, limit, blockSec, hs, h1, h2⟩
    · have := (loop_cons_rejected entry entries configs hrej).2
      rw [h] at this
      exact absurd rfl this
    · rw [loop_cons_ok entry entries configs p0 p1 p2 limit blockSec hs h1 h2] at h
      rcases ih _ m h e he with hmem | ⟨en, hen, q0, q1, q2, bs, r1, r2, r3, r4, r5⟩
      · unfold mapSet at hmem
        rcases List.mem_cons.mp hmem with rfl | hmem
        · exact Or.inr ⟨entry, List.mem_cons_self _ _, p0, p1, p2, blockSec, hs, rfl, h1, h2, rfl⟩
        · exact Or.inl (List.mem_of_mem_filter hmem)
      · exact Or.inr ⟨en, List.mem_cons_of_mem _ hen, q0, q1, q2, bs, r1, r2, r3, r4, r5⟩

/-! ## Which strings the loader rejects -/

/-- Splitting gives one piece more than there are separators. -/
theorem splitOn_length (sep : Char) (l : List Char) :
    (l.splitOn sep).length = l.count sep + 1 := by
  unfold List.splitOn
  induction l with
  | nil => simp [List.splitOnP_nil]
  | cons c l ih =>
    rw [List.splitOnP_cons]
    by_cases h : c = sep
    · subst h
      simp [ih]
    · have h2 : (c == sep) = false := by simpa using h
      rw [h2]
      simp only [Bool.false_eq_true, if_false]
      rw [List.count_cons_of_ne (fun e => h e.symm)]
      cases hsp : List.splitOnP (fun x => x == sep) l with
      | nil => exact absurd hsp (List.splitOnP_ne_nil _ _)
      | cons a as =>
        rw [hsp] at ih
        simpa [List.modifyHead] using ih

/-- An entry that, trimmed, does not hold exactly two colons is rejected. -/
theorem entryRejected_of_count (entry : String)
    (h : (TrimSpace entry).data.count ':' ≠ 2) : entryRejected entry = true := by
  unfold entryRejected
  split
  · rename_i p0 p1 p2 hs
    have hl := congrArg List.length hs
    unfold Split at hl
    rw [List.length_map, splitOn_length] at hl
    simp only [List.length_cons, List.length_nil] at hl
    omega
  · rfl

/-- The claim C16 fails on the code: the entry `t:9223372036854775808:1`
splits in three and its fields are decimal integers, so no entry is invalid
in the sense of the specification, and yet `parseTokenConfigs` returns an
error and a nil map, as 9223372036854775808 exceeds the range of `int`. -/
theorem parse_error_iff_malformed_counterexample :
    "t:9223372036854775808:1" ≠ "" ∧
    (Split "t:9223372036854775808:1" ',').any entryMalformed = false ∧
    (parseTokenConfigs "t:9223372036854775808:1").1 = none ∧
    (parseTokenConfigs "t:9223372036854775808:1").2 ≠ none ∧
    ¬ (((parseTokenConfigs "t:9223372036854775808:1").2 ≠ none ∧
        (parseTokenConfigs "t:9223372036854775808:1").1 = none) ↔
      ∃ entry ∈ Split "t:9223372036854775808:1" ',', entryMalformed entry = true) := by
  decide

/-- C16, amended: for every non-empty string `s`, `parseTokenConfigs s`
returns an error and a nil map if and only if some comma-separated entry of
`s`, trimmed, does not split on `:` into exactly three parts, or has a second
or third part that, trimmed, is not a decimal integer in the range of `int`
(from -2^63 to 2^63 - 1); an error always comes with a nil map. Every entry
that, trimmed, does not hold exactly two colons is such an entry: too few
parts, too many parts, the empty entry, a token that holds a colon. -/
theorem parse_error_iff_rejected (s : String) (hs : s ≠ "") :
    (((parseTokenConfigs s).2 ≠ none ∧ (parseTokenConfigs s).1 = none) ↔
      ∃ entry ∈ Split s ',', entryRejected entry = true) ∧
    ((parseTokenConfigs s).2 ≠ none → (parseTokenConfigs s).1 = none) ∧
    ((parseTokenConfigs s).2 = none → (parseTokenConfigs s).1 ≠ none) ∧
    (∀ entry : String, (TrimSpace entry).data.count ':' ≠ 2 → entryRejected entry = true) ∧
    (∀ entry : String, entryRejected entry = true ↔
      ((Split (TrimSpace entry) ':').length ≠ 3 ∨
        ∃ p0 p1 p2 : String, Split (TrimSpace entry) ':' = [p0, p1, p2] ∧
          (isIntDecimal (TrimSpace p1) = false ∨ isIntDecimal (TrimSpace p2) = false))) ∧
    entryRejected "" = true ∧
    (parseTokenConfigs "token1:100").1 = none ∧
    (parseTokenConfigs "token1:100:300:extra").1 = none ∧
    (parseTokenConfigs "token1:100:300,").1 = none ∧
    (parseTokenConfigs "a:b:100:300").1 = none := by
  have hp : parseTokenConfigs s = parseTokenConfigs.loop (Split s ',') [] := by
    unfold parseTokenConfigs
    rw [if_neg hs]
  obtain ⟨i1, i2, i3⟩ := loop_error_iff (Split s ',') []
  refine ⟨?_, ?_, ?_, entryRejected_of_count, ?_, by decide, by decide, by decide, by decide,
    by decide⟩
  · rw [hp, ← i1]
    exact ⟨fun h => h.1, fun h => ⟨h, i2 h⟩⟩
  · rw [hp]
    exact i2
  · rw [hp]
    exact i3
  · intro entry
    unfold entryRejected
    split
    · rename_i p0 p1 p2 hsp
      simp only [Bool.or_eq_true, Bool.not_eq_true']
      constructor
      · intro h
        exact Or.inr ⟨p0, p1, p2, hsp, h⟩
      · rintro (h | ⟨q0, q1, q2, hq, h⟩)
        · rw [hsp] at h
          exact absurd rfl h
        · rw [hsp] at hq
          simp only [List.cons.injEq, and_true] at hq
          obtain ⟨_, rfl, rfl⟩ := hq
          exact h
    · rename_i hne
      simp only [true_iff]
      left
      intro hlen
      match hsp : Split (TrimSpace entry) ':', hlen with
      | [a, b, c], _ => exact hne a b c hsp

/-- Witness of C16, amended: the entry with too few parts of
`TestLoad_InvalidTokenFormat`. -/
theorem parse_error_iff_rejected_witness :
    (parseTokenConfigs "token1:100").2 ≠ none ∧ (parseTokenConfigs "token1:100").1 = none :=
  (parse_error_iff_rejected "token1:100" (by decide)).1.mpr
    ⟨"token1:100", by decide, by decide⟩

/-! ## The values the loader accepts -/

/-- The claim C17 fails on the code: the entry `t:0:-1` loads with limit 0 and
a negative block duration, and `RATE_LIMIT_IP=0` with
`RATE_LIMIT_IP_BLOCK_DURATION=-1` loads with IP limit 0 and a negative IP
block duration. -/
theorem positive_policy_counterexample :
    ¬ (∀ (s : String) (m : List (String × TokenConfig)),
        parseTokenConfigs s = (some m, none) →
        ∀ e ∈ m, 1 ≤ e.2.Limit ∧ 0 ≤ e.2.BlockDuration) ∧
    ¬ (∀ (env : String → String) (cfg : Config),
        Load env = (some cfg, none) → 1 ≤ cfg.IPLimit ∧ 0 ≤ cfg.IPBlockDuration) := by
  constructor
  · intro h
    have h1 := h "t:0:-1" [("t", { Limit := 0, BlockDuration := -1000000000 })] (by decide)
      ("t", { Limit := 0, BlockDuration := -1000000000 }) (List.mem_cons_self _ _)
    exact absurd h1.1 (by decide)
  · intro h
    have h1 := h (envOf [("RATE_LIMIT_IP", "0"), ("RATE_LIMIT_IP_BLOCK_DURATION", "-1")])
      { RedisAddr := "redis:6379", RedisPassword := "", IPLimit := 0,
        IPBlockDuration := -1000000000, TokenConfigs := some [] } (by decide)
    exact absurd h1.1 (by decide)

/-- C17, amended: the loader hands on the numbers as they are written, with
no check of their sign. For every `s` on which `parseTokenConfigs` succeeds,
each `TokenConfig` of the result belongs to an entry of `s` whose limit field
denotes its `Limit` and whose seconds field, times 10^9 and wrapped to 64
bits, is its `BlockDuration`; `Limit` lies in the range of `int`, and
`BlockDuration` is not negative when the seconds are between 0 and
9223372036. For every environment on which `Load` succeeds the same holds of
`IPLimit` and `IPBlockDuration` and the variables `RATE_LIMIT_IP` (default
10) and `RATE_LIMIT_IP_BLOCK_DURATION` (default 300). -/
theorem config_values_as_written (s : String) (m : List (String × TokenConfig))
    (h : parseTokenConfigs s = (some m, none)) :
    (∀ e ∈ m, ∃ entry ∈ Split s ',', ∃ (p0 p1 p2 : String) (blockSec : Int),
      Split (TrimSpace entry) ':' = [p0, p1, p2] ∧ e.1 = TrimSpace p0 ∧
      Atoi (TrimSpace p1) = (e.2.Limit, none) ∧
      Atoi (TrimSpace p2) = (blockSec, none) ∧
      e.2.BlockDuration = wrapInt64 (blockSec * Second) ∧
      -(2 ^ 63) ≤ e.2.Limit ∧ e.2.Limit < 2 ^ 63 ∧
      (0 ≤ blockSec → blockSec ≤ 9223372036 → 0 ≤ e.2.BlockDuration)) ∧
    (∀ (env : String → String) (cfg : Config), Load env = (some cfg, none) →
      ∃ ipBlockSec : Int,
        Atoi (getEnv env "RATE_LIMIT_IP" "10") = (cfg.IPLimit, none) ∧
        Atoi (getEnv env "RATE_LIMIT_IP_BLOCK_DURATION" "300") = (ipBlockSec, none) ∧
        cfg.IPBlockDuration = wrapInt64 (ipBlockSec * Second) ∧
        -(2 ^ 63) ≤ cfg.IPLimit ∧ cfg.IPLimit < 2 ^ 63 ∧
        (0 ≤ ipBlockSec → ipBlockSec ≤ 9223372036 → 0 ≤ cfg.IPBlockDuration)) := by
  have hwrap : ∀ k : Int, 0 ≤ k → k ≤ 9223372036 → 0 ≤ wrapInt64 (k * Second) := by
    intro k h0 h1
    unfold wrapInt64 Second
    have hx : 0 ≤ k * 1000000000 + 2 ^ 63 := by omega
    have hy : k * 1000000000 + 2 ^ 63 < 2 ^ 64 := by omega
    rw [Int.emod_eq_of_lt hx hy]
    omega
  constructor
  · intro e he
    by_cases hs : s = ""
    · subst hs
      have : m = [] := by
        have h2 : parseTokenConfigs "" = (some [], none) := by decide
        rw [h2] at h
        simp only [Prod.mk.injEq, Option.some.injEq, and_true] at h
        exact h.symm
      rw [this] at he
      exact absurd he (List.not_mem_nil _)
    · have hp : parseTokenConfigs s = parseTokenConfigs.loop (Split s ',') [] := by
        unfold parseTokenConfigs
        rw [if_neg hs]
      rw [hp] at h
      rcases loop_members (Split s ',') [] m h e he with hmem |
        ⟨entry, hen, p0, p1, p2, bs, r1, r2, r3, r4, r5⟩
      · exact absurd hmem (List.not_mem_nil _)
      · obtain ⟨g1, g2⟩ := Atoi_range _ _ r3
        refine ⟨entry, hen, p0, p1, p2, bs, r1, r2, r3, r4, r5, g1, g2, ?_⟩
        intro h0 h1
        rw [r5]
        exact hwrap bs h0 h1
  · intro env cfg hl
    unfold Load at hl
    rcases h1 : Atoi (getEnv env "RATE_LIMIT_IP" "10") with ⟨ipLimit, _ | e⟩
    · rcases h2 : Atoi (getEnv env "RATE_LIMIT_IP_BLOCK_DURATION" "300") with ⟨sec, _ | e⟩
      · rcases h3 : parseTokenConfigs (getEnv env "RATE_LIMIT_TOKENS" "") with ⟨tc, _ | e⟩
        · rw [h1, h2, h3] at hl
          simp only [Prod.mk.injEq, Option.some.injEq, and_true] at hl
          subst hl
          obtain ⟨g1, g2⟩ := Atoi_range _ _ h1
          exact ⟨sec, rfl, rfl, rfl, g1, g2, hwrap sec⟩
        · rw [h1, h2, h3] at hl
          simp at hl
      · rw [h1, h2] at hl
        simp at hl
    · rw [h1] at hl
      simp at hl

/-- Witness of C17, amended: the entry `t:0:-1`. -/
theorem config_values_as_written_witness :
    ∃ entry ∈ Split "t:0:-1" ',', ∃ (p0 p1 p2 : String) (blockSec : Int),
      Split (TrimSpace entry) ':' = [p0, p1, p2] ∧ "t" = TrimSpace p0 ∧
      Atoi (TrimSpace p1) = (0, none) ∧
      Atoi (TrimSpace p2) = (blockSec, none) ∧
      (-1000000000 : Int) = wrapInt64 (blockSec * Second) ∧
      -(2 ^ 63) ≤ (0 : Int) ∧ (0 : Int) < 2 ^ 63 ∧
      (0 ≤ blockSec → blockSec ≤ 9223372036 → 0 ≤ (-1000000000 : Int)) :=
  (config_values_as_written "t:0:-1" [("t", { Limit := 0, BlockDuration := -1000000000 })]
    (by decide)).1 ("t", { Limit := 0, BlockDuration := -1000000000 }) (List.mem_cons_self _ _)

/-! ## Reading a well-formed entry -/

/-- No character of a numeral is white space, a colon or a comma. -/
theorem formatInt_plain (n : Int) :
    ∀ c ∈ (formatInt n).data, isSpace c = false ∧ c ≠ ':' ∧ c ≠ ',' := by
  intro c hc
  have hdig : ∀ d : Char, d.isDigit = true → isSpace d = false ∧ d ≠ ':' ∧ d ≠ ',' := by
    intro d hd
    have h1 : 48 ≤ d.toNat ∧ d.toNat ≤ 57 := by
      simp only [Char.isDigit, Bool.and_eq_true, decide_eq_true_eq] at hd
      exact ⟨hd.1, hd.2⟩
    refine ⟨?_, ?_, ?_⟩
    · unfold isSpace
      simp only [Bool.or_eq_false_iff, Bool.and_eq_false_imp, beq_eq_false_iff_ne,
        decide_eq_true_eq, decide_eq_false_iff_not]
      omega
    · rintro rfl
      exact absurd h1.2 (by decide)
    · rintro rfl
      exact absurd h1.1 (by decide)
  rcases formatInt_chars n c hc with rfl | h
  · decide
  · exact hdig c h

/-- White space holds no colon and no comma. -/
theorem space_plain (w : List Char) (hw : w.all isSpace = true) :
    ':' ∉ w ∧ ',' ∉ w ∧ ∀ c ∈ w, isSpace c = true := by
  rw [List.all_eq_true] at hw
  refine ⟨fun h => ?_, fun h => ?_, hw⟩
  · exact absurd (hw _ h) (by decide)
  · exact absurd (hw _ h) (by decide)

/-- A numeral padded with white space trims to the numeral. -/
theorem TrimSpace_numeral (a f : List Char) (n : Int) (ha : a.all isSpace = true)
    (hf : f.all isSpace = true) : TrimSpace ⟨a ++ (formatInt n).data ++ f⟩ = formatInt n := by
  have h := TrimSpace_pad a (formatInt n).data f (space_plain a ha).2.2 (space_plain f hf).2.2
    (fun c hc => (formatInt_plain n c (List.mem_of_mem_head? hc)).1)
    (fun c hc => (formatInt_plain n c (List.mem_of_mem_getLast? hc)).1)
  rw [h]

theorem formatInt_ne_nil (n : Int) : (formatInt n).data ≠ [] := by
  rw [formatInt_data]
  split_ifs
  · simp
  · exact toDigits_ne_nil _

/-- A well-formed entry, trimmed, splits into its three fields; they trim to
the token and to the two numerals; and the entry holds no comma. -/
theorem entry_reads (e : EntryText) (hwf : e.wellFormed = true) :
    ',' ∉ e.text.data ∧
    ∃ p0 p1 p2 : String, Split (TrimSpace e.text) ':' = [p0, p1, p2] ∧
      TrimSpace p0 = e.token ∧ TrimSpace p1 = formatInt e.limit ∧
      TrimSpace p2 = formatInt e.blockSec := by
  unfold EntryText.wellFormed at hwf
  simp only [Bool.and_eq_true, decide_eq_true_eq] at hwf
  obtain ⟨⟨⟨⟨⟨⟨⟨⟨⟨⟨⟨⟨⟨t1, t2⟩, t3⟩, t4⟩, w0⟩, w1⟩, w2⟩, w3⟩, w4⟩, w5⟩, _⟩, _⟩, _⟩, _⟩ := hwf
  obtain ⟨c0, k0, s0⟩ := space_plain _ w0
  obtain ⟨c1, k1, s1⟩ := space_plain _ w1
  obtain ⟨c2, k2, _⟩ := space_plain _ w2
  obtain ⟨c3, k3, _⟩ := space_plain _ w3
  obtain ⟨c4, k4, _⟩ := space_plain _ w4
  obtain ⟨c5, k5, s5⟩ := space_plain _ w5
  have hL := formatInt_plain e.limit
  have hK := formatInt_plain e.blockSec
  have hKne := formatInt_ne_nil e.blockSec
  have hdata : e.text.data = e.ws0.data ++ (e.token.data ++ (e.ws1.data ++ (':' ::
      ((e.ws2.data ++ (formatInt e.limit).data ++ e.ws3.data) ++ ':' ::
        (e.ws4.data ++ (formatInt e.blockSec).data ++ e.ws5.data))))) := by
    simp [EntryText.text, String.data_append, List.append_assoc]
  -- the middle and the last field
  have m1 : ':' ∉ e.ws2.data ++ (formatInt e.limit).data ++ e.ws3.data := by
    simp only [List.mem_append, not_or]
    exact ⟨⟨c2, fun h => (hL _ h).2.1 rfl⟩, c3⟩
  have m2 : ':' ∉ e.ws4.data ++ (formatInt e.blockSec).data := by
    simp only [List.mem_append, not_or]
    exact ⟨c4, fun h => (hK _ h).2.1 rfl⟩
  have hp1 : TrimSpace ⟨e.ws2.data ++ (formatInt e.limit).data ++ e.ws3.data⟩
      = formatInt e.limit := TrimSpace_numeral _ _ _ w2 w3
  have hp2 : TrimSpace ⟨e.ws4.data ++ (formatInt e.blockSec).data⟩ = formatInt e.blockSec := by
    have := TrimSpace_numeral e.ws4.data [] e.blockSec w4 rfl
    simpa using this
  -- the end of the trimmed entry is the end of the seconds
  have hlastK : ∀ (pre : List Char) (c : Char),
      (pre ++ (e.ws4.data ++ (formatInt e.blockSec).data)).getLast? = some c →
      isSpace c = false := by
    intro pre c hc
    rw [← List.append_assoc, List.getLast?_append_of_ne_nil _ hKne] at hc
    exact (hK c (List.mem_of_mem_getLast? hc)).1
  constructor
  · rw [hdata]
    simp only [List.mem_append, List.mem_cons, not_or]
    refine ⟨k0, t2, k1, by decide, ⟨⟨k2, fun h => (hL _ h).2.2 rfl⟩, k3⟩, by decide,
      ⟨k4, fun h => (hK _ h).2.2 rfl⟩, k5⟩
  · by_cases hT : e.token.data = []
    · -- an empty token: the white space before the first colon is trimmed
      have htrim : TrimSpace e.text = ⟨[] ++ ':' ::
          ((e.ws2.data ++ (formatInt e.limit).data ++ e.ws3.data) ++ ':' ::
            (e.ws4.data ++ (formatInt e.blockSec).data))⟩ := by
        have h := TrimSpace_pad (e.ws0.data ++ e.ws1.data)
          ([] ++ ':' :: ((e.ws2.data ++ (formatInt e.limit).data ++ e.ws3.data) ++ ':' ::
            (e.ws4.data ++ (formatInt e.blockSec).data))) e.ws5.data
          (fun c hc => by
            rcases List.mem_append.mp hc with h | h
            · exact s0 c h
            · exact s1 c h)
          s5
          (fun c hc => by
            simp only [List.nil_append, List.head?_cons, Option.some.injEq] at hc
            subst hc
            decide)
          (fun c hc => by
            have e1 : ([] ++ ':' :: ((e.ws2.data ++ (formatInt e.limit).data ++ e.ws3.data)
                ++ ':' :: (e.ws4.data ++ (formatInt e.blockSec).data)))
                = (':' :: ((e.ws2.data ++ (formatInt e.limit).data ++ e.ws3.data) ++ [':']))
                  ++ (e.ws4.data ++ (formatInt e.blockSec).data) := by simp
            rw [e1] at hc
            exact hlastK _ c hc)
        rw [← h]
        congr 1
        apply String.ext
        rw [hdata, hT]
        simp [List.append_assoc]
      refine ⟨⟨[]⟩, ⟨e.ws2.data ++ (formatInt e.limit).data ++ e.ws3.data⟩,
        ⟨e.ws4.data ++ (formatInt e.blockSec).data⟩, ?_, ?_, hp1, hp2⟩
      · rw [htrim]
        unfold Split
        rw [splitOn_three ':' [] _ _ (List.not_mem_nil _) m1 m2]
        rfl
      · have : e.token = ⟨[]⟩ := String.ext hT
        rw [this]
        rfl
    · -- a token: it starts the trimmed entry
      have hhead : ∀ c, e.token.data.head? = some c → isSpace c = false := by
        intro c hc
        rw [hc] at t3
        simpa using t3
      have hlast : ∀ c, e.token.data.getLast? = some c → isSpace c = false := by
        intro c hc
        rw [hc] at t4
        simpa using t4
      have htrim : TrimSpace e.text = ⟨(e.token.data ++ e.ws1.data) ++ ':' ::
          ((e.ws2.data ++ (formatInt e.limit).data ++ e.ws3.data) ++ ':' ::
            (e.ws4.data ++ (formatInt e.blockSec).data))⟩ := by
        have h := TrimSpace_pad e.ws0.data
          ((e.token.data ++ e.ws1.data) ++ ':' ::
            ((e.ws2.data ++ (formatInt e.limit).data ++ e.ws3.data) ++ ':' ::
              (e.ws4.data ++ (formatInt e.blockSec).data))) e.ws5.data s0 s5
          (fun c hc => by
            rw [List.append_assoc, List.head?_append_of_ne_nil _ hT] at hc
            exact hhead c hc)
          (fun c hc => by
            have e1 : ((e.token.data ++ e.ws1.data) ++ ':' ::
                ((e.ws2.data ++ (formatInt e.limit).data ++ e.ws3.data)
                ++ ':' :: (e.ws4.data ++ (formatInt e.blockSec).data)))
                = ((e.token.data ++ e.ws1.data) ++ ':' ::
                    ((e.ws2.data ++ (formatInt e.limit).data ++ e.ws3.data) ++ [':']))
                  ++ (e.ws4.data ++ (formatInt e.blockSec).data) := by simp
            rw [e1] at hc
            exact hlastK _ c hc)
        rw [← h]
        congr 1
        apply String.ext
        rw [hdata]
        simp [List.append_assoc]
      have m0 : ':' ∉ e.token.data ++ e.ws1.data := by
        simp only [List.mem_append, not_or]
        exact ⟨t1, c1⟩
      refine ⟨⟨e.token.data ++ e.ws1.data⟩,
        ⟨e.ws2.data ++ (formatInt e.limit).data ++ e.ws3.data⟩,
        ⟨e.ws4.data ++ (formatInt e.blockSec).data⟩, ?_, ?_, hp1, hp2⟩
      · rw [htrim]
        unfold Split
        rw [splitOn_three ':' _ _ _ m0 m1 m2]
        rfl
      · have h := TrimSpace_pad [] e.token.data e.ws1.data (fun c hc => absurd hc
          (List.not_mem_nil _)) s1 hhead hlast
        simpa using h

/-! ## Loading well-formed entries -/

/-- No wrap-around in the duration when the seconds times 10^9 fit. -/
theorem duration_no_wrap (k : Int) (h1 : -(2 ^ 63) ≤ k * 10 ^ 9) (h2 : k * 10 ^ 9 < 2 ^ 63) :
    wrapInt64 (k * Second) = k * Second := by
  unfold wrapInt64 Second
  omega

/-- The loop reads well-formed entries one after the other into the map. -/
theorem loop_well_formed (es : List EntryText) (hwf : ∀ e ∈ es, e.wellFormed = true) :
    ∀ configs : List (String × TokenConfig),
      parseTokenConfigs.loop (es.map EntryText.text) configs
        = (some (es.foldl (fun m e => mapSet m e.token e.config) configs), none) := by
  induction es with
  | nil => intro configs; rfl
  | cons e es ih =>
    intro configs
    have hw := hwf e (List.mem_cons_self _ _)
    obtain ⟨_, p0, p1, p2, hs, h0, h1, h2⟩ := entry_reads e hw
    unfold EntryText.wellFormed at hw
    simp only [Bool.and_eq_true, decide_eq_true_eq] at hw
    obtain ⟨⟨⟨⟨_, r1⟩, r2⟩, r3⟩, r4⟩ := hw
    have a1 : Atoi (TrimSpace p1) = (e.limit, none) := by
      rw [h1]
      exact Atoi_formatInt e.limit r1 r2
    have hk : -(2 ^ 63) ≤ e.blockSec ∧ e.blockSec < 2 ^ 63 := by
      constructor <;> omega
    have a2 : Atoi (TrimSpace p2) = (e.blockSec, none) := by
      rw [h2]
      exact Atoi_formatInt e.blockSec hk.1 hk.2
    rw [List.map_cons, loop_cons_ok e.text _ configs p0 p1 p2 e.limit e.blockSec hs a1 a2,
      ih (fun x hx => hwf x (List.mem_cons_of_mem _ hx)), h0, duration_no_wrap _ r3 r4]
    rfl

/-- With tokens that differ, the map is the list of the entries read, the
last one first. -/
theorem foldl_mapSet_distinct (es : List EntryText) :
    ∀ configs : List (String × TokenConfig),
      (es.map EntryText.token).Nodup →
      (∀ e ∈ es, ∀ p ∈ configs, p.1 ≠ e.token) →
      es.foldl (fun m e => mapSet m e.token e.config) configs
        = (es.map (fun e => (e.token, e.config))).reverse ++ configs := by
  induction es with
  | nil => intro configs _ _; rfl
  | cons e es ih =>
    intro configs hnd hdis
    rw [List.map_cons, List.nodup_cons] at hnd
    have hset : mapSet configs e.token e.config = (e.token, e.config) :: configs := by
      unfold mapSet
      congr 1
      rw [List.filter_eq_self]
      intro p hp
      simpa using hdis e (List.mem_cons_self _ _) p hp
    rw [List.foldl_cons, hset, ih _ hnd.2]
    · simp
    · intro x hx p hp
      rcases List.mem_cons.mp hp with rfl | hp
      · intro heq
        apply hnd.1
        rw [show e.token = x.token from heq]
        exact List.mem_map_of_mem _ hx
      · exact hdis x (List.mem_cons_of_mem _ hx) p hp

/-- Looking up a key of a list of pairs whose keys differ. -/
theorem lookup_of_mem_nodup (l : List (String × TokenConfig)) (hnd : (l.map Prod.fst).Nodup)
    (k : String) (v : TokenConfig) (h : (k, v) ∈ l) : l.lookup k = some v := by
  induction l with
  | nil => exact absurd h (List.not_mem_nil _)
  | cons p l ih =>
    rw [List.map_cons, List.nodup_cons] at hnd
    rcases List.mem_cons.mp h with heq | hmem
    · subst heq
      simp [List.lookup]
    · have hne : k ≠ p.1 := by
        intro hk
        exact hnd.1 (List.mem_map.mpr ⟨(k, v), hmem, hk⟩)
      have hbeq : (k == p.1) = false := by simpa using hne
      obtain ⟨pk, pv⟩ := p
      simp only [List.lookup, hbeq]
      exact ih hnd.2 hmem

/-- C15: `parseTokenConfigs("")` is the empty map without error. For a list
of one or more entries with tokens that differ and hold no colon, no comma and
no white space at their ends, with limits that are `int`s and block seconds
whose product with 10^9 fits in 64 bits, written `token:limit:blockSec` with
the numbers in decimal and any white space around the fields (hence around
the entries) and joined by commas, `parseTokenConfigs` succeeds; the map it
returns has as many entries as the list and sends each token to its limit and
to its seconds as a duration. -/
theorem parse_well_formed (es : List EntryText) (hne : es ≠ [])
    (hwf : ∀ e ∈ es, e.wellFormed = true) (hnd : (es.map EntryText.token).Nodup) :
    parseTokenConfigs "" = (some [], none) ∧
    parseTokenConfigs (",".intercalate (es.map EntryText.text))
      = (some (es.map (fun e => (e.token, e.config))).reverse, none) ∧
    (es.map (fun e => (e.token, e.config))).reverse.length = es.length ∧
    (∀ e ∈ es,
      TokenConfigMap.get (some (es.map (fun e => (e.token, e.config))).reverse) e.token
        = some { Limit := e.limit, BlockDuration := e.blockSec * 1000000000 }) := by
  refine ⟨by decide, ?_, by simp, ?_⟩
  · have hsplit : Split (",".intercalate (es.map EntryText.text)) ','
        = es.map EntryText.text := by
      apply Split_intercalate ',' (es.map EntryText.text) (by simpa using hne)
      intro a ha
      obtain ⟨e, he, rfl⟩ := List.mem_map.mp ha
      exact (entry_reads e (hwf e he)).1
    have hnonempty : ",".intercalate (es.map EntryText.text) ≠ "" := by
      intro h
      have h1 := hsplit
      rw [h] at h1
      cases es with
      | nil => exact hne rfl
      | cons e es =>
        have h2 : Split "" ',' = [""] := by decide
        rw [h2, List.map_cons] at h1
        have h3 := (List.cons.inj h1).1
        obtain ⟨_, p0, p1, p2, hs, _⟩ := entry_reads e (hwf e (List.mem_cons_self _ _))
        rw [← h3] at hs
        have h4 : Split (TrimSpace "") ':' = [""] := by decide
        rw [h4] at hs
        simp at hs
    unfold parseTokenConfigs
    rw [if_neg hnonempty, hsplit, loop_well_formed es hwf,
      foldl_mapSet_distinct es [] hnd (fun _ _ p hp => absurd hp (List.not_mem_nil _))]
    simp
  · intro e he
    unfold TokenConfigMap.get
    simp only
    apply lookup_of_mem_nodup
    · rw [List.map_reverse, List.map_map]
      exact List.nodup_reverse.mpr hnd
    · rw [List.mem_reverse]
      exact List.mem_map_of_mem (fun e => (e.token, e.config)) he

/-- Witness of C15: the two entries of `TestLoad_TokensWithSpaces`. -/
theorem parse_well_formed_witness :
    parseTokenConfigs " token1:100:300 , token2:50:600 "
      = (some [("token2", { Limit := 50, BlockDuration := 600000000000 }),
          ("token1", { Limit := 100, BlockDuration := 300000000000 })], none) :=
  (parse_well_formed entries_TokensWithSpaces (by decide) (by decide) (by decide)).2.1

/-! ## The Redis store on the model server -/

section Mini

theorem live_put_same (w : RedisWorld) (name : String) (r : RedisRecord)
    (h : ∀ t, r.expireAt = some t → w.now < t) : (w.put name r).live name = some r := by
  unfold RedisWorld.live RedisWorld.put
  simp only [if_true]
  cases he : r.expireAt with
  | none => rfl
  | some t => simp [h t he]

theorem live_put_other (w : RedisWorld) (name other : String) (r : RedisRecord)
    (h : other ≠ name) : (w.put name r).live other = w.live other := by
  unfold RedisWorld.live RedisWorld.put
  simp only [if_neg h]

theorem put_put (w : RedisWorld) (name : String) (r1 r2 : RedisRecord) :
    (w.put name r1).put name r2 = w.put name r2 := by
  unfold RedisWorld.put
  simp only [RedisWorld.mk.injEq, true_and]
  funext n
  by_cases h : n = name <;> simp [h]

/-- A live record has its expiry ahead. -/
theorem live_expiry (w : RedisWorld) (name : String) (r : RedisRecord)
    (h : w.live name = some r) : ∀ t, r.expireAt = some t → w.now < t := by
  intro t ht
  unfold RedisWorld.live at h
  cases hr : w.records name with
  | none => rw [hr] at h; exact absurd h (by simp)
  | some r2 =>
    rw [hr] at h
    simp only at h
    cases he : r2.expireAt with
    | none =>
      rw [he] at h
      simp only [Option.some.injEq] at h
      subst h
      rw [he] at ht
      exact absurd ht (by simp)
    | some t2 =>
      rw [he] at h
      simp only at h
      by_cases hlt : w.now < t2
      · rw [if_pos hlt] at h
        simp only [Option.some.injEq] at h
        subst h
        rw [he] at ht
        simp only [Option.some.injEq] at ht
        subst ht
        exact hlt
      · rw [if_neg hlt] at h
        exact absurd h (by simp)

/-- A record that is not live stays so as time goes on. -/
theorem live_none_later (w : RedisWorld) (name : String) (t : Int) (ht : w.now ≤ t)
    (h : w.live name = none) : (w.atTime t).live name = none := by
  unfold RedisWorld.live RedisWorld.atTime at *
  cases hr : w.records name with
  | none => simp
  | some r =>
    rw [hr] at h
    simp only at h ⊢
    cases he : r.expireAt with
    | none => rw [he] at h; exact absurd h (by simp)
    | some t2 =>
      rw [he] at h
      simp only at h ⊢
      by_cases hlt : w.now < t2
      · rw [if_pos hlt] at h
        exact absurd h (by simp)
      · rw [if_neg (by omega)]

theorem run_Exists (w : RedisWorld) (name : String) :
    w.run (RedisCmd.Exists name) = ((if (w.live name).isSome = true then 1 else 0), w) := by
  show (match w.live name with
    | some _ => ((1 : Int), w)
    | none => (0, w)) = _
  cases w.live name <;> rfl

/-- `IsBlocked` on the model server reads the block record. -/
theorem mini_IsBlocked (key : String) (w : RedisWorld) :
    ((NewRedisStore miniRedis).toStore RedisWorld.unix).IsBlocked key w
      = ((w.blocked key, none), w) := by
  show RedisStore.IsBlocked (NewRedisStore miniRedis) key w = _
  unfold RedisStore.IsBlocked NewRedisStore miniRedis RedisWorld.blocked
  simp only [run_Exists]
  by_cases h : (w.live (blockedKey key)).isSome = true
  · rw [if_pos h, h]
    rfl
  · rw [if_neg h]
    simp only [Bool.not_eq_true] at h
    rw [h]
    rfl

/-- `Increment` on the model server adds one to the counter of the second
and gives the record two seconds to live. -/
theorem mini_Increment (key : String) (w : RedisWorld) :
    ((NewRedisStore miniRedis).toStore RedisWorld.unix).Increment key 1 w
      = ((w.count key w.unix + 1, none),
          w.put (windowKey key w.unix)
            { value := w.count key w.unix + 1, expireAt := some (w.now + 2000000000) }) := by
  show RedisStore.Increment (NewRedisStore miniRedis) RedisWorld.unix key 1 w = _
  have httl : wrapInt64 (wrapInt64 (1 + 1) * Second) = 2000000000 := by decide
  have hsec : formatSec 2000000000 * Second = 2000000000 := by decide
  unfold RedisStore.Increment NewRedisStore miniRedis
  simp only [httl, RedisWorld.runAll, RedisWorld.count]
  cases hl : w.live (windowKey key w.unix) with
  | none =>
    have h1 : w.run (RedisCmd.Incr (windowKey key w.unix))
        = (1, w.put (windowKey key w.unix) { value := 1, expireAt := none }) := by
      simp only [RedisWorld.run, hl]
    have h2 : (w.put (windowKey key w.unix) { value := 1, expireAt := none }).live
        (windowKey key w.unix) = some { value := 1, expireAt := none } :=
      live_put_same _ _ _ (fun t ht => absurd ht (by simp))
    rw [h1]
    simp only [RedisWorld.run, h2, put_put, List.getD_cons_zero, hsec]
    rfl
  | some r =>
    have h1 : w.run (RedisCmd.Incr (windowKey key w.unix))
        = (r.value + 1, w.put (windowKey key w.unix)
            { value := r.value + 1, expireAt := r.expireAt }) := by
      simp only [RedisWorld.run, hl]
    have h2 : (w.put (windowKey key w.unix) { value := r.value + 1, expireAt := r.expireAt }).live
        (windowKey key w.unix) = some { value := r.value + 1, expireAt := r.expireAt } :=
      live_put_same _ _ _ (live_expiry w _ r hl)
    rw [h1]
    simp only [RedisWorld.run, h2, put_put, List.getD_cons_zero, hsec]
    rfl

/-- `Block` on the model server writes the block record. -/
theorem mini_Block (key : String) (d : Int) (w : RedisWorld) :
    ((NewRedisStore miniRedis).toStore RedisWorld.unix).Block key d w
      = (none, w.put (blockedKey key)
          { value := 1, expireAt := w.setExpireAt (blockedKey key) d }) := by
  rfl

/-- A whole number of milliseconds is sent as it is. -/
theorem setExpiry_ttl_exact (d : Int) (h0 : 0 < d) (hms : d % 1000000 = 0) :
    (setExpiry d).ttl = some d := by
  unfold setExpiry
  rw [if_pos h0]
  by_cases hp : usePrecise d = true
  · rw [if_pos hp]
    unfold SetExpiry.ttl formatMs Millisecond
    have hge : ¬ (0 < d ∧ d < 1000000) := by omega
    rw [if_neg hge, Int.tdiv_eq_ediv (by omega) (by decide)]
    simp only [Option.some.injEq]
    omega
  · rw [if_neg hp]
    unfold usePrecise Second at hp
    simp only [Bool.or_eq_true, decide_eq_true_eq, not_or, not_lt, ne_eq, not_not] at hp
    unfold SetExpiry.ttl formatSec Second
    have hge : ¬ (0 < d ∧ d < 1000000000) := by omega
    rw [if_neg hge, Int.tdiv_eq_ediv (by omega) (by decide)]
    have hmod := hp.2
    rw [Int.tmod_eq_emod (by omega) (by decide)] at hmod
    simp only [Option.some.injEq]
    omega

/-- A positive expiration is sent cut down to whole milliseconds, one
millisecond at least. -/
theorem setExpiry_ttl_pos (d : Int) (h0 : 0 < d) :
    ∃ ttl : Int, (setExpiry d).ttl = some ttl ∧ 0 < ttl ∧ d - 1000000 < ttl ∧
      ttl ≤ max d 1000000 := by
  unfold setExpiry
  rw [if_pos h0]
  by_cases hp : usePrecise d = true
  · rw [if_pos hp]
    unfold SetExpiry.ttl formatMs Millisecond
    by_cases hsmall : 0 < d ∧ d < 1000000
    · rw [if_pos hsmall]
      refine ⟨1 * 1000000, rfl, by decide, by omega, ?_⟩
      exact le_max_of_le_right (by decide)
    · rw [if_neg hsmall, Int.tdiv_eq_ediv (by omega) (by decide)]
      refine ⟨d / 1000000 * 1000000, rfl, by omega, by omega, ?_⟩
      exact le_max_of_le_left (by omega)
  · rw [if_neg hp]
    unfold usePrecise Second at hp
    simp only [Bool.or_eq_true, decide_eq_true_eq, not_or, not_lt, ne_eq, not_not] at hp
    unfold SetExpiry.ttl formatSec Second
    have hge : ¬ (0 < d ∧ d < 1000000000) := by omega
    rw [if_neg hge, Int.tdiv_eq_ediv (by omega) (by decide)]
    have hmod := hp.2
    rw [Int.tmod_eq_emod (by omega) (by decide)] at hmod
    refine ⟨d / 1000000000 * 1000000000, rfl, by omega, by omega, ?_⟩
    exact le_max_of_le_left (by omega)

/-- An expiration that is not positive is sent without a time to live. -/
theorem setExpiry_nonpos (d : Int) (h0 : d ≤ 0) :
    (setExpiry d).ttl = none ∧ (d ≠ -1 → setExpiry d = SetExpiry.noExpiry) ∧
    (d = -1 → setExpiry d = SetExpiry.KEEPTTL) := by
  unfold setExpiry KeepTTL
  rw [if_neg (by omega)]
  by_cases h1 : d = -1
  · rw [if_pos h1]
    exact ⟨rfl, fun h => absurd h1 h, fun _ => rfl⟩
  · rw [if_neg h1]
    exact ⟨rfl, fun _ => rfl, fun h => absurd h h1⟩

/-- The expiry `SET` gives a record lies ahead. -/
theorem setExpireAt_ahead (w : RedisWorld) (name : String) (d : Int) :
    ∀ x, w.setExpireAt name d = some x → w.now < x := by
  intro x hx
  unfold RedisWorld.setExpireAt at hx
  by_cases h0 : 0 < d
  · obtain ⟨ttl, h1, h2, _, _⟩ := setExpiry_ttl_pos d h0
    cases he : setExpiry d with
    | PX ms =>
      rw [he] at hx h1
      simp only [SetExpiry.ttl, Option.some.injEq] at hx h1
      omega
    | EX sec =>
      rw [he] at hx h1
      simp only [SetExpiry.ttl, Option.some.injEq] at hx h1
      omega
    | KEEPTTL =>
      rw [he] at h1
      exact absurd h1 (by simp [SetExpiry.ttl])
    | noExpiry =>
      rw [he] at h1
      exact absurd h1 (by simp [SetExpiry.ttl])
  · obtain ⟨_, h2, h3⟩ := setExpiry_nonpos d (by omega)
    by_cases h1 : d = -1
    · rw [h3 h1] at hx
      simp only at hx
      cases hl : w.live name with
      | none => rw [hl] at hx; exact absurd hx (by simp)
      | some r =>
        rw [hl] at hx
        exact live_expiry w name r hl x hx
    · rw [h2 h1] at hx
      exact absurd hx (by simp)

/-- The key of a request starts with `ip:` or with `token:`. -/
theorem resolve_key_shape {σ : Type} (rl : RateLimiter σ) (ip token : String) :
    (rl.resolve ip token).1 = "ip:" ++ ip ∨ (rl.resolve ip token).1 = "token:" ++ token := by
  by_cases h : token = "" ∨ rl.tokenConfigs.get token = none
  · left
    rw [resolve_of_unconfigured rl ip token h]
  · right
    push_neg at h
    obtain ⟨c, hc⟩ := Option.ne_none_iff_exists'.mp h.2
    rw [resolve_of_configured rl ip token h.1 hc]

/-- The counter record of a request key is not its block record. -/
theorem windowKey_ne_blockedKey {σ : Type} (rl : RateLimiter σ) (ip token : String)
    (n : Int) (k2 : String) :
    windowKey (rl.resolve ip token).1 n ≠ blockedKey k2 := by
  intro h
  rcases resolve_key_shape rl ip token with hk | hk <;> rw [hk] at h
  · have hd := congrArg String.data h
    simp only [windowKey, blockedKey, String.data_append, List.append_assoc,
      List.cons_append, List.cons.injEq] at hd
    simp at hd
  · have hd := congrArg String.data h
    simp only [windowKey, blockedKey, String.data_append, List.append_assoc,
      List.cons_append, List.cons.injEq] at hd
    simp at hd

end Mini

/-! ## Two adjacent windows -/

/-- What each store call on the key of a request keeps, a run keeps. -/
theorem Allow_invariant {σ : Type} (rl : RateLimiter σ) (ip token : String)
    {key : String} {limit dur : Int} (hr : rl.resolve ip token = (key, limit, dur))
    (Inv : σ → Prop)
    (hIB : ∀ t, Inv t → Inv (rl.store.IsBlocked key t).2)
    (hInc : ∀ t, Inv t → Inv (rl.store.Increment key 1 t).2)
    (hBlk : ∀ t, Inv t → Inv (rl.store.Block key dur t).2) :
    ∀ (n : Nat) (s : σ), Inv s → Inv (rl.AllowN ip token n s).2 := by
  intro n
  induction n with
  | zero => intro s hs; exact hs
  | succ n ih =>
    intro s hs
    rw [AllowN_succ]
    apply ih
    rcases Allow_state_cases rl ip token s hr with h | h | h <;> rw [h]
    · exact hIB s hs
    · exact hInc _ (hIB s hs)
    · exact hBlk _ (hInc _ (hIB s hs))

/-- On a store that is free of faults on the key, the runs of one window. -/
theorem AllowN_window {σ : Type} (rl : RateLimiter σ) (ip token : String) (s : σ)
    (key : String) (limit dur : Int) (hr : rl.resolve ip token = (key, limit, dur))
    (hL : 0 ≤ limit) (counter : σ → Int) (blocked : σ → Bool)
    (hb_res : ∀ t, (rl.store.IsBlocked key t).1 = (blocked t, none))
    (hb_cnt : ∀ t, counter (rl.store.IsBlocked key t).2 = counter t)
    (hb_blk : ∀ t, blocked (rl.store.IsBlocked key t).2 = blocked t)
    (hi_res : ∀ t, (rl.store.Increment key 1 t).1 = (counter t + 1, none))
    (hi_cnt : ∀ t, counter (rl.store.Increment key 1 t).2 = counter t + 1)
    (hi_blk : ∀ t, blocked (rl.store.Increment key 1 t).2 = blocked t)
    (hk_res : ∀ t, (rl.store.Block key dur t).1 = none)
    (hk_blk : ∀ t, blocked (rl.store.Block key dur t).2 = true)
    (h0 : counter s = 0) (hnb : blocked s = false) (N : Nat) :
    (rl.AllowN ip token N s).1
      = List.replicate (min N limit.toNat) (true, none)
        ++ List.replicate (N - limit.toNat) (false, none) ∧
    blocked (rl.AllowN ip token N s).2 = decide (limit.toNat < N) := by
  have hcast : ((limit.toNat : Nat) : Int) = limit := Int.toNat_of_nonneg hL
  by_cases hN : N ≤ limit.toNat
  · have hle : counter s + (N : Int) ≤ limit := by
      rw [h0, ← hcast]
      omega
    obtain ⟨r1, _, r3⟩ := AllowN_counting rl ip token hr counter blocked
      hb_res hb_cnt hb_blk hi_res hi_cnt hi_blk N s hnb hle
    rw [r1, r3, Nat.min_eq_left hN, Nat.sub_eq_zero_of_le hN]
    simp [Nat.not_lt.mpr hN]
  · have hN2 : limit.toNat < N := Nat.lt_of_not_le hN
    obtain ⟨m, hm⟩ : ∃ m, N = limit.toNat + (m + 1) := ⟨N - limit.toNat - 1, by omega⟩
    have hle : counter s + (limit.toNat : Int) ≤ limit := by
      rw [h0, hcast]
      omega
    obtain ⟨r1, r2, r3⟩ := AllowN_counting rl ip token hr counter blocked
      hb_res hb_cnt hb_blk hi_res hi_cnt hi_blk limit.toNat s hnb hle
    have hlt : limit < counter (rl.AllowN ip token limit.toNat s).2 + 1 := by
      rw [r2, h0, hcast]
      omega
    obtain ⟨t1, t2⟩ := Allow_trip rl ip token hr counter blocked
      hb_res hb_cnt hi_res hk_res hk_blk (rl.AllowN ip token limit.toNat s).2 r3 hlt
    obtain ⟨b1, b2⟩ := AllowN_blocked rl ip token hr blocked hb_res hb_blk m
      (rl.Allow ip token (rl.AllowN ip token limit.toNat s).2).2 t2
    rw [hm, AllowN_add, Nat.add_comm m 1, AllowN_add]
    simp only [RateLimiter.AllowN]
    rw [r1, t1, b1, b2]
    have e1 : min (limit.toNat + (1 + m)) limit.toNat = limit.toNat := by omega
    have e2 : limit.toNat + (1 + m) - limit.toNat = 1 + m := by omega
    rw [e1, e2, Nat.add_comm 1 m, List.replicate_succ]
    simp

/-- As time goes on a record stays as it is or expires. -/
theorem live_later (w : RedisWorld) (name : String) (t : Int) (ht : w.now ≤ t) :
    (w.atTime t).live name = none ∨ (w.atTime t).live name = w.live name := by
  unfold RedisWorld.live RedisWorld.atTime
  cases hr : w.records name with
  | none => right; rfl
  | some r =>
    simp only
    cases he : r.expireAt with
    | none => right; rfl
    | some t2 =>
      simp only
      by_cases h1 : t < t2
      · right
        have h2 : w.now < t2 := by omega
        rw [if_pos h1, if_pos h2]
      · left; rw [if_neg h1]

theorem count_later (w : RedisWorld) (key : String) (sec t : Int) (ht : w.now ≤ t)
    (h : w.count key sec = 0) : (w.atTime t).count key sec = 0 := by
  unfold RedisWorld.count at h ⊢
  rcases live_later w (windowKey key sec) t ht with h1 | h1
  · rw [h1]
  · rw [h1]
    exact h

theorem blocked_later (w : RedisWorld) (key : String) (t : Int) (ht : w.now ≤ t)
    (h : w.blocked key = false) : (w.atTime t).blocked key = false := by
  unfold RedisWorld.blocked at h ⊢
  rcases live_later w (blockedKey key) t ht with h1 | h1
  · rw [h1]
    rfl
  · rw [h1]
    exact h

/-- The Redis store on the model server is free of faults on the key of a
request, seen through the counter of the current second and the block
record. -/
theorem mini_fault_free (ipLimit ipBlockDuration : Int) (tokenConfigs : TokenConfigMap)
    (ip token : String) (key : String) (limit dur : Int)
    (hr : (rl_redis ipLimit ipBlockDuration tokenConfigs).resolve ip token = (key, limit, dur)) :
    (∀ t, ((rl_redis ipLimit ipBlockDuration tokenConfigs).store.IsBlocked key t).1
      = (t.blocked key, none)) ∧
    (∀ t, ((rl_redis ipLimit ipBlockDuration tokenConfigs).store.IsBlocked key t).2 = t) ∧
    (∀ t, ((rl_redis ipLimit ipBlockDuration tokenConfigs).store.Increment key 1 t).1
      = (t.count key t.unix + 1, none)) ∧
    (∀ t, ((rl_redis ipLimit ipBlockDuration tokenConfigs).store.Increment key 1 t).2
      = t.put (windowKey key t.unix)
          { value := t.count key t.unix + 1, expireAt := some (t.now + 2000000000) }) ∧
    (∀ t, ((rl_redis ipLimit ipBlockDuration tokenConfigs).store.Block key dur t).1 = none) ∧
    (∀ t, ((rl_redis ipLimit ipBlockDuration tokenConfigs).store.Block key dur t).2
      = t.put (blockedKey key)
          { value := 1, expireAt := t.setExpireAt (blockedKey key) dur }) ∧
    (∀ (n : Int) (k2 : String), windowKey key n ≠ blockedKey k2) := by
  have hkey : key = ((rl_redis ipLimit ipBlockDuration tokenConfigs).resolve ip token).1 := by
    rw [hr]
  refine ⟨?_, ?_, ?_, ?_, ?_, ?_, ?_⟩
  · intro t
    show (((NewRedisStore miniRedis).toStore RedisWorld.unix).IsBlocked key t).1 = _
    rw [mini_IsBlocked]
  · intro t
    show (((NewRedisStore miniRedis).toStore RedisWorld.unix).IsBlocked key t).2 = _
    rw [mini_IsBlocked]
  · intro t
    show (((NewRedisStore miniRedis).toStore RedisWorld.unix).Increment key 1 t).1 = _
    rw [mini_Increment]
  · intro t
    show (((NewRedisStore miniRedis).toStore RedisWorld.unix).Increment key 1 t).2 = _
    rw [mini_Increment]
  · intro t
    rfl
  · intro t
    rfl
  · intro n k2
    rw [hkey]
    exact windowKey_ne_blockedKey _ ip token n k2

/-- The views of the model server after the store calls on a key. -/
theorem mini_views (key : String) (t : RedisWorld) (v : Int) (dur : Int)
    (hne : ∀ (n : Int) (k2 : String), windowKey key n ≠ blockedKey k2) :
    (t.put (windowKey key t.unix)
        { value := v, expireAt := some (t.now + 2000000000) }).count key t.unix = v ∧
    (t.put (windowKey key t.unix)
        { value := v, expireAt := some (t.now + 2000000000) }).blocked key = t.blocked key ∧
    (t.put (blockedKey key)
        { value := 1, expireAt := t.setExpireAt (blockedKey key) dur }).blocked key
      = true := by
  refine ⟨?_, ?_, ?_⟩
  · unfold RedisWorld.count
    rw [live_put_same]
    intro x hx
    simp only [Option.some.injEq] at hx
    omega
  · unfold RedisWorld.blocked
    rw [live_put_other _ _ _ _ (fun h => hne _ _ h.symm)]
  · unfold RedisWorld.blocked
    rw [live_put_same]
    · rfl
    · exact setExpireAt_ahead t (blockedKey key) dur

/-- C18: on the model server, where the counter of a key is kept per Unix
second, let `(key, limit, dur)` be the resolved triple with `0 ≤ limit`, and
let the key be unblocked with its counters of the seconds `s` and `s + 1` at
0 when the clock is in second `s`. Then `limit` runs in second `s` all return
`(true, nil)`, and `limit` further runs made once the clock is in second
`s + 1` all return `(true, nil)` as well: twice `limit` runs are admitted
across the two windows. Within each of the two windows the runs after the
first `limit` return `(false, nil)`. -/
theorem two_windows_admit_twice (ipLimit ipBlockDuration : Int) (tokenConfigs : TokenConfigMap)
    (ip token : String) (w0 : RedisWorld) (key : String) (limit dur : Int)
    (hr : (rl_redis ipLimit ipBlockDuration tokenConfigs).resolve ip token = (key, limit, dur))
    (hL : 0 ≤ limit) (s : Int) (hs : w0.unix = s) (hnb : w0.blocked key = false)
    (hc0 : w0.count key s = 0) (hc1 : w0.count key (s + 1) = 0)
    (t1 : Int) (ht : w0.now ≤ t1) (ht1 : t1 / 1000000000 = s + 1) :
    ((rl_redis ipLimit ipBlockDuration tokenConfigs).AllowN ip token limit.toNat w0).1
      = List.replicate limit.toNat (true, none) ∧
    ((rl_redis ipLimit ipBlockDuration tokenConfigs).AllowN ip token limit.toNat
        (((rl_redis ipLimit ipBlockDuration tokenConfigs).AllowN ip token limit.toNat w0).2.atTime
          t1)).1
      = List.replicate limit.toNat (true, none) ∧
    (∀ N : Nat,
      ((rl_redis ipLimit ipBlockDuration tokenConfigs).AllowN ip token N w0).1
        = List.replicate (min N limit.toNat) (true, none)
          ++ List.replicate (N - limit.toNat) (false, none)) ∧
    (∀ N : Nat,
      ((rl_redis ipLimit ipBlockDuration tokenConfigs).AllowN ip token N
          (((rl_redis ipLimit ipBlockDuration tokenConfigs).AllowN ip token limit.toNat
            w0).2.atTime t1)).1
        = List.replicate (min N limit.toNat) (true, none)
          ++ List.replicate (N - limit.toNat) (false, none)) := by
  obtain ⟨f1, f2, f3, f4, f5, f6, f7⟩ :=
    mini_fault_free ipLimit ipBlockDuration tokenConfigs ip token key limit dur hr
  have hb_cnt : ∀ t : RedisWorld, (((rl_redis ipLimit ipBlockDuration tokenConfigs).store.IsBlocked
      key t).2).count key (((rl_redis ipLimit ipBlockDuration tokenConfigs).store.IsBlocked
      key t).2).unix = t.count key t.unix := by
    intro t; rw [f2]
  have hb_blk : ∀ t : RedisWorld, (((rl_redis ipLimit ipBlockDuration tokenConfigs).store.IsBlocked
      key t).2).blocked key = t.blocked key := by
    intro t; rw [f2]
  have hi_cnt : ∀ t : RedisWorld, (((rl_redis ipLimit ipBlockDuration tokenConfigs).store.Increment
      key 1 t).2).count key (((rl_redis ipLimit ipBlockDuration tokenConfigs).store.Increment
      key 1 t).2).unix = t.count key t.unix + 1 := by
    intro t
    rw [f4]
    exact (mini_views key t _ dur f7).1
  have hi_blk : ∀ t : RedisWorld, (((rl_redis ipLimit ipBlockDuration tokenConfigs).store.Increment
      key 1 t).2).blocked key = t.blocked key := by
    intro t
    rw [f4]
    exact (mini_views key t _ dur f7).2.1
  have hk_blk : ∀ t : RedisWorld, (((rl_redis ipLimit ipBlockDuration tokenConfigs).store.Block
      key dur t).2).blocked key = true := by
    intro t
    rw [f6]
    exact (mini_views key t 0 dur f7).2.2
  have window : ∀ (w : RedisWorld), w.count key w.unix = 0 → w.blocked key = false →
      ∀ N : Nat, ((rl_redis ipLimit ipBlockDuration tokenConfigs).AllowN ip token N w).1
        = List.replicate (min N limit.toNat) (true, none)
          ++ List.replicate (N - limit.toNat) (false, none) ∧
        ((rl_redis ipLimit ipBlockDuration tokenConfigs).AllowN ip token N w).2.blocked key
          = decide (limit.toNat < N) := by
    intro w hw0 hwb N
    exact AllowN_window (rl_redis ipLimit ipBlockDuration tokenConfigs) ip token w key limit dur
      hr hL (fun t => t.count key t.unix) (fun t => t.blocked key)
      f1 hb_cnt hb_blk f3 hi_cnt hi_blk f5 hk_blk hw0 hwb N
  -- the first window
  have hw0 : w0.count key w0.unix = 0 := by rw [hs]; exact hc0
  have first := window w0 hw0 hnb
  -- what the first window leaves for the second
  have hinv := Allow_invariant (rl_redis ipLimit ipBlockDuration tokenConfigs) ip token hr
    (fun t => t.now = w0.now ∧ t.count key (s + 1) = 0)
    (fun t h => by rw [f2]; exact h)
    (fun t h => by
      rw [f4]
      refine ⟨h.1, ?_⟩
      have hu : t.unix = s := by
        unfold RedisWorld.unix at hs ⊢
        rw [h.1]
        exact hs
      have hne : windowKey key (s + 1) ≠ windowKey key t.unix := by
        intro he
        have := (windowKey_inj _ _ _ _ he).2
        omega
      unfold RedisWorld.count
      rw [live_put_other _ _ _ _ hne]
      exact h.2)
    (fun t h => by
      rw [f6]
      refine ⟨h.1, ?_⟩
      unfold RedisWorld.count
      rw [live_put_other _ _ _ _ (f7 (s + 1) key)]
      exact h.2)
    limit.toNat w0 ⟨rfl, hc1⟩
  have hlater : ((rl_redis ipLimit ipBlockDuration tokenConfigs).AllowN ip token limit.toNat
      w0).2.now ≤ t1 := by
    rw [hinv.1]
    exact ht
  have hb1 : ((rl_redis ipLimit ipBlockDuration tokenConfigs).AllowN ip token limit.toNat
      w0).2.blocked key = false := by
    rw [(first limit.toNat).2]
    simp
  have hunix : ((((rl_redis ipLimit ipBlockDuration tokenConfigs).AllowN ip token limit.toNat
      w0).2.atTime t1)).unix = s + 1 := ht1
  have second := window
    (((rl_redis ipLimit ipBlockDuration tokenConfigs).AllowN ip token limit.toNat w0).2.atTime t1)
    (by rw [hunix]; exact count_later _ key (s + 1) t1 hlater hinv.2)
    (blocked_later _ key t1 hlater hb1)
  refine ⟨?_, ?_, fun N => (first N).1, fun N => (second N).1⟩
  · have := (first limit.toNat).1
    simpa using this
  · have := (second limit.toNat).1
    simpa using this

/-- Witness of C18: limit 2 on an empty server; two runs in the second
1700000000 and two runs in the second 1700000001 are all allowed. -/
theorem two_windows_admit_twice_witness :
    ((rl_redis 2 300000000000 none).AllowN "192.168.1.1" "" 2 emptyWorld).1
        = [(true, none), (true, none)] ∧
    ((rl_redis 2 300000000000 none).AllowN "192.168.1.1" "" 2
        (((rl_redis 2 300000000000 none).AllowN "192.168.1.1" "" 2 emptyWorld).2.atTime
          1700000001000000000)).1
      = [(true, none), (true, none)] :=
  ⟨(two_windows_admit_twice 2 300000000000 none "192.168.1.1" "" emptyWorld
      "ip:192.168.1.1" 2 300000000000 (by decide) (by decide) 1700000000 (by decide)
      (by decide) (by decide) (by decide) 1700000001000000000 (by decide) (by decide)).1,
    (two_windows_admit_twice 2 300000000000 none "192.168.1.1" "" emptyWorld
      "ip:192.168.1.1" 2 300000000000 (by decide) (by decide) 1700000000 (by decide)
      (by decide) (by decide) (by decide) 1700000001000000000 (by decide) (by decide)).2.1⟩

/-! ## The records of the Redis store and their expiry -/

/-- The claim C10 fails on the code in its part "with TTL `d`": a block
duration of 0 loads (`RATE_LIMIT_IP_BLOCK_DURATION=0`), `Block(key, 0)` hands
0 to `SET`, the client then sends no expiry option, and the record is
written without expiry instead of expiring at once: an hour later
`IsBlocked` still reports true. A duration of 1.5 ms is sent as 1 ms. -/
theorem block_ttl_counterexample :
    (Load (envOf [("RATE_LIMIT_IP_BLOCK_DURATION", "0")])).1
      = some { RedisAddr := "redis:6379", RedisPassword := "", IPLimit := 10,
               IPBlockDuration := 0, TokenConfigs := some [] } ∧
    setExpiry 0 = SetExpiry.noExpiry ∧
    ((NewRedisStore miniRedis).Block "ip:192.168.1.1" 0 emptyWorld).2.records
        "ratelimit:blocked:ip:192.168.1.1"
      = some { value := 1, expireAt := none } ∧
    ((NewRedisStore miniRedis).Block "ip:192.168.1.1" 0 emptyWorld).2.records
        "ratelimit:blocked:ip:192.168.1.1"
      ≠ some { value := 1, expireAt := some (emptyWorld.now + 0) } ∧
    ((NewRedisStore miniRedis).IsBlocked "ip:192.168.1.1"
        (((NewRedisStore miniRedis).Block "ip:192.168.1.1" 0 emptyWorld).2.atTime
          (emptyWorld.now + 3600000000000))).1 = (true, none) ∧
    (setExpiry 1500000).ttl = some 1000000 := by
  decide

/-- C10, amended: `Increment` sends one pipeline of two commands on the
record named `"ratelimit:" + key + ":" +` the decimal Unix second of the
call; `IsBlocked` sends the one command `EXISTS` and `Block` the one command
`SET` (value 1, expiration `d`), both on the record named
`"ratelimit:blocked:" + key`; `IsBlocked` reports true exactly when `EXISTS`
succeeds with a positive count, which on the model server is exactly when
the record exists. The record `Block(key, d)` writes has the time to live
`d` when `d` is a positive whole number of milliseconds; for any positive `d`
its time to live is `d` cut down to whole milliseconds, one millisecond at
least; and for `d ≤ 0` it has no time to live of its own (`d = -1` keeps the
one the record had). So after `Block(key, d)` with `d` a positive whole
number of milliseconds the key is blocked until `d` has elapsed and is no
longer blocked a millisecond after that, and after `Block(key, d)` with
`d ≤ 0` other than -1 the key is blocked at every time. -/
theorem redis_record_names_and_ttl {ρ : Type} (r : RedisStore ρ) (unixNow : ρ → Int)
    (key : String) (s : ρ) (log : List (List RedisCmd)) :
    (∀ windowSec : Int,
      (r.recording.Increment (fun t => unixNow t.1) key windowSec (s, log)).2.2
        = log ++ [[RedisCmd.Incr ("ratelimit:" ++ key ++ ":" ++ formatInt (unixNow s)),
            RedisCmd.Expire ("ratelimit:" ++ key ++ ":" ++ formatInt (unixNow s))
              (wrapInt64 (wrapInt64 (windowSec + 1) * Second))]]) ∧
    (r.recording.IsBlocked key (s, log)).2.2
      = log ++ [[RedisCmd.Exists ("ratelimit:blocked:" ++ key)]] ∧
    (∀ d : Int, (r.recording.Block key d (s, log)).2.2
      = log ++ [[RedisCmd.Set ("ratelimit:blocked:" ++ key) 1 d]]) ∧
    ((r.IsBlocked key s).1.1 = true ↔
      (r.client.Exists ("ratelimit:blocked:" ++ key) s).1.2 = none ∧
      0 < (r.client.Exists ("ratelimit:blocked:" ++ key) s).1.1) ∧
    (∀ blocked : Bool, (r.IsBlocked key s).1 = (blocked, none) →
      (blocked = true ↔ 0 < (r.client.Exists ("ratelimit:blocked:" ++ key) s).1.1)) ∧
    (∀ d : Int, 0 < d → d % 1000000 = 0 → (setExpiry d).ttl = some d) ∧
    (∀ d : Int, 0 < d →
      ∃ ttl : Int, (setExpiry d).ttl = some ttl ∧ 0 < ttl ∧ d - 1000000 < ttl ∧
        ttl ≤ max d 1000000) ∧
    (∀ d : Int, d ≤ 0 →
      (setExpiry d).ttl = none ∧ (d ≠ -1 → setExpiry d = SetExpiry.noExpiry) ∧
      (d = -1 → setExpiry d = SetExpiry.KEEPTTL)) ∧
    (∀ w : RedisWorld,
      (NewRedisStore miniRedis).IsBlocked key w
        = (((w.live ("ratelimit:blocked:" ++ key)).isSome, none), w)) ∧
    (∀ (d : Int) (w : RedisWorld),
      ((NewRedisStore miniRedis).Block key d w).1 = none ∧
      (∀ name : String, name ≠ "ratelimit:blocked:" ++ key →
        ((NewRedisStore miniRedis).Block key d w).2.records name = w.records name) ∧
      (0 < d → d % 1000000 = 0 →
        ((NewRedisStore miniRedis).Block key d w).2.records ("ratelimit:blocked:" ++ key)
          = some { value := 1, expireAt := some (w.now + d) }) ∧
      (d ≤ 0 → d ≠ -1 →
        ((NewRedisStore miniRedis).Block key d w).2.records ("ratelimit:blocked:" ++ key)
          = some { value := 1, expireAt := none })) ∧
    (∀ (d : Int) (w : RedisWorld) (t : Int), 0 < d → d % 1000000 = 0 →
      (w.now ≤ t → t < w.now + d →
        ((NewRedisStore miniRedis).IsBlocked key
          (((NewRedisStore miniRedis).Block key d w).2.atTime t)).1 = (true, none)) ∧
      (w.now + d + 1000000 ≤ t →
        ((NewRedisStore miniRedis).IsBlocked key
          (((NewRedisStore miniRedis).Block key d w).2.atTime t)).1 = (false, none))) ∧
    (∀ (d : Int) (w : RedisWorld) (t : Int), d ≤ 0 → d ≠ -1 →
      (((NewRedisStore miniRedis).IsBlocked key
        (((NewRedisStore miniRedis).Block key d w).2.atTime t)).1 = (true, none))) := by
  have hIB : ∀ w : RedisWorld, (NewRedisStore miniRedis).IsBlocked key w
      = (((w.live (blockedKey key)).isSome, none), w) := fun w => mini_IsBlocked key w
  have hBlk : ∀ (d : Int) (w : RedisWorld), (NewRedisStore miniRedis).Block key d w
      = (none, w.put (blockedKey key)
          { value := 1, expireAt := w.setExpireAt (blockedKey key) d }) :=
    fun d w => mini_Block key d w
  have hexact : ∀ (d : Int) (w : RedisWorld), 0 < d → d % 1000000 = 0 →
      w.setExpireAt (blockedKey key) d = some (w.now + d) := by
    intro d w h0 hms
    have h := setExpiry_ttl_exact d h0 hms
    unfold RedisWorld.setExpireAt
    cases he : setExpiry d with
    | PX ms =>
      rw [he] at h
      simp only [SetExpiry.ttl, Option.some.injEq] at h
      simp only [h]
    | EX sec =>
      rw [he] at h
      simp only [SetExpiry.ttl, Option.some.injEq] at h
      simp only [h]
    | KEEPTTL => rw [he] at h; exact absurd h (by simp [SetExpiry.ttl])
    | noExpiry => rw [he] at h; exact absurd h (by simp [SetExpiry.ttl])
  have hnone : ∀ (d : Int) (w : RedisWorld), d ≤ 0 → d ≠ -1 →
      w.setExpireAt (blockedKey key) d = none := by
    intro d w h0 h1
    unfold RedisWorld.setExpireAt
    rw [(setExpiry_nonpos d h0).2.1 h1]
  refine ⟨?_, ?_, ?_, ?_, ?_, setExpiry_ttl_exact, setExpiry_ttl_pos, setExpiry_nonpos,
    hIB, ?_, ?_, ?_⟩
  · intro windowSec
    exact recording_Increment_log r unixNow key windowSec s log
  · unfold RedisStore.IsBlocked
    rcases h : r.recording.client.Exists (blockedKey key) (s, log) with ⟨⟨n, _ | e⟩, s1⟩
    all_goals
      simp only [h]
      have h2 := congrArg (fun x => x.2.2) h
      simp only [RedisStore.recording, RedisClient.recording] at h2
      rw [← h2]
      rfl
  · intro d
    unfold RedisStore.Block
    rcases h : r.recording.client.Set (blockedKey key) 1 d (s, log) with ⟨_ | e, s1⟩
    all_goals
      simp only [h]
      have h2 := congrArg (fun x => x.2.2) h
      simp only [RedisStore.recording, RedisClient.recording] at h2
      rw [← h2]
      rfl
  · unfold RedisStore.IsBlocked
    show _ ↔ (r.client.Exists (blockedKey key) s).1.2 = none ∧
      0 < (r.client.Exists (blockedKey key) s).1.1
    rcases h : r.client.Exists (blockedKey key) s with ⟨⟨n, _ | e⟩, s1⟩ <;> simp
  · intro blocked
    unfold RedisStore.IsBlocked
    show _ → (_ ↔ 0 < (r.client.Exists (blockedKey key) s).1.1)
    rcases h : r.client.Exists (blockedKey key) s with ⟨⟨n, _ | e⟩, s1⟩
    · simp only [Prod.mk.injEq, and_true]
      intro hb
      rw [← hb]
      simp
    · simp
  · intro d w
    rw [hBlk]
    refine ⟨rfl, ?_, ?_, ?_⟩
    · intro name hname
      have hname2 : name ≠ blockedKey key := hname
      simp only [RedisWorld.put, if_neg hname2]
    · intro h0 hms
      rw [hexact d w h0 hms]
      show (if blockedKey key = blockedKey key then _ else _) = _
      rw [if_pos rfl]
    · intro h0 h1
      rw [hnone d w h0 h1]
      show (if blockedKey key = blockedKey key then _ else _) = _
      rw [if_pos rfl]
  · intro d w t h0 hms
    rw [hIB, hBlk, hexact d w h0 hms]
    simp only [RedisWorld.live, RedisWorld.atTime, RedisWorld.put, if_true]
    constructor
    · intro _ ht
      simp [ht]
    · intro ht
      have hn : ¬ t < w.now + d := by omega
      simp [hn]
  · intro d w t h0 h1
    rw [hIB, hBlk, hnone d w h0 h1]
    simp only [RedisWorld.live, RedisWorld.atTime, RedisWorld.put, if_true]
    rfl

end RateLimit
